import Mathlib

/-! # libusbg (`src/usbg.c`): sibling queues, creators, store round trips, attribute codec

A shallow embedding of `src/usbg.c` and of the parts of libc it calls.

* C strings are lists of characters (`Str`); `strcmp` compares them byte-wise.
  The sizes of the `char[]` buffers the strings are copied into are not part
  of the embedding.
* The `TAILQ_*` macros of `<sys/queue.h>` are embedded at the level of their
  pointer assignments: a queue is a head (`tqh_first`, `tqh_last`) together with
  the `tqe_next` / `tqe_prev` fields of the elements allocated for it.  An
  element is named by its address (a natural number), and a pointer to a
  `struct type *` cell is a `Cell`: the head's `tqh_first` or some element's
  `tqe_next`.
* Functions that walk a queue carry a step bound, the number of elements
  allocated for the queue; `none` stands for a call that does not come back
  (a walk that never ends, a dereference of `NULL`, a read past a table or
  an array, a `free` of a pointer that was never set).
* The store is a namespace of directories, files and symbolic links addressed
  by path texts (`Store`), with `mkdir`, `symlink`, `readlink`, `fopen` and
  `scandir` as libc gives them; `alphasort` is taken in the C locale.
* What `usbg.c` takes from `usbg.h`, which is not among the sources, is a
  parameter (`Header`).  The answer of `malloc` is an argument of every
  function that allocates, and so are the bytes an array holds that the code
  reads without having set them (`Unset`).
* A function that changes the struct its argument points to takes the struct
  and gives it back.
-/

namespace Usbg

/-! ## Strings -/

/-- A C string: its bytes, without the terminating NUL. -/
abbrev Str := List Char

/-- The libc function `strcmp`: negative, zero or positive as the first string
is byte-wise below, equal to or above the second. -/
def strcmp : Str → Str → Int
  | [], [] => 0
  | [], _ :: _ => -1
  | _ :: _, [] => 1
  | a :: as, b :: bs => if a = b then strcmp as bs else (a.toNat : Int) - (b.toNat : Int)

/-! ## `<sys/queue.h>` tail queues -/

/-- The address of a pointer cell of a queue: `&head->tqh_first`, or
`&elm->field.tqe_next` of the element at address `p`. -/
inductive Cell where
  | head : Cell
  | next (p : Nat) : Cell
  deriving DecidableEq, Repr

/-- A `TAILQ_HEAD` together with the elements that were allocated for it.
`brk` is the address the next `malloc` returns; `elm p` is the payload of the
element at address `p`, `tqe_next p` and `tqe_prev p` its `TAILQ_ENTRY`. -/
structure TailQ (α : Type) where
  tqh_first : Option Nat
  tqh_last : Cell
  brk : Nat
  elm : Nat → α
  tqe_next : Nat → Option Nat
  tqe_prev : Nat → Cell

namespace TailQ

variable {α : Type}

/-- The access `*c` for a pointer cell `c`. -/
def load (q : TailQ α) : Cell → Option Nat
  | Cell.head => q.tqh_first
  | Cell.next p => q.tqe_next p

/-- The access `*c = v` for a pointer cell `c`. -/
def store (q : TailQ α) (c : Cell) (v : Option Nat) : TailQ α :=
  match c with
  | Cell.head => { q with tqh_first := v }
  | Cell.next p => { q with tqe_next := Function.update q.tqe_next p v }

/-- The assignment `elm->field.tqe_next = v`. -/
def setNext (q : TailQ α) (p : Nat) (v : Option Nat) : TailQ α :=
  { q with tqe_next := Function.update q.tqe_next p v }

/-- The assignment `elm->field.tqe_prev = c`. -/
def setPrev (q : TailQ α) (p : Nat) (c : Cell) : TailQ α :=
  { q with tqe_prev := Function.update q.tqe_prev p c }

/-- The call of `malloc` for one element, followed by the initialisation of
its payload: the new element gets the address `brk`. -/
def alloc (q : TailQ α) (x : α) : TailQ α :=
  { q with brk := q.brk + 1, elm := Function.update q.elm q.brk x }

end TailQ

variable {α : Type}

/-- The macro `TAILQ_INIT(head)`: `tqh_first = NULL; tqh_last = &tqh_first`. -/
def TAILQ_INIT [Inhabited α] : TailQ α :=
  { tqh_first := none, tqh_last := Cell.head, brk := 0,
    elm := fun _ => default, tqe_next := fun _ => none, tqe_prev := fun _ => Cell.head }

/-- The macro `TAILQ_EMPTY(head)`. -/
def TAILQ_EMPTY (q : TailQ α) : Bool := q.tqh_first.isNone

/-- The macro `TAILQ_FIRST(head)`. -/
def TAILQ_FIRST (q : TailQ α) : Option Nat := q.tqh_first

/-- The macro `TAILQ_LAST(head, headname)`:
`*(((struct headname *)((head)->tqh_last))->tqh_last)`.  The cast reads the
`TAILQ_ENTRY` that `tqh_last` points into as a head, so its `tqh_last` is that
element's `tqe_prev`; on an empty queue `tqh_last` is the head itself. -/
def TAILQ_LAST (q : TailQ α) : Option Nat :=
  match q.tqh_last with
  | Cell.head => q.load q.tqh_last
  | Cell.next e => q.load (q.tqe_prev e)

/-- The macro `TAILQ_INSERT_HEAD(head, elm, field)`:
```
if (((elm)->field.tqe_next = (head)->tqh_first) != NULL)
	(head)->tqh_first->field.tqe_prev = &(elm)->field.tqe_next;
else
	(head)->tqh_last = &(elm)->field.tqe_next;
(head)->tqh_first = (elm);
(elm)->field.tqe_prev = &(head)->tqh_first;
```
-/
def TAILQ_INSERT_HEAD (elm : Nat) (q : TailQ α) : TailQ α :=
  let q1 := q.setNext elm q.tqh_first
  let q2 := match q1.tqh_first with
    | some first => q1.setPrev first (Cell.next elm)
    | none => { q1 with tqh_last := Cell.next elm }
  let q3 := { q2 with tqh_first := some elm }
  q3.setPrev elm Cell.head

/-- The macro `TAILQ_INSERT_TAIL(head, elm, field)`:
```
(elm)->field.tqe_next = NULL;
(elm)->field.tqe_prev = (head)->tqh_last;
*(head)->tqh_last = (elm);
(head)->tqh_last = &(elm)->field.tqe_next;
```
-/
def TAILQ_INSERT_TAIL (elm : Nat) (q : TailQ α) : TailQ α :=
  let q1 := q.setNext elm none
  let q2 := q1.setPrev elm q1.tqh_last
  let q3 := q2.store q2.tqh_last (some elm)
  { q3 with tqh_last := Cell.next elm }

/-- The macro `TAILQ_INSERT_BEFORE(listelm, elm, field)`:
```
(elm)->field.tqe_prev = (listelm)->field.tqe_prev;
(elm)->field.tqe_next = (listelm);
*(listelm)->field.tqe_prev = (elm);
(listelm)->field.tqe_prev = &(elm)->field.tqe_next;
```
-/
def TAILQ_INSERT_BEFORE (listelm elm : Nat) (q : TailQ α) : TailQ α :=
  let q1 := q.setPrev elm (q.tqe_prev listelm)
  let q2 := q1.setNext elm (some listelm)
  let q3 := q2.store (q2.tqe_prev listelm) (some elm)
  q3.setPrev listelm (Cell.next elm)

/-- The elements met by `TAILQ_FOREACH` from `cur` on, within `fuel` steps. -/
def walk (q : TailQ α) : Nat → Option Nat → Option (List Nat)
  | _, none => some []
  | 0, some _ => none
  | fuel + 1, some cur => (walk q fuel (q.tqe_next cur)).map (cur :: ·)

/-- The sibling sequence of a queue, read from head to tail. -/
def TailQ.toList (q : TailQ α) : Option (List Nat) := walk q q.brk q.tqh_first

/-- The loop shared by the `usbg_get_*` functions:
`TAILQ_FOREACH(x, head, node) if (found x) return x; return NULL;`. -/
def foreach_find (found : Nat → Bool) (q : TailQ α) : Nat → Option Nat → Option (Option Nat)
  | _, none => some none
  | 0, some _ => none
  | fuel + 1, some cur =>
    if found cur then some (some cur) else foreach_find found q fuel (q.tqe_next cur)

/-- The loop of the third branch of the "Insert in string order" block:
```
TAILQ_FOREACH(cur, head, node) {
	if (strcmp(name, cur->name) > 0)
		continue;
	TAILQ_INSERT_BEFORE(cur, new, node);
}
```
There is no `break`: the walk goes on from `cur->node.tqe_next` after an
insertion.  The step bound `fuel` is the number of elements allocated: a walk
that has not ended by then has come to an element a second time and never
ends. -/
def foreach_insert (nameOf : α → Str) (name : Str) (new : Nat) :
    Nat → Option Nat → TailQ α → Option (TailQ α)
  | _, none, q => some q
  | 0, some _, _ => none
  | fuel + 1, some cur, q =>
    if strcmp name (nameOf (q.elm cur)) > 0 then
      foreach_insert nameOf name new fuel (q.tqe_next cur) q
    else
      let q1 := TAILQ_INSERT_BEFORE cur new q
      foreach_insert nameOf name new fuel (q1.tqe_next cur) q1

/-- The "Insert in string order" block of the four creators, for the element
`new` (already allocated in `q`) of name `name`:
```
if (TAILQ_EMPTY(head) || (strcmp(name, TAILQ_FIRST(head)->name) < 0))
	TAILQ_INSERT_HEAD(head, new, node);
else if (strcmp(name, TAILQ_LAST(head, headname)->name) > 0)
	TAILQ_INSERT_TAIL(head, new, node);
else
	TAILQ_FOREACH(cur, head, node) { ... }
```
-/
def insert_in_string_order (nameOf : α → Str) (name : Str) (new : Nat) (q : TailQ α) :
    Option (TailQ α) :=
  match TAILQ_FIRST q with
  | none => some (TAILQ_INSERT_HEAD new q)
  | some first =>
    if strcmp name (nameOf (q.elm first)) < 0 then some (TAILQ_INSERT_HEAD new q)
    else
      match TAILQ_LAST q with
      | none => none
      | some last =>
        if strcmp name (nameOf (q.elm last)) > 0 then some (TAILQ_INSERT_TAIL new q)
        else foreach_insert nameOf name new q.brk (TAILQ_FIRST q) q


/-! ## What a queue holds -/

/-- Following `tqe_next` from the pointer value `v` meets exactly the elements
of `l`, in this order, and then `NULL`. -/
def Linked (q : TailQ α) : Option Nat → List Nat → Prop
  | v, [] => v = none
  | v, p :: l => v = some p ∧ Linked q (q.tqe_next p) l

/-- The cell that holds the pointer ending the sequence `l` that starts in the
cell `c`: the `tqe_next` of the last element of `l`, or `c` itself when `l` is
empty. -/
def endCell (c : Cell) (l : List Nat) : Cell :=
  match l.getLast? with
  | none => c
  | some p => Cell.next p

/-- A cell of the allocated part of a queue with `n` elements. -/
def Cell.Below (n : Nat) : Cell → Prop
  | Cell.head => True
  | Cell.next p => p < n

/-- The queue `q` holds the sibling sequence `l`: the forward links from the
head run through `l`, the elements of `l` are distinct and allocated, their
back links point into the allocated part, `tqh_last` is the `tqe_next` cell
of the last element, and the back link of the last element is the cell of
its predecessor.  (The back links of the other elements are not constrained.) -/
structure Holds (q : TailQ α) (l : List Nat) : Prop where
  linked : Linked q q.tqh_first l
  nodup : l.Nodup
  lt_brk : ∀ p ∈ l, p < q.brk
  prev_below : ∀ p ∈ l, (q.tqe_prev p).Below q.brk
  last_eq : q.tqh_last = endCell Cell.head l
  prev_last : ∀ l' L, l = l' ++ [L] → q.tqe_prev L = endCell Cell.head l'

/-- The names of a sibling sequence. -/
def namesOf (nameOf : α → Str) (q : TailQ α) (l : List Nat) : List Str :=
  l.map fun p => nameOf (q.elm p)

/-- Strictly ascending by name, under `strcmp`. -/
def Ascending (names : List Str) : Prop :=
  names.Pairwise fun a b => strcmp a b < 0

instance (names : List Str) : Decidable (Ascending names) := by
  unfold Ascending; infer_instance

/-- What the insertion loop may have changed in `q0` on its way to `q`: the
forward links hold what they held or the new element, the back links hold what
they held or the `tqe_next` cell of the new element. -/
structure Touched (q0 q : TailQ α) (new : Nat) : Prop where
  elm_eq : q.elm = q0.elm
  brk_eq : q.brk = q0.brk
  last_eq : q.tqh_last = q0.tqh_last
  first : q.tqh_first = q0.tqh_first ∨ q.tqh_first = some new
  next : ∀ r, r ≠ new → q.tqe_next r = q0.tqe_next r ∨ q.tqe_next r = some new
  prev : ∀ r, r ≠ new → q.tqe_prev r = q0.tqe_prev r ∨ q.tqe_prev r = Cell.next new

/-- The state in which the insertion loop ends when it ends: the new element
stands before the last element `L` it met, in the cell that pointed to `L`. -/
structure Landed (q0 q : TailQ α) (new L : Nat) : Prop where
  touched : Touched q0 q new
  next_new : q.tqe_next new = some L
  cell : q.load (q0.tqe_prev L) = some new
  prev_L : q.tqe_prev L = Cell.next new
  next_L : q.tqe_next L = none
  prev_new : q.tqe_prev new = q0.tqe_prev L

/-- The queue a loader loop has built from the entries `ns`: it holds the
addresses `0, 1, ...` in this order, and the element at address `i` is the
one `load` builds for the `i`-th entry. -/
structure Loaded {α : Type} (load : Str → Option α) (q : TailQ α) (ns : List Str) : Prop where
  holds : Holds q (List.range ns.length)
  brk_eq : q.brk = ns.length
  elm : ∀ i (h : i < ns.length), load (ns.get ⟨i, h⟩) = some (q.elm i)


/-! ## `usbg.h` -/

/-- The constants, the enumerators of `enum function_type` and the table
`function_names` that `usbg.c` takes from `usbg.h`. -/
structure Header where
  USBG_MAX_STR_LENGTH : Nat
  USBG_MAX_PATH_LENGTH : Nat
  LANG_US_ENG : Int
  function_names : List Str
  F_SERIAL : Int
  F_ACM : Int
  F_OBEX : Int
  F_ECM : Int
  F_SUBSET : Int
  F_NCM : Int
  F_EEM : Int
  F_RNDIS : Int
  F_PHONET : Int

/-! ## `printf` conversions and `strtol` -/

/-- The digit character of `d < 16`, lowercase. -/
def hexDigit (d : Nat) : Char :=
  if d < 10 then Char.ofNat (48 + d) else Char.ofNat (87 + d)

/-- The digits of `n` in base `base`, most significant first, at least one;
`fuel` bounds their number. -/
def natDigits (base : Nat) : Nat → Nat → Str
  | 0, _ => []
  | fuel + 1, n =>
    if n < base then [hexDigit n] else natDigits base fuel (n / base) ++ [hexDigit (n % base)]

/-- The value of an `int` argument: wrapped to 32 bits, two's complement. -/
def toInt32 (v : Int) : Int := (v + 2 ^ 31) % 2 ^ 32 - 2 ^ 31

/-- The conversion `%0<width>x` of an `int` argument: the argument is read as
`unsigned int`, written in lowercase hexadecimal and padded with zeros on the
left up to `width` characters (never cut). -/
def printf_x (width : Nat) (v : Int) : Str :=
  let ds := natDigits 16 8 (v % 2 ^ 32).toNat
  List.replicate (width - ds.length) '0' ++ ds

/-- The conversion `%d` of an `int` argument. -/
def printf_d (v : Int) : Str :=
  let w := toInt32 v
  if w < 0 then '-' :: natDigits 10 10 (-w).toNat else natDigits 10 10 w.toNat

/-- The libc function `isspace` in the C locale. -/
def isspace (c : Char) : Bool :=
  c = ' ' || c = '\t' || c = '\n' || c.toNat = 11 || c.toNat = 12 || c = '\r'

/-- The value of a digit character as `strtol` reads it. -/
def digitVal (c : Char) : Option Nat :=
  if 48 ≤ c.toNat ∧ c.toNat ≤ 57 then some (c.toNat - 48)
  else if 97 ≤ c.toNat ∧ c.toNat ≤ 122 then some (c.toNat - 87)
  else if 65 ≤ c.toNat ∧ c.toNat ≤ 90 then some (c.toNat - 55)
  else none

/-- The digit run of `strtol`: digits below `base` are accumulated into `acc`
until the first character that is none. -/
def parseDigits (base : Nat) : Str → Nat → Nat
  | [], acc => acc
  | c :: cs, acc =>
    match digitVal c with
    | some d => if d < base then parseDigits base cs (acc * base + d) else acc
    | none => acc

/-- The libc function `strtol(s, NULL, base)` for `base` 10 or 16, with a 64-bit
`long`: white space, an optional sign, for base 16 an optional `0x` / `0X`, then the digit
run; a value out of range is replaced by `LONG_MAX` or `LONG_MIN`. -/
def strtol (s : Str) (base : Nat) : Int :=
  let s1 := s.dropWhile isspace
  let neg : Bool := s1.head? = some '-'
  let s2 := if s1.head? = some '-' ∨ s1.head? = some '+' then s1.tail else s1
  let s3 :=
    if base = 16 ∧ s2.head? = some '0' ∧ (s2.tail.head? = some 'x' ∨ s2.tail.head? = some 'X')
    then s2.drop 2 else s2
  let n : Int := parseDigits base s3 0
  if neg then max (-n) (-(2 ^ 63)) else min n (2 ^ 63 - 1)

/-- The line `fgets(buf, n, fp)` reads from a stream holding `content`: at most
`n - 1` characters, up to and including the first newline. -/
def takeLine : Nat → Str → Str
  | 0, _ => []
  | _ + 1, [] => []
  | k + 1, c :: cs => if c = '\n' then [c] else c :: takeLine k cs

/-- The libc function `fgets`: `NULL` at end of file, else the line read. -/
def fgets (n : Nat) (content : Str) : Option Str :=
  if content = [] then none else some (takeLine (n - 1) content)

/-- The test `strstr(haystack, needle) != NULL`. -/
def strstr : Str → Str → Bool
  | [], needle => needle.isEmpty
  | c :: cs, needle => needle.isPrefixOf (c :: cs) || strstr cs needle

/-- The first call `strtok(s, delim)`: the first token of `s`, or `NULL` when
`s` holds nothing but delimiters. -/
def strtok (s : Str) (delim : Char) : Option Str :=
  let s1 := s.dropWhile (· = delim)
  if s1 = [] then none else some (s1.takeWhile (· ≠ delim))

/-! ## The store: directories, attribute files and symbolic links -/

/-- A path of the store, resolved: the names from the root down. -/
abbrev Path := List Str

/-- What a path of the store names. -/
inductive Node where
  | dir : Node
  | file (content : Str) : Node
  | link (target : Str) : Node
  deriving DecidableEq, Repr

/-- The field `d_type` of a directory entry. -/
inductive DType where
  | DT_DIR | DT_REG | DT_LNK
  deriving DecidableEq, Repr

/-- The store: the nodes below the root, newest first; the root itself is
always a directory. -/
abbrev Store := List (Path × Node)

/-- Leave the component `seg` behind while resolving a path: empty components
and `.` stay, `..` goes up, a name goes down. -/
def pushSeg (acc : Path) (seg : Str) : Path :=
  if seg = [] ∨ seg = ['.'] then acc
  else if seg = ['.', '.'] then acc.dropLast
  else acc ++ [seg]

/-- Resolve the rest `s` of a path text from the directory `acc`, `seg` being
the part of the current component already read. -/
def resolveAux : Str → Path → Str → Path
  | [], acc, seg => pushSeg acc seg
  | c :: cs, acc, seg =>
    if c = '/' then resolveAux cs (pushSeg acc seg) [] else resolveAux cs acc (seg ++ [c])

/-- The path a path text names (relative texts are read from the root). -/
def resolve (p : Str) : Path := resolveAux p [] []

namespace Store

/-- The node at a resolved path. -/
def get? (st : Store) (p : Path) : Option Node :=
  if p = [] then some Node.dir
  else match st.find? (fun e => e.1 = p) with
    | some e => some e.2
    | none => none

/-- Whether a resolved path is a directory. -/
def isDir (st : Store) (p : Path) : Bool := st.get? p = some Node.dir

/-- Bind the node `n` at the resolved path `p`. -/
def put (st : Store) (p : Path) (n : Node) : Store := (p, n) :: st

/-- The names bound directly in the directory `d`, each once. -/
def children (st : Store) (d : Path) : List Str :=
  (st.filterMap fun e => if e.1 ≠ [] ∧ e.1.dropLast = d then e.1.getLast? else none).dedup

end Store

/-- The libc function `mkdir(path, mode)`: fails when the path exists or its
parent is no directory. -/
def mkdir (st : Store) (path : Str) : Option Store :=
  let p := resolve path
  if (st.get? p).isSome then none
  else if st.isDir p.dropLast then some (st.put p Node.dir)
  else none

/-- The libc function `symlink(target, linkpath)`: fails when the link path
exists or its parent is no directory. -/
def symlink (st : Store) (target linkpath : Str) : Option Store :=
  let p := resolve linkpath
  if (st.get? p).isSome then none
  else if st.isDir p.dropLast then some (st.put p (Node.link target))
  else none

/-- The libc function `readlink(path, buf, bufsiz)`: the text of the link, cut
at `bufsiz`. -/
def readlink (st : Store) (path : Str) (bufsiz : Nat) : Option Str :=
  match st.get? (resolve path) with
  | some (Node.link t) => some (t.take bufsiz)
  | _ => none

/-- The call `fopen(p, "w")` followed by `fputs(buf)`: the file is created or
truncated and holds `buf`; `none` when the file cannot be opened (its
directory is missing, or the path names a directory or a link). -/
def fopen_w_fputs (st : Store) (p : Str) (buf : Str) : Option Store :=
  let r := resolve p
  match st.get? r with
  | some (Node.file _) => some (st.put r (Node.file buf))
  | some _ => none
  | none => if st.isDir r.dropLast then some (st.put r (Node.file buf)) else none

/-- The call `fopen(p, "r")` followed by `fgets(buf, n, fp)`. -/
def fopen_r_fgets (st : Store) (p : Str) (n : Nat) : Option Str :=
  match st.get? (resolve p) with
  | some (Node.file content) => fgets n content
  | _ => none

/-- The `d_type` of a node. -/
def Node.dtype : Node → DType
  | Node.dir => DType.DT_DIR
  | Node.file _ => DType.DT_REG
  | Node.link _ => DType.DT_LNK

/-- The type `struct dirent`: `d_name` and `d_type`. -/
structure Dirent where
  d_name : Str
  d_type : DType
  deriving DecidableEq, Repr

/-- The function `bindings_select`. -/
def bindings_select (dent : Dirent) : Bool :=
  if dent.d_type = DType.DT_LNK then true else false

/-- The function `file_select`. -/
def file_select (dent : Dirent) : Bool :=
  if strcmp dent.d_name ".".toList = 0 ∨ strcmp dent.d_name "..".toList = 0 then false else true

/-- The libc function `scandir(dir, &dent, select, alphasort)` in the C locale:
the entries of the directory, `.` and `..` among them, that pass `select`, in `strcmp` order
of their names; `none` (the value -1) when `dir` is no directory. -/
def scandir (st : Store) (dir : Str) (select : Dirent → Bool) : Option (List Dirent) :=
  let d := resolve dir
  if st.isDir d then
    let own : List Dirent := [⟨".".toList, DType.DT_DIR⟩, ⟨"..".toList, DType.DT_DIR⟩]
    let below : List Dirent := (st.children d).filterMap fun n =>
      (st.get? (d ++ [n])).map fun node => ⟨n, node.dtype⟩
    some (((own ++ below).filter select).insertionSort fun a b => strcmp a.d_name b.d_name ≤ 0)
  else none


/-! ## Attribute files -/

/-- The call `sprintf(p, "%s/%s", a, b)`. -/
def join2 (a b : Str) : Str := a ++ '/' :: b

/-- The call `sprintf(p, "%s/%s/%s", a, b, c)`. -/
def join3 (a b c : Str) : Str := a ++ '/' :: (b ++ '/' :: c)

/-- The call `sprintf(p, "%s/%s/%s/%s", a, b, c, d)`. -/
def join4 (a b c d : Str) : Str := a ++ '/' :: (b ++ '/' :: (c ++ '/' :: d))

/-- The macro `STRINGS_DIR`. -/
def STRINGS_DIR : Str := "strings".toList

/-- The macro `CONFIGS_DIR`. -/
def CONFIGS_DIR : Str := "configs".toList

/-- The macro `FUNCTIONS_DIR`. -/
def FUNCTIONS_DIR : Str := "functions".toList

/-- The function `usbg_read_buf`: the first line of `path/name/file`, or `NULL`. -/
def usbg_read_buf (hdr : Header) (st : Store) (path name file : Str) : Option Str :=
  fopen_r_fgets st (join3 path name file) hdr.USBG_MAX_STR_LENGTH

/-- The function `usbg_read_int`: `strtol` of the line read, returned as `int`; 0 when
nothing was read. -/
def usbg_read_int (hdr : Header) (st : Store) (path name file : Str) (base : Nat) : Int :=
  match usbg_read_buf hdr st path name file with
  | some buf => toInt32 (strtol buf base)
  | none => 0

/-- The macro `usbg_read_dec(p, n, f)`. -/
def usbg_read_dec (hdr : Header) (st : Store) (p n f : Str) : Int :=
  usbg_read_int hdr st p n f 10

/-- The macro `usbg_read_hex(p, n, f)`. -/
def usbg_read_hex (hdr : Header) (st : Store) (p n f : Str) : Int :=
  usbg_read_int hdr st p n f 16

/-- The function `usbg_read_string`: the line read, cut at its newline; empty when nothing
was read. -/
def usbg_read_string (hdr : Header) (st : Store) (path name file : Str) : Str :=
  match usbg_read_buf hdr st path name file with
  | some buf => buf.takeWhile (· ≠ '\n')
  | none => []

/-- The function `usbg_write_buf`: `buf` is written to `path/name/file`; when the file
cannot be opened an error is printed and the store stays as it is. -/
def usbg_write_buf (st : Store) (path name file buf : Str) : Store :=
  match fopen_w_fputs st (join3 path name file) buf with
  | some st1 => st1
  | none => st

/-- The function `usbg_write_dec`: format `"%d\n"`. -/
def usbg_write_dec (st : Store) (p n f : Str) (v : Int) : Store :=
  usbg_write_buf st p n f (printf_d v ++ ['\n'])

/-- The function `usbg_write_hex16`: format `"0x%04x\n"`. -/
def usbg_write_hex16 (st : Store) (p n f : Str) (v : Int) : Store :=
  usbg_write_buf st p n f ('0' :: 'x' :: printf_x 4 v ++ ['\n'])

/-- The function `usbg_write_hex8`: format `"0x%02x\n"`. -/
def usbg_write_hex8 (st : Store) (p n f : Str) (v : Int) : Store :=
  usbg_write_buf st p n f ('0' :: 'x' :: printf_x 2 v ++ ['\n'])

/-- The function `usbg_write_string`. -/
def usbg_write_string (st : Store) (p n f buf : Str) : Store := usbg_write_buf st p n f buf

/-! ## The entities -/

/-- The type `union attrs` of a function, by the member that was filled; `unset` is
the memory `malloc` returned. -/
inductive FunctionAttrs where
  | unset : FunctionAttrs
  | serial (port_num : Int) : FunctionAttrs
  | net (dev_addr host_addr : Option (List Nat)) (ifname : Str) (qmult : Int) : FunctionAttrs
  | phonet (ifname : Str) : FunctionAttrs
  deriving DecidableEq, Repr

instance : Inhabited FunctionAttrs := ⟨FunctionAttrs.unset⟩

/-- The type `struct function` (without its queue entry and its parent pointer). -/
structure Function where
  name : Str
  path : Str
  type : Int
  attr : FunctionAttrs
  deriving DecidableEq, Repr, Inhabited

/-- The type `struct binding`; `target` is the address of a function of the gadget. -/
structure Binding where
  name : Str
  path : Str
  target : Nat
  deriving DecidableEq, Repr, Inhabited

instance {α : Type} [Inhabited α] : Inhabited (TailQ α) := ⟨TAILQ_INIT⟩

/-- The type `struct config`. -/
structure Config where
  name : Str
  path : Str
  maxpower : Int
  bmattrs : Int
  str_cfg : Str
  bindings : TailQ Binding
  deriving Inhabited

/-- The type `struct gadget_attrs`. -/
structure GadgetAttrs where
  bcdusb : Int
  dclass : Int
  dsubclass : Int
  dproto : Int
  maxpacket : Int
  vendor : Int
  product : Int
  bcddevice : Int
  deriving DecidableEq, Repr, Inhabited

/-- The type `struct gadget`. -/
structure Gadget where
  name : Str
  path : Str
  udc : Str
  attrs : GadgetAttrs
  str_ser : Str
  str_mnf : Str
  str_prd : Str
  configs : TailQ Config
  functions : TailQ Function
  deriving Inhabited

/-- The type `struct state`. -/
structure State where
  path : Str
  gadgets : TailQ Gadget
  deriving Inhabited

/-! ## Function kinds -/

/-- The `do ... while (i != max)` loop of `usbg_lookup_function_type`, from
index `i`, with `rest` the table from `i` on: the index of the first entry
equal to `name`, or `max`. -/
def lookup_loop (name : Str) : List Str → Nat → Nat
  | [], i => i
  | n :: rest, i => if strcmp name n = 0 then i else lookup_loop name rest (i + 1)

/-- The function `usbg_lookup_function_type`: -1 for `NULL` and for a name that is not in
the table, else its index.  On an empty table the loop reads past the table:
`none`. -/
def usbg_lookup_function_type (hdr : Header) (name : Option Str) : Option Int :=
  match name with
  | none => some (-1)
  | some name =>
    if hdr.function_names = [] then none
    else
      let i := lookup_loop name hdr.function_names 0
      if i = hdr.function_names.length then some (-1) else some i

/-- One group of `ether_aton`: one or two hex digits; the rest of the text. -/
def ether_octet (s : Str) (last : Bool) : Option (Nat × Str) :=
  let hex (c : Char) : Option Nat := (digitVal c).bind fun d => if d < 16 then some d else none
  match s with
  | [] => none
  | c :: r =>
    match hex c with
    | none => none
    | some d1 =>
      let stop : Bool := match r with
        | [] => last
        | ch :: _ => if last then isspace ch else ch = ':'
      if stop then some (d1, r)
      else match r with
        | [] => none
        | c2 :: r2 =>
          match hex c2 with
          | none => none
          | some d2 =>
            if !last && r2.head? ≠ some ':' then none else some (d1 * 16 + d2, r2)

/-- The groups of `ether_aton`, `k` of them still to read, separated by `:`. -/
def ether_aton_from : Nat → Str → Option (List Nat)
  | 0, _ => some []
  | k + 1, s =>
    match ether_octet s (k = 0) with
    | none => none
    | some (b, r) => (ether_aton_from k (r.drop 1)).map (b :: ·)

/-- The libc function `ether_aton`: the six bytes of the address, or `NULL`. -/
def ether_aton (s : Str) : Option (List Nat) := ether_aton_from 6 s

/-! ## The loader -/

/-- The function `usbg_parse_function_attrs`. -/
def usbg_parse_function_attrs (hdr : Header) (st : Store) (f : Function) : Function :=
  if f.type = hdr.F_SERIAL ∨ f.type = hdr.F_ACM ∨ f.type = hdr.F_OBEX then
    { f with attr := FunctionAttrs.serial (usbg_read_dec hdr st f.path f.name "port_num".toList) }
  else if f.type = hdr.F_ECM ∨ f.type = hdr.F_SUBSET ∨ f.type = hdr.F_NCM ∨
      f.type = hdr.F_EEM ∨ f.type = hdr.F_RNDIS then
    let old : Option (List Nat) × Option (List Nat) := match f.attr with
      | FunctionAttrs.net d h _ _ => (d, h)
      | _ => (none, none)
    let dev := match ether_aton (usbg_read_string hdr st f.path f.name "dev_addr".toList) with
      | some a => some a
      | none => old.1
    let host := match ether_aton (usbg_read_string hdr st f.path f.name "host_addr".toList) with
      | some a => some a
      | none => old.2
    let ifname := usbg_read_string hdr st f.path f.name "ifname".toList
    let qmult := usbg_read_dec hdr st f.path f.name "qmult".toList
    { f with attr := FunctionAttrs.net dev host ifname qmult }
  else if f.type = hdr.F_PHONET then
    { f with attr := FunctionAttrs.phonet (usbg_read_string hdr st f.path f.name "ifname".toList) }
  else f

/-- The names `scandir` returns to a loader.  Every loader calls `free(dent)`
after its loop; when `scandir` fails (-1) the loop runs no step and `dent` is
the pointer `scandir` left unset, so that the call does not come back:
`none`. -/
def scandir_names (st : Store) (dir : Str) (select : Dirent → Bool) : Option (List Str) :=
  (scandir st dir select).map fun ds => ds.map Dirent.d_name

/-- The steps `malloc`, fill, `TAILQ_INSERT_TAIL` of a loader loop. -/
def push_tail {α : Type} (q : TailQ α) (x : α) : TailQ α :=
  TAILQ_INSERT_TAIL q.brk (q.alloc x)

/-- One round of the loop `for (i=0; i < n; i++)` of a loader over the entries
of a directory: the element `load d_name` builds is put at the tail.  `none`
when building it does not come back. -/
def load_step {α : Type} (load : Str → Option α) (acc : Option (TailQ α)) (d_name : Str) :
    Option (TailQ α) :=
  match acc, load d_name with
  | some q, some x => some (push_tail q x)
  | _, _ => none

/-- The function `usbg_parse_functions` builds for the entry `d_name`. -/
def load_function (hdr : Header) (st : Store) (fpath : Str) (d_name : Str) : Option Function :=
  (usbg_lookup_function_type hdr (strtok d_name '.')).map fun type =>
    usbg_parse_function_attrs hdr st
      { name := d_name, path := fpath, type := type, attr := FunctionAttrs.unset }

/-- The function `usbg_parse_functions`. -/
def usbg_parse_functions (hdr : Header) (st : Store) (path : Str) (g : Gadget) : Option Gadget :=
  let fpath := join3 path g.name FUNCTIONS_DIR
  (scandir_names st fpath file_select).bind fun names =>
    (names.foldl (load_step (load_function hdr st fpath)) (some TAILQ_INIT)).map
      fun q => { g with functions := q }

/-- The function `usbg_parse_config_attrs`. -/
def usbg_parse_config_attrs (hdr : Header) (st : Store) (c : Config) : Config :=
  { c with
    maxpower := usbg_read_dec hdr st c.path c.name "MaxPower".toList
    bmattrs := usbg_read_hex hdr st c.path c.name "bmAttributes".toList
    str_cfg := usbg_read_string hdr st c.path c.name "strings/0x409/configuration".toList }

/-- What `usbg.c` leaves open of the array `contents` of
`usbg_parse_config_bindings`: `readlink` writes the text of the link without a
terminating NUL and nothing else sets the array, so that `strstr` reads, behind
the text, the bytes the array held before.  For the round of the link `cpath`
and the function `fname` these bytes, up to the first NUL, are
`unset cpath fname`; `none` when the array holds no NUL behind the text. -/
abbrev Unset := Str → Str → Option Str

/-- The string `strstr` finds in the array `contents` after
`readlink(cpath, contents, USBG_MAX_PATH_LENGTH)`, in the round of the function
`fname`: the text of the link (nothing when `readlink` fails) followed by the
bytes the array held before; `none` when the array holds no NUL. -/
def link_contents (hdr : Header) (st : Store) (unset : Unset) (cpath fname : Str) : Option Str :=
  (unset cpath fname).map fun tail =>
    (readlink st cpath hdr.USBG_MAX_PATH_LENGTH).getD [] ++ tail

/-- The inner loop of `usbg_parse_config_bindings`: the first function of the
gadget, in queue order, whose kind token (`strtok(fname, ".")`) occurs in the
array `contents`, which `contents` gives for the name of the function; `NULL`
when there is none.  `strstr` with the `NULL` that `strtok` gives for a name
without a token, or on an array without NUL, does not come back. -/
def foreach_target (fs : TailQ Function) (contents : Str → Option Str) :
    Nat → Option Nat → Option (Option Nat)
  | _, none => some none
  | 0, some _ => none
  | fuel + 1, some f =>
    match strtok (fs.elm f).name '.', contents (fs.elm f).name with
    | some token, some text =>
      if strstr text token then some (some f)
      else foreach_target fs contents fuel (fs.tqe_next f)
    | _, _ => none

/-- One round of the loop `for (i=0; i < n; i++)` of `usbg_parse_config_bindings`
over the links of the config directory `bpath`: the inner loop over the
functions of the gadget, and the binding `malloc`ed and put at the tail when
it finds a function. -/
def bindings_step (hdr : Header) (st : Store) (unset : Unset) (g : Gadget) (bpath : Str)
    (acc : Option (TailQ Binding)) (d_name : Str) : Option (TailQ Binding) :=
  match acc, foreach_target g.functions (link_contents hdr st unset (join2 bpath d_name))
      g.functions.brk g.functions.tqh_first with
  | some q, some (some f) => some (push_tail q { name := d_name, path := bpath, target := f })
  | some q, some none => some q
  | _, _ => none

/-- The function `usbg_parse_config_bindings`, for a config of the gadget `g`. -/
def usbg_parse_config_bindings (hdr : Header) (st : Store) (unset : Unset) (g : Gadget)
    (c : Config) : Option Config :=
  let bpath := join2 c.path c.name
  (scandir_names st bpath bindings_select).bind fun links =>
    (links.foldl (bindings_step hdr st unset g bpath) (some TAILQ_INIT)).map
      fun q => { c with bindings := q }

/-- The config `usbg_parse_configs` builds for the entry `d_name`. -/
def load_config (hdr : Header) (st : Store) (unset : Unset) (g : Gadget) (cpath : Str)
    (d_name : Str) : Option Config :=
  usbg_parse_config_bindings hdr st unset g (usbg_parse_config_attrs hdr st
    { name := d_name, path := cpath, maxpower := 0, bmattrs := 0, str_cfg := [],
      bindings := TAILQ_INIT })

/-- The function `usbg_parse_configs`. -/
def usbg_parse_configs (hdr : Header) (st : Store) (unset : Unset) (path : Str) (g : Gadget) :
    Option Gadget :=
  let cpath := join3 path g.name CONFIGS_DIR
  (scandir_names st cpath file_select).bind fun names =>
    (names.foldl (load_step (load_config hdr st unset g cpath)) (some TAILQ_INIT)).map
      fun q => { g with configs := q }

/-- The function `usbg_parse_gadget_attrs`. -/
def usbg_parse_gadget_attrs (hdr : Header) (st : Store) (path name : Str) : GadgetAttrs :=
  { dclass := usbg_read_hex hdr st path name "bDeviceClass".toList
    dsubclass := usbg_read_hex hdr st path name "bDeviceSubClass".toList
    dproto := usbg_read_hex hdr st path name "bDeviceProtocol".toList
    maxpacket := usbg_read_hex hdr st path name "bMaxPacketSize0".toList
    bcddevice := usbg_read_hex hdr st path name "bcdDevice".toList
    bcdusb := usbg_read_hex hdr st path name "bcdUSB".toList
    vendor := usbg_read_hex hdr st path name "idVendor".toList
    product := usbg_read_hex hdr st path name "idProduct".toList }

/-- The call `sprintf(spath, "%s/%s/%s/0x%x", path, name, STRINGS_DIR, lang)`. -/
def strings_path (path name : Str) (lang : Int) : Str :=
  join4 path name STRINGS_DIR ('0' :: 'x' :: printf_x 0 lang)

/-- The function `usbg_parse_strings`. -/
def usbg_parse_strings (hdr : Header) (st : Store) (path : Str) (g : Gadget) : Gadget :=
  let spath := strings_path path g.name hdr.LANG_US_ENG
  { g with
    str_ser := usbg_read_string hdr st spath [] "serialnumber".toList
    str_mnf := usbg_read_string hdr st spath [] "manufacturer".toList
    str_prd := usbg_read_string hdr st spath [] "product".toList }

/-- The gadget `usbg_parse_gadgets` builds for the entry `d_name`. -/
def load_gadget (hdr : Header) (st : Store) (unset : Unset) (path spath : Str) (d_name : Str) :
    Option Gadget :=
  let g0 : Gadget :=
    { name := d_name, path := spath
      udc := usbg_read_string hdr st path d_name "UDC".toList
      attrs := usbg_parse_gadget_attrs hdr st path d_name
      str_ser := [], str_mnf := [], str_prd := []
      configs := TAILQ_INIT, functions := TAILQ_INIT }
  (usbg_parse_functions hdr st path (usbg_parse_strings hdr st path g0)).bind
    (usbg_parse_configs hdr st unset path)

/-- The function `usbg_parse_gadgets`. -/
def usbg_parse_gadgets (hdr : Header) (st : Store) (unset : Unset) (path : Str) (s : State) :
    Option State :=
  (scandir_names st path file_select).bind fun names =>
    (names.foldl (load_step (load_gadget hdr st unset path s.path)) (some TAILQ_INIT)).map
      fun q => { s with gadgets := q }

/-- The function `usbg_init_state`. -/
def usbg_init_state (hdr : Header) (st : Store) (unset : Unset) (path : Str) : Option State :=
  usbg_parse_gadgets hdr st unset path { path := path, gadgets := TAILQ_INIT }

/-- The function `usbg_init`: `some none` is the return value `NULL`. -/
def usbg_init (hdr : Header) (st : Store) (unset : Unset) (configfs_path : Str)
    (mallocOk : Bool) : Option (Option State) :=
  let path := configfs_path ++ "/usb_gadget".toList
  if st.get? (resolve path) ≠ some Node.dir then some none
  else if !mallocOk then some none
  else (usbg_init_state hdr st unset path).map some


/-! ## Lookups -/

/-- The function `usbg_get_gadget`: the outer `none` is a walk that does not come back,
`some none` the return value `NULL`. -/
def usbg_get_gadget (s : State) (name : Str) : Option (Option Nat) :=
  foreach_find (fun g => strcmp (s.gadgets.elm g).name name = 0) s.gadgets
    s.gadgets.brk s.gadgets.tqh_first

/-- The function `usbg_get_function`. -/
def usbg_get_function (g : Gadget) (name : Str) : Option (Option Nat) :=
  foreach_find (fun f => strcmp (g.functions.elm f).name name = 0) g.functions
    g.functions.brk g.functions.tqh_first

/-- The function `usbg_get_config`. -/
def usbg_get_config (g : Gadget) (name : Str) : Option (Option Nat) :=
  foreach_find (fun c => strcmp (g.configs.elm c).name name = 0) g.configs
    g.configs.brk g.configs.tqh_first

/-- The function `usbg_get_binding`. -/
def usbg_get_binding (c : Config) (name : Str) : Option (Option Nat) :=
  foreach_find (fun b => strcmp (c.bindings.elm b).name name = 0) c.bindings
    c.bindings.brk c.bindings.tqh_first

/-- The function `usbg_get_link_binding`: the target is compared as a pointer. -/
def usbg_get_link_binding (c : Config) (f : Nat) : Option (Option Nat) :=
  foreach_find (fun b => (c.bindings.elm b).target = f) c.bindings
    c.bindings.brk c.bindings.tqh_first

/-! ## Creators

A creator takes the store and the struct its first argument points to (`none`
for `NULL`) and gives back the store, that struct and its return value; the
answer of `malloc` is an argument (`mallocOk`).  The result is `none` when the
call does not come back. -/

/-- The function `usbg_create_gadget`. -/
def usbg_create_gadget (hdr : Header) (st : Store) (s : Option State) (name : Str)
    (vendor product : Int) (mallocOk : Bool) : Option (Store × Option State × Option Nat) :=
  match s with
  | none => some (st, none, none)
  | some s =>
    match usbg_get_gadget s name with
    | none => none
    | some (some _) => some (st, some s, none)
    | some none =>
      let gpath := join2 s.path name
      if !mallocOk then some (st, some s, none)
      else
        match mkdir st gpath with
        | none => some (st, some s, none)
        | some st1 =>
          let st2 := usbg_write_hex16 st1 s.path name "idVendor".toList vendor
          let st3 := usbg_write_hex16 st2 s.path name "idProduct".toList product
          let g : Gadget := usbg_parse_strings hdr st3 s.path
            { name := name, path := s.path, udc := []
              attrs := usbg_parse_gadget_attrs hdr st3 s.path name
              str_ser := [], str_mnf := [], str_prd := []
              configs := TAILQ_INIT, functions := TAILQ_INIT }
          (insert_in_string_order Gadget.name name s.gadgets.brk (s.gadgets.alloc g)).map
            fun q => (st3, some { s with gadgets := q }, some s.gadgets.brk)

/-- The function `usbg_create_function`; `type` indexes `function_names`, and an index
outside the table is a read past it (`none`). -/
def usbg_create_function (hdr : Header) (st : Store) (g : Option Gadget) (type : Nat)
    (instance_ : Str) (mallocOk : Bool) : Option (Store × Option Gadget × Option Nat) :=
  match g with
  | none => some (st, none, none)
  | some g =>
    match hdr.function_names[type]? with
    | none => none
    | some kind =>
      let name := kind ++ '.' :: instance_
      match usbg_get_function g name with
      | none => none
      | some (some _) => some (st, some g, none)
      | some none =>
        let fpath := join4 g.path g.name FUNCTIONS_DIR name
        if !mallocOk then some (st, some g, none)
        else
          match mkdir st fpath with
          | none => some (st, some g, none)
          | some st1 =>
            let f : Function := usbg_parse_function_attrs hdr st1
              { name := name, path := join3 g.path g.name FUNCTIONS_DIR, type := type
                attr := FunctionAttrs.unset }
            (insert_in_string_order Function.name name g.functions.brk
                (g.functions.alloc f)).map
              fun q => (st1, some { g with functions := q }, some g.functions.brk)

/-- The function `usbg_create_config`. -/
def usbg_create_config (hdr : Header) (st : Store) (g : Option Gadget) (name : Str)
    (mallocOk : Bool) : Option (Store × Option Gadget × Option Nat) :=
  match g with
  | none => some (st, none, none)
  | some g =>
    match usbg_get_config g name with
    | none => none
    | some (some _) => some (st, some g, none)
    | some none =>
      let cpath := join4 g.path g.name CONFIGS_DIR name
      if !mallocOk then some (st, some g, none)
      else
        match mkdir st cpath with
        | none => some (st, some g, none)
        | some st1 =>
          let c : Config := usbg_parse_config_attrs hdr st1
            { name := name, path := join3 g.path g.name CONFIGS_DIR, maxpower := 0
              bmattrs := 0, str_cfg := [], bindings := TAILQ_INIT }
          (insert_in_string_order Config.name name g.configs.brk (g.configs.alloc c)).map
            fun q => (st1, some { g with configs := q }, some g.configs.brk)

/-- The function `usbg_add_config_function`, for a config `c` and a function pointer `f`
into the function queue `fs` of its gadget.  When `symlink` fails the binding
that was allocated is not freed: it stays allocated, in no sequence. -/
def usbg_add_config_function (st : Store) (fs : TailQ Function) (c : Option Config)
    (name : Str) (f : Option Nat) (mallocOk : Bool) : Option (Store × Option Config × Int) :=
  match c, f with
  | some c, some f =>
    match usbg_get_binding c name with
    | none => none
    | some (some _) => some (st, some c, -1)
    | some none =>
      match usbg_get_link_binding c f with
      | none => none
      | some (some _) => some (st, some c, -1)
      | some none =>
        let bpath := join3 c.path c.name name
        let fpath := join2 (fs.elm f).path (fs.elm f).name
        if !mallocOk then some (st, some c, -1)
        else
          match symlink st fpath bpath with
          | none => some (st, some { c with bindings := c.bindings.alloc default }, -1)
          | some st1 =>
            let b : Binding := { name := name, path := bpath, target := f }
            (insert_in_string_order Binding.name name c.bindings.brk (c.bindings.alloc b)).map
              fun q => (st1, some { c with bindings := q }, 0)
  | c, _ => some (st, c, -1)

/-! ## Setters -/

/-- The function `usbg_set_gadget_device_class`. -/
def usbg_set_gadget_device_class (st : Store) (g : Gadget) (dclass : Int) : Store × Gadget :=
  (usbg_write_hex8 st g.path [] "bDeviceClass".toList dclass,
    { g with attrs := { g.attrs with dclass := dclass } })

/-- The function `usbg_set_gadget_device_protocol`. -/
def usbg_set_gadget_device_protocol (st : Store) (g : Gadget) (dproto : Int) : Store × Gadget :=
  (usbg_write_hex8 st g.path [] "bDeviceProtocol".toList dproto,
    { g with attrs := { g.attrs with dproto := dproto } })

/-- The function `usbg_set_gadget_device_subclass`. -/
def usbg_set_gadget_device_subclass (st : Store) (g : Gadget) (dsubclass : Int) :
    Store × Gadget :=
  (usbg_write_hex8 st g.path [] "bDeviceSubClass".toList dsubclass,
    { g with attrs := { g.attrs with dsubclass := dsubclass } })

/-- The function `usbg_set_gadget_device_max_packet`. -/
def usbg_set_gadget_device_max_packet (st : Store) (g : Gadget) (maxpacket : Int) :
    Store × Gadget :=
  (usbg_write_hex8 st g.path [] "bMaxPacketSize0".toList maxpacket,
    { g with attrs := { g.attrs with maxpacket := maxpacket } })

/-- The function `usbg_set_gadget_device_bcd_device`. -/
def usbg_set_gadget_device_bcd_device (st : Store) (g : Gadget) (bcddevice : Int) :
    Store × Gadget :=
  (usbg_write_hex16 st g.path [] "bcdDevice".toList bcddevice,
    { g with attrs := { g.attrs with bcddevice := bcddevice } })

/-- The function `usbg_set_gadget_device_bcd_usb`. -/
def usbg_set_gadget_device_bcd_usb (st : Store) (g : Gadget) (bcdusb : Int) : Store × Gadget :=
  (usbg_write_hex16 st g.path [] "bcdUSB".toList bcdusb,
    { g with attrs := { g.attrs with bcdusb := bcdusb } })

/-- The function `usbg_set_config_max_power`. -/
def usbg_set_config_max_power (st : Store) (c : Config) (maxpower : Int) : Store × Config :=
  (usbg_write_dec st c.path c.name "MaxPower".toList maxpower, { c with maxpower := maxpower })

/-- The function `usbg_set_config_bm_attrs`. -/
def usbg_set_config_bm_attrs (st : Store) (c : Config) (bmattrs : Int) : Store × Config :=
  (usbg_write_hex8 st c.path c.name "bmAttributes".toList bmattrs, { c with bmattrs := bmattrs })

/-! ## Controllers -/

/-- The function `usbg_get_udcs`: `scandir("/sys/class/udc", udc_list, file_select, alphasort)`. -/
def usbg_get_udcs (st : Store) : Option (List Dirent) :=
  scandir st "/sys/class/udc".toList file_select

/-- The function `usbg_enable_gadget`; `udc = none` is the argument `NULL`.  When
`scandir` fails (-1) the list is read without having been set: `none`. -/
def usbg_enable_gadget (st : Store) (g : Gadget) (udc : Option Str) : Option (Store × Gadget) :=
  let finish (gudc : Str) : Store × Gadget :=
    (usbg_write_string st g.path g.name "UDC".toList gudc, { g with udc := gudc })
  match udc with
  | none =>
    match usbg_get_udcs st with
    | none => none
    | some [] => some (st, g)
    | some (first :: _) => some (finish first.d_name)
  | some udc => some (finish udc)

/-- The function `usbg_disable_gadget`. -/
def usbg_disable_gadget (st : Store) (g : Gadget) : Store × Gadget :=
  (usbg_write_string st g.path g.name "UDC".toList [], { g with udc := [] })


/-! ## Sequences of calls and example data -/

/-- The names of the configs of a gadget, read from head to tail. -/
def config_names (g : Gadget) : Option (List Str) :=
  g.configs.toList.map (namesOf Config.name g.configs)

/-- The names of the functions of a gadget, read from head to tail. -/
def function_names_of (g : Gadget) : Option (List Str) :=
  g.functions.toList.map (namesOf Function.name g.functions)

/-- The names of the gadgets of a state, read from head to tail. -/
def gadget_names (s : State) : Option (List Str) :=
  s.gadgets.toList.map (namesOf Gadget.name s.gadgets)

/-- The bindings of a config, read from head to tail: name and target. -/
def binding_list (c : Config) : Option (List (Str × Nat)) :=
  c.bindings.toList.map fun l =>
    l.map fun b => ((c.bindings.elm b).name, (c.bindings.elm b).target)

/-- The call `usbg_create_config` for each name in turn, each call on the gadget the
call before left; `none` unless every call comes back with a config. -/
def create_configs (hdr : Header) : List Str → Store → Gadget → Option (Store × Gadget)
  | [], st, g => some (st, g)
  | n :: ns, st, g =>
    match usbg_create_config hdr st (some g) n true with
    | some (st1, some g1, some _) => create_configs hdr ns st1 g1
    | _ => none

/-- The function `usbg_create_function` for each kind and instance in turn; `none` unless
every call comes back with a function. -/
def create_functions (hdr : Header) : List (Nat × Str) → Store → Gadget → Option (Store × Gadget)
  | [], st, g => some (st, g)
  | (k, i) :: ns, st, g =>
    match usbg_create_function hdr st (some g) k i true with
    | some (st1, some g1, some _) => create_functions hdr ns st1 g1
    | _ => none

/-- A name that is one component of a path: not empty, without `/`, and
neither `.` nor `..`. -/
def PlainName (name : Str) : Prop :=
  name ≠ [] ∧ '/' ∉ name ∧ name ≠ ['.'] ∧ name ≠ ['.', '.']

instance (name : Str) : Decidable (PlainName name) := by
  unfold PlainName; infer_instance

/-- A header for the examples: buffers of 256 bytes, the language 0x409, and
nine kind names, `acm` at the index of `F_ACM`. -/
def exampleHeader : Header :=
  { USBG_MAX_STR_LENGTH := 256, USBG_MAX_PATH_LENGTH := 256, LANG_US_ENG := 0x409
    function_names := ["gser".toList, "acm".toList, "obex".toList, "ecm".toList,
      "geth".toList, "ncm".toList, "eem".toList, "rndis".toList, "phonet".toList]
    F_SERIAL := 0, F_ACM := 1, F_OBEX := 2, F_ECM := 3, F_SUBSET := 4, F_NCM := 5, F_EEM := 6
    F_RNDIS := 7, F_PHONET := 8 }

/-- A store with the directory `/cfg/usb_gadget` and nothing below it. -/
def emptyStore : Store :=
  [ (["cfg".toList, "usb_gadget".toList], Node.dir), (["cfg".toList], Node.dir) ]

/-- A store with the gadget directory `/cfg/usb_gadget/g1`, its `functions`
and `configs` directories and its `bDeviceClass` file, as the store lays a
gadget out. -/
def exampleStore : Store :=
  [ (["cfg".toList, "usb_gadget".toList, "g1".toList, "bDeviceClass".toList],
      Node.file "0x00\n".toList),
    (["cfg".toList, "usb_gadget".toList, "g1".toList, "configs".toList], Node.dir),
    (["cfg".toList, "usb_gadget".toList, "g1".toList, "functions".toList], Node.dir),
    (["cfg".toList, "usb_gadget".toList, "g1".toList], Node.dir) ] ++ emptyStore

/-- The gadget `g1` of `/cfg/usb_gadget`, without functions and configs. -/
def exampleGadget : Gadget :=
  { name := "g1".toList, path := "/cfg/usb_gadget".toList, udc := []
    attrs := default, str_ser := [], str_mnf := [], str_prd := []
    configs := TAILQ_INIT, functions := TAILQ_INIT }

/-- The state of `/cfg/usb_gadget`, without gadgets. -/
def emptyState : State := { path := "/cfg/usb_gadget".toList, gadgets := TAILQ_INIT }


/-- The function `usbg_add_config_function(c, lname, f)` for the config `cname` and the
function `fname` of the gadget, both found by name; the config the call
leaves is put back at its address.  Gives the store, the gadget and the
return value. -/
def add_binding_in (st : Store) (g : Gadget) (cname lname fname : Str) :
    Option (Store × Gadget × Int) :=
  match usbg_get_config g cname, usbg_get_function g fname with
  | some (some c), some (some f) =>
    match usbg_add_config_function st g.functions (some (g.configs.elm c)) lname (some f) true with
    | some (st1, some c1, ret) =>
      some (st1,
        { g with configs := { g.configs with elm := Function.update g.configs.elm c c1 } }, ret)
    | _ => none
  | _, _ => none

/-- The call `add_binding_in` for each link name and function name in turn; `none`
unless every call returns 0. -/
def add_bindings (cname : Str) : List (Str × Str) → Store → Gadget → Option (Store × Gadget)
  | [], st, g => some (st, g)
  | (lname, fname) :: rest, st, g =>
    match add_binding_in st g cname lname fname with
    | some (st1, g1, 0) => add_bindings cname rest st1 g1
    | _ => none

/-- The bindings of the config `cname` of a gadget, read from head to tail:
the name of each binding and the name of the function it targets. -/
def binding_targets (g : Gadget) (cname : Str) : Option (List (Str × Str)) :=
  match usbg_get_config g cname with
  | some (some c) =>
    (binding_list (g.configs.elm c)).map fun l =>
      l.map fun b => (b.1, (g.functions.elm b.2).name)
  | _ => none

/-- The gadget `name` of the tree `usbg_init(configfs_path)` loads. -/
def load_and_get (hdr : Header) (st : Store) (unset : Unset) (configfs_path name : Str) :
    Option Gadget :=
  match usbg_init hdr st unset configfs_path true with
  | some (some s) =>
    match usbg_get_gadget s name with
    | some (some a) => some (s.gadgets.elm a)
    | _ => none
  | _ => none

/-- The function `usbg_get_gadget` on the tree `usbg_init(configfs_path)` loads; `none`
when no tree is loaded. -/
def load_and_lookup (hdr : Header) (st : Store) (unset : Unset) (configfs_path name : Str) :
    Option (Option Nat) :=
  match usbg_init hdr st unset configfs_path true with
  | some (some s) => usbg_get_gadget s name
  | _ => none

/-- The names of the gadgets of the tree `usbg_init(configfs_path)` loads. -/
def load_and_list (hdr : Header) (st : Store) (unset : Unset) (configfs_path : Str) :
    Option (List Str) :=
  match usbg_init hdr st unset configfs_path true with
  | some (some s) => gadget_names s
  | _ => none

/-- An array `contents` in memory that holds zeros: a NUL right behind the text
of every link. -/
def zeroed : Unset := fun _ _ => some []

/-- The example `gadget-acm-ecm.c` on the gadget `g1`: the functions
`acm.usb0`, `acm.usb1`, `ecm.usb0`, the config `c.1` and the bindings
`acm.GS0`, `acm.GS1`, `ecm.usb0` to them. -/
def exampleBound : Option (Store × Gadget) :=
  ((load_and_get exampleHeader exampleStore zeroed "/cfg".toList "g1".toList).bind fun g =>
    create_functions exampleHeader [(1, "usb0".toList), (1, "usb1".toList), (3, "usb0".toList)]
      exampleStore g).bind fun r =>
  (create_configs exampleHeader ["c.1".toList] r.1 r.2).bind fun r =>
  add_bindings "c.1".toList
    [("acm.GS0".toList, "acm.usb0".toList), ("acm.GS1".toList, "acm.usb1".toList),
      ("ecm.usb0".toList, "ecm.usb0".toList)] r.1 r.2

/-- The call `usbg_create_gadget(s, "x/", 0x1d6b, 0x0104)` on the empty state
of `/cfg/usb_gadget`. -/
def exampleSlash : Option (Store × Option State × Option Nat) :=
  usbg_create_gadget exampleHeader emptyStore (some emptyState) "x/".toList 0x1d6b 0x0104 true

/-- The call `usbg_set_gadget_device_class(g, 0xef)` on the loaded gadget
`g1` of the example store. -/
def exampleSetClass : Option (Store × Gadget) :=
  (load_and_get exampleHeader exampleStore zeroed "/cfg".toList "g1".toList).map fun g =>
    usbg_set_gadget_device_class exampleStore g 0xef

/-- A store with two controllers below `/sys/class/udc` and the gadget
directory `/cfg/usb_gadget/g1`. -/
def udcStore : Store :=
  [ (["sys".toList, "class".toList, "udc".toList, "musb-hdrc.0".toList], Node.dir),
    (["sys".toList, "class".toList, "udc".toList, "dummy_udc.0".toList], Node.dir),
    (["sys".toList, "class".toList, "udc".toList], Node.dir),
    (["sys".toList, "class".toList], Node.dir),
    (["sys".toList], Node.dir) ] ++ exampleStore


/-- The function `acm.usb0` of the gadget `g1`. -/
def acmFunction : Function :=
  { name := "acm.usb0".toList, path := "/cfg/usb_gadget/g1/functions".toList, type := 1
    attr := FunctionAttrs.serial 0 }

/-- The config `c.1` of the gadget `g1`, without bindings. -/
def exampleConfig : Config :=
  { name := "c.1".toList, path := "/cfg/usb_gadget/g1/configs".toList, maxpower := 0
    bmattrs := 0, str_cfg := [], bindings := TAILQ_INIT }

/-- The gadget `g1` with the function `acm.usb0` and the config `c.1`, as a
loader loop queues them. -/
def oneGadget : Gadget :=
  { exampleGadget with
    functions := push_tail TAILQ_INIT acmFunction
    configs := push_tail TAILQ_INIT exampleConfig }

/-- The state of `/cfg/usb_gadget` with the gadget `g1`. -/
def oneState : State :=
  { path := "/cfg/usb_gadget".toList, gadgets := push_tail TAILQ_INIT exampleGadget }

/-- The example store with the directories of the function `acm.usb0` and of
the config `c.1`. -/
def configStore : Store :=
  [ (["cfg".toList, "usb_gadget".toList, "g1".toList, "configs".toList, "c.1".toList], Node.dir),
    (["cfg".toList, "usb_gadget".toList, "g1".toList, "functions".toList, "acm.usb0".toList],
      Node.dir) ] ++ exampleStore

/-- The store `configStore` with the link `c.1/l1` to the function `acm.usb0`. -/
def linkedStore : Store :=
  (["cfg".toList, "usb_gadget".toList, "g1".toList, "configs".toList, "c.1".toList, "l1".toList],
    Node.link "/cfg/usb_gadget/g1/functions/acm.usb0".toList) :: configStore

/-- The store `exampleStore` with the directory of the function `acm.GS0`. -/
def functionStore : Store :=
  (["cfg".toList, "usb_gadget".toList, "g1".toList, "functions".toList, "acm.GS0".toList],
    Node.dir) :: exampleStore

/-- The empty store after `mkdir` of the gadget `g1`. -/
def g1Store1 : Store := (["cfg".toList, "usb_gadget".toList, "g1".toList], Node.dir) :: emptyStore

/-- The store `g1Store1` after the write of `idVendor`. -/
def g1Store2 : Store :=
  (["cfg".toList, "usb_gadget".toList, "g1".toList, "idVendor".toList],
    Node.file "0x1d6b\n".toList) :: g1Store1

/-- The store `g1Store2` after the write of `idProduct`. -/
def g1Store3 : Store :=
  (["cfg".toList, "usb_gadget".toList, "g1".toList, "idProduct".toList],
    Node.file "0x0104\n".toList) :: g1Store2

/-- A store whose directory `/sys/class/udc` is empty. -/
def noUdcStore : Store :=
  [ (["sys".toList, "class".toList, "udc".toList], Node.dir),
    (["sys".toList, "class".toList], Node.dir),
    (["sys".toList], Node.dir) ] ++ exampleStore


/-! ## Example data for the codec and the kind decode -/

/-- The example store with the directory of a function `foo.1`, whose kind
token is in no table. -/
def unknownKindStore : Store :=
  (["cfg".toList, "usb_gadget".toList, "g1".toList, "functions".toList, "foo.1".toList],
    Node.dir) :: exampleStore

/-- The names and types of the functions `usbg_parse_functions` loads for the gadget
`g` of the root `path`, head to tail. -/
def load_functions_types (hdr : Header) (st : Store) (path : Str) (g : Gadget) :
    Option (List (Str × Int)) :=
  (usbg_parse_functions hdr st path g).bind fun g1 =>
    g1.functions.toList.map fun l => l.map fun p =>
      ((g1.functions.elm p).name, (g1.functions.elm p).type)

/-- The buffer `usbg_write_int` fills for the formats `"0x%02x\n"` and
`"0x%04x\n"`: the call `sprintf(buf, str, value)` with the width 2 or 4. -/
def sprintf_hex (width : Nat) (value : Int) : Str :=
  '0' :: 'x' :: printf_x width value ++ ['\n']

/-- A text is `0x` followed by exactly `k` lowercase hexadecimal digits and a
newline. -/
def FixedWidthHex (k : Nat) (text : Str) : Prop :=
  ∃ ds : Str, ds.length = k ∧ (∀ c ∈ ds, c ∈ "0123456789abcdef".toList) ∧
    text = '0' :: 'x' :: ds ++ ['\n']

/-- The store `configStore` with two attribute files of the config `c.1`:
`MaxPower` holding the line `250` and `bmAttributes` holding nothing. -/
def attrStore : Store :=
  [ (["cfg".toList, "usb_gadget".toList, "g1".toList, "configs".toList, "c.1".toList,
      "MaxPower".toList], Node.file "250\n".toList),
    (["cfg".toList, "usb_gadget".toList, "g1".toList, "configs".toList, "c.1".toList,
      "bmAttributes".toList], Node.file []) ] ++ configStore

/-- Whether the store below the root `path` has the layout the loader relies
on: every entry of the root has the directories `functions` and `configs`,
every entry of `functions` has a kind token, and every entry of `configs` is
a directory. -/
def populated (st : Store) (path : Str) : Bool :=
  match scandir_names st path file_select with
  | none => false
  | some ds => ds.all fun d =>
    (match scandir_names st (join3 path d FUNCTIONS_DIR) file_select with
      | none => false
      | some fs => fs.all fun f => (strtok f '.').isSome) &&
    (match scandir_names st (join3 path d CONFIGS_DIR) file_select with
      | none => false
      | some cs => cs.all fun c =>
        (scandir_names st (join2 (join3 path d CONFIGS_DIR) c) bindings_select).isSome)

/-- The store with the directories `functions` and `configs` made in the
gadget directory `path/name`. -/
def with_gadget_dirs (st : Store) (path name : Str) : Option Store :=
  (mkdir st (join3 path name FUNCTIONS_DIR)).bind fun st1 =>
    mkdir st1 (join3 path name CONFIGS_DIR)

/-- The store `g1Store3` with the directories `functions` and `configs` of the
gadget `g1`. -/
def g1Store5 : Store :=
  [ (["cfg".toList, "usb_gadget".toList, "g1".toList, "configs".toList], Node.dir),
    (["cfg".toList, "usb_gadget".toList, "g1".toList, "functions".toList], Node.dir) ]
    ++ g1Store3

/-- The test of the inner loop of `usbg_parse_config_bindings` for the function
at the address `p`: whether `strstr` finds its kind token in the array
`contents`. -/
def target_test (fs : TailQ Function) (contents : Str → Option Str) (p : Nat) : Bool :=
  match strtok (fs.elm p).name '.', contents (fs.elm p).name with
  | some token, some text => strstr text token
  | _, _ => false

/-- The store the example `gadget-acm-ecm.c` leaves (`exampleBound`). -/
def boundStore : Store :=
  [ (["cfg".toList, "usb_gadget".toList, "g1".toList, "configs".toList, "c.1".toList,
      "ecm.usb0".toList], Node.link "/cfg/usb_gadget/g1/functions/ecm.usb0".toList),
    (["cfg".toList, "usb_gadget".toList, "g1".toList, "configs".toList, "c.1".toList,
      "acm.GS1".toList], Node.link "/cfg/usb_gadget/g1/functions/acm.usb1".toList),
    (["cfg".toList, "usb_gadget".toList, "g1".toList, "configs".toList, "c.1".toList,
      "acm.GS0".toList], Node.link "/cfg/usb_gadget/g1/functions/acm.usb0".toList),
    (["cfg".toList, "usb_gadget".toList, "g1".toList, "configs".toList, "c.1".toList], Node.dir),
    (["cfg".toList, "usb_gadget".toList, "g1".toList, "functions".toList, "ecm.usb0".toList],
      Node.dir),
    (["cfg".toList, "usb_gadget".toList, "g1".toList, "functions".toList, "acm.usb1".toList],
      Node.dir),
    (["cfg".toList, "usb_gadget".toList, "g1".toList, "functions".toList, "acm.usb0".toList],
      Node.dir) ] ++ exampleStore


/-! # Theorems -/

/-! ### `strcmp` -/

theorem strcmp_self (a : Str) : strcmp a a = 0 := by
  induction a with
  | nil => rfl
  | cons c cs ih => simp [strcmp, ih]

theorem strcmp_eq_zero {a b : Str} : strcmp a b = 0 ↔ a = b := by
  constructor
  · intro h
    induction a generalizing b with
    | nil => cases b with
      | nil => rfl
      | cons d ds => simp [strcmp] at h
    | cons c cs ih => cases b with
      | nil => simp [strcmp] at h
      | cons d ds =>
        by_cases hcd : c = d
        · subst hcd
          simp only [strcmp, if_true] at h
          rw [ih h]
        · simp only [strcmp, if_neg hcd] at h
          exfalso
          apply hcd
          apply Char.ext
          apply UInt32.ext
          have : c.toNat = d.toNat := by omega
          exact this
  · rintro rfl
    exact strcmp_self a

/-! ### Walks over a held sequence -/

theorem Linked.walk_eq {q : TailQ α} {v : Option Nat} {l : List Nat} (h : Linked q v l) :
    ∀ fuel, l.length ≤ fuel → walk q fuel v = some l := by
  induction l generalizing v with
  | nil => intro fuel _; cases h; cases fuel <;> rfl
  | cons p l ih =>
    intro fuel hf
    obtain ⟨rfl, h2⟩ := h
    cases fuel with
    | zero => simp at hf
    | succ n =>
      have := ih h2 n (by simpa using hf)
      simp [walk, this]

theorem Linked.find_eq {q : TailQ α} {v : Option Nat} {l : List Nat} (h : Linked q v l)
    (found : Nat → Bool) :
    ∀ fuel, l.length ≤ fuel → foreach_find found q fuel v = some (l.find? found) := by
  induction l generalizing v with
  | nil => intro fuel _; cases h; cases fuel <;> rfl
  | cons p l ih =>
    intro fuel hf
    obtain ⟨rfl, h2⟩ := h
    cases fuel with
    | zero => simp at hf
    | succ n =>
      have := ih h2 n (by simpa using hf)
      by_cases hp : found p
      · simp [foreach_find, hp]
      · simp [foreach_find, hp, this]

theorem length_le_of_nodup_lt {l : List Nat} {n : Nat} (hd : l.Nodup) (hl : ∀ p ∈ l, p < n) :
    l.length ≤ n := by
  have hsub : l ⊆ List.range n := fun p hp => List.mem_range.2 (hl p hp)
  have := (List.subperm_of_subset hd hsub).length_le
  simpa using this

theorem Holds.length_le {q : TailQ α} {l : List Nat} (h : Holds q l) : l.length ≤ q.brk :=
  length_le_of_nodup_lt h.nodup h.lt_brk

theorem Holds.toList_eq {q : TailQ α} {l : List Nat} (h : Holds q l) : q.toList = some l :=
  h.linked.walk_eq _ h.length_le


/-! ### The fields after each insertion macro -/

@[simp] theorem alloc_tqe_next (q : TailQ α) (x : α) : (q.alloc x).tqe_next = q.tqe_next := rfl
@[simp] theorem alloc_tqe_prev (q : TailQ α) (x : α) : (q.alloc x).tqe_prev = q.tqe_prev := rfl
@[simp] theorem alloc_tqh_first (q : TailQ α) (x : α) : (q.alloc x).tqh_first = q.tqh_first := rfl
@[simp] theorem alloc_tqh_last (q : TailQ α) (x : α) : (q.alloc x).tqh_last = q.tqh_last := rfl
@[simp] theorem alloc_brk (q : TailQ α) (x : α) : (q.alloc x).brk = q.brk + 1 := rfl
@[simp] theorem alloc_elm_new (q : TailQ α) (x : α) : (q.alloc x).elm q.brk = x := by
  simp [TailQ.alloc]
theorem alloc_elm_old (q : TailQ α) (x : α) {p : Nat} (h : p ≠ q.brk) :
    (q.alloc x).elm p = q.elm p := by
  simp [TailQ.alloc, Function.update_apply, h]

theorem before_elm (cur new : Nat) (q : TailQ α) : (TAILQ_INSERT_BEFORE cur new q).elm = q.elm := by
  unfold TAILQ_INSERT_BEFORE TailQ.setPrev TailQ.store TailQ.setNext
  dsimp only
  split <;> rfl

theorem before_brk (cur new : Nat) (q : TailQ α) : (TAILQ_INSERT_BEFORE cur new q).brk = q.brk := by
  unfold TAILQ_INSERT_BEFORE TailQ.setPrev TailQ.store TailQ.setNext
  dsimp only
  split <;> rfl

theorem before_tqh_last (cur new : Nat) (q : TailQ α) :
    (TAILQ_INSERT_BEFORE cur new q).tqh_last = q.tqh_last := by
  unfold TAILQ_INSERT_BEFORE TailQ.setPrev TailQ.store TailQ.setNext
  dsimp only
  split <;> rfl

theorem before_tqh_first (cur new : Nat) (q : TailQ α) :
    (TAILQ_INSERT_BEFORE cur new q).tqh_first =
      if q.tqe_prev cur = Cell.head then some new else q.tqh_first := by
  unfold TAILQ_INSERT_BEFORE TailQ.setPrev TailQ.store TailQ.setNext
  dsimp only
  have hc : Function.update q.tqe_prev new (q.tqe_prev cur) cur = q.tqe_prev cur := by
    simp [Function.update_apply]
  rw [hc]
  cases h : q.tqe_prev cur <;> simp

theorem before_tqe_next (cur new : Nat) (q : TailQ α) (r : Nat) :
    (TAILQ_INSERT_BEFORE cur new q).tqe_next r =
      if q.tqe_prev cur = Cell.next r then some new
      else if r = new then some cur else q.tqe_next r := by
  unfold TAILQ_INSERT_BEFORE TailQ.setPrev TailQ.store TailQ.setNext
  dsimp only
  have hc : Function.update q.tqe_prev new (q.tqe_prev cur) cur = q.tqe_prev cur := by
    simp [Function.update_apply]
  rw [hc]
  cases h : q.tqe_prev cur with
  | head => simp [Function.update_apply]
  | next p =>
    by_cases hp : r = p
    · subst hp; simp [Function.update_apply]
    · have : p ≠ r := fun e => hp e.symm
      simp [Function.update_apply, hp, this]

theorem before_tqe_prev (cur new : Nat) (q : TailQ α) (r : Nat) :
    (TAILQ_INSERT_BEFORE cur new q).tqe_prev r =
      if r = cur then Cell.next new
      else if r = new then q.tqe_prev cur else q.tqe_prev r := by
  unfold TAILQ_INSERT_BEFORE TailQ.setPrev TailQ.store TailQ.setNext
  dsimp only
  have hc : Function.update q.tqe_prev new (q.tqe_prev cur) cur = q.tqe_prev cur := by
    simp [Function.update_apply]
  rw [hc]
  cases h : q.tqe_prev cur <;> simp [Function.update_apply]

theorem before_load (cur new : Nat) (q : TailQ α) :
    (TAILQ_INSERT_BEFORE cur new q).load (q.tqe_prev cur) = some new := by
  cases h : q.tqe_prev cur with
  | head => simp [TailQ.load, before_tqh_first, h]
  | next p => simp [TailQ.load, before_tqe_next, h]

/-- Once the walk of the insertion loop stands on the new element itself it
never leaves it: the element is inserted before itself and becomes its own
successor. -/
theorem foreach_insert_self (nameOf : α → Str) (name : Str) (new : Nat) :
    ∀ (fuel : Nat) (q : TailQ α), ¬ strcmp name (nameOf (q.elm new)) > 0 →
      foreach_insert nameOf name new fuel (some new) q = none := by
  intro fuel
  induction fuel with
  | zero => intro q _; rfl
  | succ n ih =>
    intro q h
    have hnext : (TAILQ_INSERT_BEFORE new new q).tqe_next new = some new := by
      rw [before_tqe_next]; split <;> simp
    simp only [foreach_insert, if_neg h, hnext]
    apply ih
    rw [before_elm]; exact h


/-! ### The insertion loop -/

theorem Touched.refl (q0 : TailQ α) (new : Nat) : Touched q0 q0 new :=
  ⟨rfl, rfl, rfl, Or.inl rfl, fun _ _ => Or.inl rfl, fun _ _ => Or.inl rfl⟩

theorem Touched.before {q0 q : TailQ α} {new : Nat} (h : Touched q0 q new) (cur : Nat) :
    Touched q0 (TAILQ_INSERT_BEFORE cur new q) new := by
  refine ⟨?_, ?_, ?_, ?_, ?_, ?_⟩
  · rw [before_elm, h.elm_eq]
  · rw [before_brk, h.brk_eq]
  · rw [before_tqh_last, h.last_eq]
  · rw [before_tqh_first]; split
    · exact Or.inr rfl
    · exact h.first
  · intro r hr
    rw [before_tqe_next]; split
    · exact Or.inr rfl
    · exact h.next r hr
  · intro r hr
    rw [before_tqe_prev]; split
    · exact Or.inr rfl
    · exact h.prev r hr

theorem foreach_insert_spec (nameOf : α → Str) (name : Str) (new : Nat) (q0 : TailQ α)
    (hname : ¬ strcmp name (nameOf (q0.elm new)) > 0) (L : Nat)
    (hL : ¬ strcmp name (nameOf (q0.elm L)) > 0) :
    ∀ (rest : List Nat) (cur : Nat) (q : TailQ α) (fuel : Nat) (q' : TailQ α),
      Linked q0 (q0.tqe_next cur) rest →
      (cur :: rest).Nodup →
      (∀ r ∈ cur :: rest, r ≠ new ∧ q0.tqe_prev r ≠ Cell.next new) →
      (cur :: rest).getLast? = some L →
      Touched q0 q new →
      (∀ r ∈ cur :: rest, q.tqe_prev r = q0.tqe_prev r) →
      foreach_insert nameOf name new fuel (some cur) q = some q' →
      Landed q0 q' new L := by
  intro rest
  induction rest with
  | nil =>
    intro cur q fuel q' hlink _ hfresh hlast ht hprev hrun
    have hcur : cur = L := by simpa using hlast
    subst hcur
    have hnext0 : q0.tqe_next cur = none := hlink
    obtain ⟨hne, hpc⟩ := hfresh cur (by simp)
    have hpq : q.tqe_prev cur = q0.tqe_prev cur := hprev cur (by simp)
    cases fuel with
    | zero => simp [foreach_insert] at hrun
    | succ n =>
      have hskip : ¬ strcmp name (nameOf (q.elm cur)) > 0 := by rw [ht.elm_eq]; exact hL
      simp only [foreach_insert, if_neg hskip] at hrun
      have hn : (TAILQ_INSERT_BEFORE cur new q).tqe_next cur = none ∨
          (TAILQ_INSERT_BEFORE cur new q).tqe_next cur = some new := by
        rcases (ht.before cur).next cur hne with h | h
        · left; rw [h, hnext0]
        · right; exact h
      rcases hn with hn | hn
      · rw [hn] at hrun
        cases fuel_eq : n <;> simp only [fuel_eq, foreach_insert, Option.some.injEq] at hrun <;>
          subst hrun <;>
          exact ⟨ht.before cur, by rw [before_tqe_next, hpq, if_neg hpc]; simp,
            by rw [← hpq]; exact before_load cur new q,
            by rw [before_tqe_prev]; simp, hn,
            by rw [before_tqe_prev, if_neg (Ne.symm hne)]; simp [hpq]⟩
      · rw [hn] at hrun
        rw [foreach_insert_self nameOf name new n _
          (by rw [before_elm, ht.elm_eq]; exact hname)] at hrun
        cases hrun
  | cons r rest ih =>
    intro cur q fuel q' hlink hnd hfresh hlast ht hprev hrun
    obtain ⟨hnext0, hlink'⟩ := hlink
    have hnd' : (r :: rest).Nodup := (List.nodup_cons.1 hnd).2
    have hcur_notin : cur ∉ r :: rest := (List.nodup_cons.1 hnd).1
    have hfresh' : ∀ x ∈ r :: rest, x ≠ new ∧ q0.tqe_prev x ≠ Cell.next new :=
      fun x hx => hfresh x (List.mem_cons_of_mem _ hx)
    have hlast' : (r :: rest).getLast? = some L := by
      simpa [List.getLast?_cons_cons] using hlast
    obtain ⟨hne, hpc⟩ := hfresh cur (by simp)
    cases fuel with
    | zero => simp [foreach_insert] at hrun
    | succ n =>
      by_cases hskip : strcmp name (nameOf (q.elm cur)) > 0
      · simp only [foreach_insert, if_pos hskip] at hrun
        rcases ht.next cur hne with h | h
        · rw [h, hnext0] at hrun
          exact ih r q n q' hlink' hnd' hfresh' hlast' ht
            (fun x hx => hprev x (List.mem_cons_of_mem _ hx)) hrun
        · rw [h, foreach_insert_self nameOf name new n _
            (by rw [ht.elm_eq]; exact hname)] at hrun
          cases hrun
      · simp only [foreach_insert, if_neg hskip] at hrun
        rcases (ht.before cur).next cur hne with h | h
        · rw [h, hnext0] at hrun
          refine ih r _ n q' hlink' hnd' hfresh' hlast' (ht.before cur) ?_ hrun
          intro x hx
          have hxc : x ≠ cur := fun e => hcur_notin (e ▸ hx)
          have hxn : x ≠ new := (hfresh' x hx).1
          rw [before_tqe_prev, if_neg hxc, if_neg hxn]
          exact hprev x (List.mem_cons_of_mem _ hx)
        · rw [h, foreach_insert_self nameOf name new n _
            (by rw [before_elm, ht.elm_eq]; exact hname)] at hrun
          cases hrun


/-! ### Sequences after an insertion -/

@[simp] theorem endCell_nil (c : Cell) : endCell c [] = c := rfl

@[simp] theorem endCell_concat (c : Cell) (l : List Nat) (p : Nat) :
    endCell c (l ++ [p]) = Cell.next p := by
  simp [endCell]

@[simp] theorem endCell_cons (c : Cell) (p : Nat) (l : List Nat) :
    endCell c (p :: l) = endCell (Cell.next p) l := by
  cases l with
  | nil => simp [endCell]
  | cons r l =>
    have h : (r :: l).getLast? = some ((r :: l).getLast (by simp)) := List.getLast?_eq_getLast _ _
    simp only [endCell, List.getLast?_cons_cons, h]

theorem endCell_irrel {l : List Nat} (h : l ≠ []) (c d : Cell) : endCell c l = endCell d l := by
  cases l with
  | nil => exact absurd rfl h
  | cons p l => simp

theorem Linked.congr {q q' : TailQ α} {l : List Nat} :
    ∀ {v : Option Nat}, (∀ p ∈ l, q'.tqe_next p = q.tqe_next p) → Linked q v l → Linked q' v l := by
  induction l with
  | nil => intro v _ h; exact h
  | cons p l ih =>
    intro v hq h
    obtain ⟨hv, h2⟩ := h
    refine ⟨hv, ?_⟩
    rw [hq p (by simp)]
    exact ih (fun r hr => hq r (List.mem_cons_of_mem _ hr)) h2

theorem Landed.walk_linked {q0 q' : TailQ α} {new L : Nat} (h : Landed q0 q' new L) :
    ∀ (l' : List Nat) (c : Cell), Linked q0 (q0.load c) (l' ++ [L]) → new ∉ l' →
      q0.tqe_prev L = endCell c l' → (q'.load c = q0.load c ∨ q'.load c = some new) →
      ∃ pre, pre <+: l' ∧ Linked q' (q'.load c) (pre ++ [new, L]) := by
  have hend : Linked q' (some new) ([] ++ [new, L]) :=
    ⟨rfl, by rw [h.next_new]; exact ⟨rfl, h.next_L⟩⟩
  intro l'
  induction l' with
  | nil =>
    intro c _ _ hp _
    refine ⟨[], List.prefix_refl _, ?_⟩
    have := h.cell
    rw [hp, endCell_nil] at this
    rw [this]; exact hend
  | cons p l ih =>
    intro c hl hnew hp hc
    rcases hc with hc | hc
    · obtain ⟨hv, hl2⟩ := hl
      have hpn : p ≠ new := fun e => hnew (e ▸ List.mem_cons_self _ _)
      have hn := h.touched.next p hpn
      obtain ⟨pre, hpre, hlk⟩ := ih (Cell.next p) hl2
        (fun hm => hnew (List.mem_cons_of_mem _ hm)) (by simpa using hp) hn
      refine ⟨p :: pre, ?_, ?_⟩
      · exact (List.prefix_cons_inj p).2 hpre
      · exact ⟨by rw [hc]; exact hv, hlk⟩
    · exact ⟨[], List.nil_prefix, by rw [hc]; exact hend⟩


theorem Cell.Below.mono {n m : Nat} (h : n ≤ m) : ∀ {c : Cell}, c.Below n → c.Below m
  | Cell.head, _ => trivial
  | Cell.next _, hp => Nat.lt_of_lt_of_le hp h

theorem Cell.Below.ne_next {n : Nat} : ∀ {c : Cell}, c.Below n → c ≠ Cell.next n
  | Cell.head, _ => by simp
  | Cell.next p, hp => by
    intro e
    have hlt : p < n := hp
    have : p = n := by injection e
    omega

theorem Linked.load_endCell {q : TailQ α} {L : Nat} :
    ∀ (l' : List Nat) (c : Cell), Linked q (q.load c) (l' ++ [L]) → q.load (endCell c l') = some L := by
  intro l'
  induction l' with
  | nil => intro c h; exact h.1
  | cons p l ih =>
    intro c h
    rw [endCell_cons]
    exact ih (Cell.next p) h.2

theorem Linked.alloc_linked {q : TailQ α} {v : Option Nat} {l : List Nat} (h : Linked q v l) (x : α) :
    Linked (q.alloc x) v l :=
  @Linked.congr α q (q.alloc x) l v (fun _ _ => rfl) h

theorem Holds.alloc_holds {q : TailQ α} {l : List Nat} (h : Holds q l) (x : α) : Holds (q.alloc x) l :=
  ⟨h.linked.alloc_linked x, h.nodup, fun p hp => Nat.lt_succ_of_lt (h.lt_brk p hp),
    fun p hp => (h.prev_below p hp).mono (Nat.le_succ _), h.last_eq, h.prev_last⟩

theorem Holds.brk_not_mem {q : TailQ α} {l : List Nat} (h : Holds q l) : q.brk ∉ l :=
  fun hm => Nat.lt_irrefl _ (h.lt_brk _ hm)

theorem Holds.last {q : TailQ α} {l' : List Nat} {L : Nat} (h : Holds q (l' ++ [L])) :
    TAILQ_LAST q = some L := by
  have h1 : q.tqh_last = Cell.next L := by rw [h.last_eq, endCell_concat]
  have h2 := h.prev_last l' L rfl
  have h3 := Linked.load_endCell l' Cell.head h.linked
  simp only [TAILQ_LAST, h1, h2, h3]

/-- The loop of the third branch, when it comes back, leaves a queue that
holds a beginning of the old sequence, then the new element, then the old last
element. -/
theorem Holds.foreach_insert {q : TailQ α} {l' : List Nat} {L : Nat} (h : Holds q (l' ++ [L]))
    (nameOf : α → Str) (x : α) (hL : ¬ strcmp (nameOf x) (nameOf (q.elm L)) > 0) {q' : TailQ α}
    (hrun : foreach_insert nameOf (nameOf x) q.brk (q.brk + 1) q.tqh_first (q.alloc x) = some q') :
    ∃ pre, pre <+: l' ∧ Holds q' (pre ++ [q.brk, L]) ∧ q'.elm = (q.alloc x).elm ∧
      q'.brk = q.brk + 1 := by
  have hLlt : L < q.brk := h.lt_brk L (by simp)
  have hLne : L ≠ q.brk := Nat.ne_of_lt hLlt
  have hname : ¬ strcmp (nameOf x) (nameOf ((q.alloc x).elm q.brk)) > 0 := by
    rw [alloc_elm_new, strcmp_self]; exact lt_irrefl _
  have hL0 : ¬ strcmp (nameOf x) (nameOf ((q.alloc x).elm L)) > 0 := by
    rw [alloc_elm_old q x hLne]; exact hL
  obtain ⟨cur, rest, hcr⟩ : ∃ cur rest, l' ++ [L] = cur :: rest := by
    cases l' with
    | nil => exact ⟨L, [], rfl⟩
    | cons a l => exact ⟨a, l ++ [L], rfl⟩
  have hlk := (h.alloc_holds x).linked
  rw [hcr] at hlk
  obtain ⟨hfirst, hlk2⟩ := hlk
  rw [← alloc_tqh_first q x, hfirst] at hrun
  have hmem : ∀ r ∈ cur :: rest, r ∈ l' ++ [L] := fun r hr => hcr ▸ hr
  have hlanded : Landed (q.alloc x) q' q.brk L :=
    foreach_insert_spec nameOf (nameOf x) q.brk (q.alloc x) hname L hL0 rest cur (q.alloc x)
      (q.brk + 1) q' hlk2 (hcr ▸ h.nodup)
      (fun r hr => ⟨Nat.ne_of_lt (h.lt_brk r (hmem r hr)),
        (h.prev_below r (hmem r hr)).ne_next⟩)
      (by rw [← hcr]; simp) (Touched.refl _ _) (fun _ _ => rfl) hrun
  have hnd := h.nodup
  rw [List.nodup_append] at hnd
  obtain ⟨hnd1, -, hdisj⟩ := hnd
  have hLnot : L ∉ l' := fun hm => hdisj hm (by simp)
  have hnew_not : q.brk ∉ l' := fun hm => h.brk_not_mem (by simp [hm])
  obtain ⟨pre, hpre, hlinked⟩ := hlanded.walk_linked l' Cell.head (h.alloc_holds x).linked hnew_not
    (h.prev_last l' L rfl) hlanded.touched.first
  refine ⟨pre, hpre, ?_, hlanded.touched.elm_eq, hlanded.touched.brk_eq⟩
  have hsub : ∀ p ∈ pre, p ∈ l' := fun p hp => hpre.subset hp
  refine ⟨hlinked, ?_, ?_, ?_, ?_, ?_⟩
  · rw [List.nodup_append]
    refine ⟨hpre.sublist.nodup hnd1, by simp [Ne.symm hLne], ?_⟩
    intro p hp hp2
    simp only [List.mem_cons, List.mem_singleton, List.not_mem_nil, or_false] at hp2
    rcases hp2 with rfl | rfl
    · exact hnew_not (hsub _ hp)
    · exact hLnot (hsub _ hp)
  · intro p hp
    rw [hlanded.touched.brk_eq, alloc_brk]
    simp only [List.mem_append, List.mem_cons, List.mem_singleton, List.not_mem_nil,
      or_false] at hp
    rcases hp with hp | rfl | rfl
    · exact Nat.lt_succ_of_lt (h.lt_brk p (by simp [hsub p hp]))
    · exact Nat.lt_succ_self _
    · exact Nat.lt_succ_of_lt hLlt
  · intro p hp
    rw [hlanded.touched.brk_eq, alloc_brk]
    by_cases hpn : p = q.brk
    · subst hpn
      rw [hlanded.prev_new]
      exact (h.prev_below L (by simp)).mono (Nat.le_succ _)
    · have hpl : p ∈ l' ++ [L] := by
        simp only [List.mem_append, List.mem_cons, List.mem_singleton, List.not_mem_nil,
          or_false] at hp
        rcases hp with hp | hp | hp
        · simp [hsub p hp]
        · exact absurd hp hpn
        · simp [hp]
      rcases hlanded.touched.prev p hpn with e | e
      · rw [e]; exact (h.prev_below p hpl).mono (Nat.le_succ _)
      · rw [e]; exact Nat.lt_succ_self _
  · rw [hlanded.touched.last_eq, alloc_tqh_last, h.last_eq, endCell_concat]
    have : pre ++ [q.brk, L] = (pre ++ [q.brk]) ++ [L] := by simp
    rw [this, endCell_concat]
  · intro m L' hm
    have e : (pre ++ [q.brk]) ++ [L] = m ++ [L'] := by simpa using hm
    obtain ⟨e1, e2⟩ := List.append_inj' e rfl
    have e3 : L = L' := by simpa using e2
    subst e3
    rw [← e1, endCell_concat]
    exact hlanded.prev_L


theorem head_tqe_next (new : Nat) (q : TailQ α) (r : Nat) :
    (TAILQ_INSERT_HEAD new q).tqe_next r = if r = new then q.tqh_first else q.tqe_next r := by
  unfold TAILQ_INSERT_HEAD TailQ.setPrev TailQ.setNext
  dsimp only
  cases q.tqh_first <;> simp [Function.update_apply]

theorem head_tqe_prev (new : Nat) (q : TailQ α) (r : Nat) :
    (TAILQ_INSERT_HEAD new q).tqe_prev r =
      if r = new then Cell.head
      else if q.tqh_first = some r then Cell.next new else q.tqe_prev r := by
  unfold TAILQ_INSERT_HEAD TailQ.setPrev TailQ.setNext
  dsimp only
  cases h : q.tqh_first with
  | none => simp [Function.update_apply]
  | some f =>
    by_cases hr : r = new
    · simp [Function.update_apply, hr]
    · by_cases hf : f = r
      · subst hf; simp [Function.update_apply, hr]
      · have : r ≠ f := fun e => hf e.symm
        simp [Function.update_apply, hr, hf, this]

theorem head_tqh_first (new : Nat) (q : TailQ α) :
    (TAILQ_INSERT_HEAD new q).tqh_first = some new := by
  unfold TAILQ_INSERT_HEAD TailQ.setPrev TailQ.setNext
  dsimp only

theorem head_tqh_last (new : Nat) (q : TailQ α) :
    (TAILQ_INSERT_HEAD new q).tqh_last =
      if q.tqh_first = none then Cell.next new else q.tqh_last := by
  unfold TAILQ_INSERT_HEAD TailQ.setPrev TailQ.setNext
  dsimp only
  cases q.tqh_first <;> simp

theorem head_elm (new : Nat) (q : TailQ α) : (TAILQ_INSERT_HEAD new q).elm = q.elm := by
  unfold TAILQ_INSERT_HEAD TailQ.setPrev TailQ.setNext
  dsimp only
  cases q.tqh_first <;> rfl

theorem head_brk (new : Nat) (q : TailQ α) : (TAILQ_INSERT_HEAD new q).brk = q.brk := by
  unfold TAILQ_INSERT_HEAD TailQ.setPrev TailQ.setNext
  dsimp only
  cases q.tqh_first <;> rfl

theorem tail_tqe_next (new : Nat) (q : TailQ α) (r : Nat) :
    (TAILQ_INSERT_TAIL new q).tqe_next r =
      if q.tqh_last = Cell.next r then some new
      else if r = new then none else q.tqe_next r := by
  unfold TAILQ_INSERT_TAIL TailQ.setPrev TailQ.store TailQ.setNext
  dsimp only
  cases h : q.tqh_last with
  | head => simp [Function.update_apply]
  | next p =>
    by_cases hp : r = p
    · subst hp; simp [Function.update_apply]
    · have : p ≠ r := fun e => hp e.symm
      simp [Function.update_apply, hp, this]

theorem tail_tqe_prev (new : Nat) (q : TailQ α) (r : Nat) :
    (TAILQ_INSERT_TAIL new q).tqe_prev r = if r = new then q.tqh_last else q.tqe_prev r := by
  unfold TAILQ_INSERT_TAIL TailQ.setPrev TailQ.store TailQ.setNext
  dsimp only
  cases h : q.tqh_last <;> simp [Function.update_apply]

theorem tail_tqh_first (new : Nat) (q : TailQ α) :
    (TAILQ_INSERT_TAIL new q).tqh_first =
      if q.tqh_last = Cell.head then some new else q.tqh_first := by
  unfold TAILQ_INSERT_TAIL TailQ.setPrev TailQ.store TailQ.setNext
  dsimp only
  cases h : q.tqh_last <;> simp

theorem tail_tqh_last (new : Nat) (q : TailQ α) :
    (TAILQ_INSERT_TAIL new q).tqh_last = Cell.next new := by
  unfold TAILQ_INSERT_TAIL TailQ.setPrev TailQ.store TailQ.setNext
  dsimp only

theorem tail_elm (new : Nat) (q : TailQ α) : (TAILQ_INSERT_TAIL new q).elm = q.elm := by
  unfold TAILQ_INSERT_TAIL TailQ.setPrev TailQ.store TailQ.setNext
  dsimp only
  split <;> rfl

theorem tail_brk (new : Nat) (q : TailQ α) : (TAILQ_INSERT_TAIL new q).brk = q.brk := by
  unfold TAILQ_INSERT_TAIL TailQ.setPrev TailQ.store TailQ.setNext
  dsimp only
  split <;> rfl

/-- The macro `TAILQ_INSERT_HEAD` puts the new element in front of the held sequence. -/
theorem Holds.insert_head {q : TailQ α} {l : List Nat} (h : Holds q l) {new : Nat}
    (hnew : new ∉ l) (hlt : new < q.brk) : Holds (TAILQ_INSERT_HEAD new q) (new :: l) := by
  have hne : ∀ p ∈ l, p ≠ new := fun p hp e => hnew (e ▸ hp)
  refine ⟨?_, ?_, ?_, ?_, ?_, ?_⟩
  · refine ⟨head_tqh_first new q, ?_⟩
    rw [head_tqe_next, if_pos rfl]
    refine Linked.congr ?_ h.linked
    intro p hp
    rw [head_tqe_next, if_neg (hne p hp)]
  · exact List.nodup_cons.2 ⟨hnew, h.nodup⟩
  · intro p hp
    rw [head_brk]
    rcases List.mem_cons.1 hp with rfl | hp
    · exact hlt
    · exact h.lt_brk p hp
  · intro p hp
    rw [head_brk, head_tqe_prev]
    split
    · trivial
    · split
      · exact hlt
      · rcases List.mem_cons.1 hp with e | hp
        · contradiction
        · exact h.prev_below p hp
  · rw [head_tqh_last, endCell_cons]
    cases l with
    | nil =>
      have : q.tqh_first = none := h.linked
      simp [this]
    | cons a l =>
      have : q.tqh_first = some a := h.linked.1
      rw [this, h.last_eq]
      simp
  · intro m L hm
    rw [head_tqe_prev]
    cases m with
    | nil =>
      have : new = L := by simpa using (List.cons.inj hm).1
      simp [this]
    | cons a m =>
      obtain ⟨ha, hl⟩ := List.cons.inj hm
      subst ha
      have hLmem : L ∈ l := by rw [hl]; simp
      rw [if_neg (hne L hLmem)]
      have hprev := h.prev_last m L hl
      cases m with
      | nil =>
        have : q.tqh_first = some L := by
          have := h.linked; rw [hl] at this; exact this.1
        simp [this]
      | cons b m =>
        have hfirst : q.tqh_first = some b := by
          have := h.linked; rw [hl] at this; exact this.1
        have hbL : b ≠ L := by
          have := h.nodup; rw [hl] at this
          intro e
          have h2 := (List.nodup_cons.1 this).1
          apply h2; rw [e]; simp
        have : ¬ (q.tqh_first = some L) := by
          rw [hfirst]; intro e; exact hbL (Option.some.inj e)
        rw [if_neg this, hprev]
        simp

theorem eq_nil_or_snoc (l : List Nat) : l = [] ∨ ∃ l' L, l = l' ++ [L] := by
  rcases List.eq_nil_or_concat l with h | ⟨l', L, h⟩
  · exact Or.inl h
  · exact Or.inr ⟨l', L, by simpa using h⟩

theorem Linked.snoc {q q' : TailQ α} {L new : Nat} :
    ∀ (l' : List Nat) (v : Option Nat), Linked q v (l' ++ [L]) →
      (∀ r ∈ l', q'.tqe_next r = q.tqe_next r) → q'.tqe_next L = some new →
      q'.tqe_next new = none → Linked q' v (l' ++ [L] ++ [new]) := by
  intro l'
  induction l' with
  | nil =>
    intro v h _ hL hn
    exact ⟨h.1, by rw [hL]; exact ⟨rfl, hn⟩⟩
  | cons p l ih =>
    intro v h hq hL hn
    refine ⟨h.1, ?_⟩
    rw [hq p (by simp)]
    exact ih _ h.2 (fun r hr => hq r (List.mem_cons_of_mem _ hr)) hL hn

/-- The macro `TAILQ_INSERT_TAIL` puts the new element behind the held sequence. -/
theorem Holds.insert_tail {q : TailQ α} {l : List Nat} (h : Holds q l) {new : Nat}
    (hnew : new ∉ l) (hlt : new < q.brk) : Holds (TAILQ_INSERT_TAIL new q) (l ++ [new]) := by
  have hne : ∀ p ∈ l, p ≠ new := fun p hp e => hnew (e ▸ hp)
  have hlink : Linked (TAILQ_INSERT_TAIL new q) (TAILQ_INSERT_TAIL new q).tqh_first (l ++ [new]) := by
    rcases eq_nil_or_snoc l with rfl | ⟨l', L, rfl⟩
    · have hlast : q.tqh_last = Cell.head := by rw [h.last_eq]; rfl
      refine ⟨by rw [tail_tqh_first, if_pos hlast], ?_⟩
      rw [tail_tqe_next, hlast]
      simp [Linked]
    · have hlast : q.tqh_last = Cell.next L := by rw [h.last_eq, endCell_concat]
      have hLn : L ≠ new := hne L (by simp)
      have hnd := h.nodup
      rw [List.nodup_append] at hnd
      have hLnot : L ∉ l' := fun hm => hnd.2.2 hm (by simp)
      rw [tail_tqh_first, hlast, if_neg (by simp)]
      refine Linked.snoc l' _ h.linked ?_ ?_ ?_
      · intro r hr
        have hrL : L ≠ r := fun e => hLnot (e ▸ hr)
        have hrn : r ≠ new := hne r (by simp [hr])
        rw [tail_tqe_next, hlast, if_neg (by simpa using hrL), if_neg hrn]
      · rw [tail_tqe_next, hlast, if_pos rfl]
      · rw [tail_tqe_next, hlast, if_neg (by simpa using hLn), if_pos rfl]
  refine ⟨hlink, ?_, ?_, ?_, ?_, ?_⟩
  · rw [List.nodup_append]
    exact ⟨h.nodup, by simp, fun p hp hp2 => hne p hp (by simpa using hp2)⟩
  · intro p hp
    rw [tail_brk]
    rcases List.mem_append.1 hp with hp | hp
    · exact h.lt_brk p hp
    · have : p = new := by simpa using hp
      rw [this]; exact hlt
  · intro p hp
    rw [tail_brk, tail_tqe_prev]
    split
    · rw [h.last_eq]
      rcases eq_nil_or_snoc l with rfl | ⟨l', L, rfl⟩
      · trivial
      · rw [endCell_concat]; exact h.lt_brk L (by simp)
    · rcases List.mem_append.1 hp with hp | hp
      · exact h.prev_below p hp
      · have : p = new := by simpa using hp
        contradiction
  · rw [tail_tqh_last, endCell_concat]
  · intro m L hm
    obtain ⟨e1, e2⟩ := List.append_inj' hm rfl
    have e3 : new = L := by simpa using e2
    subst e3 e1
    rw [tail_tqe_prev, if_pos rfl, h.last_eq]


/-- The "Insert in string order" block, when it comes back, leaves a queue
that holds a beginning of the old sequence, the new element, and an end of
the old sequence. -/
theorem Holds.insert {q : TailQ α} {l : List Nat} (h : Holds q l) (nameOf : α → Str) (x : α)
    {q' : TailQ α}
    (hrun : insert_in_string_order nameOf (nameOf x) q.brk (q.alloc x) = some q') :
    ∃ pre post, pre <+: l ∧ post <:+ l ∧ (pre ++ post).Sublist l ∧
      Holds q' (pre ++ q.brk :: post) ∧ q'.elm = (q.alloc x).elm ∧ q'.brk = q.brk + 1 := by
  have hnew : q.brk ∉ l := h.brk_not_mem
  have hlt : q.brk < (q.alloc x).brk := Nat.lt_succ_self _
  have hhead : Holds (TAILQ_INSERT_HEAD q.brk (q.alloc x)) ([] ++ q.brk :: l) :=
    (h.alloc_holds x).insert_head hnew hlt
  unfold insert_in_string_order at hrun
  rcases eq_nil_or_snoc l with rfl | ⟨l', L, rfl⟩
  · have hf : TAILQ_FIRST (q.alloc x) = none := h.linked
    rw [hf] at hrun
    cases hrun
    exact ⟨[], [], List.prefix_refl _, List.suffix_refl _, List.Sublist.refl _, hhead,
      head_elm _ _, head_brk _ _⟩
  · obtain ⟨cur, rest, hcr⟩ : ∃ cur rest, l' ++ [L] = cur :: rest := by
      cases l' with
      | nil => exact ⟨L, [], rfl⟩
      | cons a l => exact ⟨a, l ++ [L], rfl⟩
    have hf : TAILQ_FIRST (q.alloc x) = some cur := by
      have := h.linked; rw [hcr] at this; exact this.1
    rw [hf] at hrun
    dsimp only at hrun
    split at hrun
    · cases hrun
      exact ⟨[], l' ++ [L], List.nil_prefix, List.suffix_refl _, List.Sublist.refl _, hhead,
        head_elm _ _, head_brk _ _⟩
    · rw [(h.alloc_holds x).last] at hrun
      dsimp only at hrun
      split at hrun
      · cases hrun
        refine ⟨l' ++ [L], [], List.prefix_refl _, List.nil_suffix, by simp, ?_, tail_elm _ _,
          tail_brk _ _⟩
        exact (h.alloc_holds x).insert_tail hnew hlt
      · rename_i hL
        have hLne : L ≠ q.brk := Nat.ne_of_lt (h.lt_brk L (by simp))
        rw [alloc_elm_old q x hLne] at hL
        have hf2 : q.tqh_first = some cur := hf
        rw [← hf2] at hrun
        obtain ⟨pre, hpre, hh, he, hb⟩ := h.foreach_insert nameOf x hL hrun
        refine ⟨pre, [L], hpre.trans (List.prefix_append _ _), List.suffix_append _ _,
          List.Sublist.append hpre.sublist (List.Sublist.refl _), hh, he, hb⟩

/-- A `usbg_get_*` walk over a held sequence comes back with the first element
of the sequence that passes the test. -/
theorem Holds.find {q : TailQ α} {l : List Nat} (h : Holds q l) (found : Nat → Bool) :
    foreach_find found q q.brk q.tqh_first = some (l.find? found) :=
  h.linked.find_eq found _ h.length_le


/-! ## C1, C2: the insertion loop drops siblings and loses the order -/

/-- C1 (the code departs from the claim).  On a gadget without configs the
calls `usbg_create_config` for `a.1`, `c.2`, `e.3`, `b.4`, `ab.5` all come
back with a config, and the config sequence read from head to tail is then
`a.1`, `b.4`, `ab.5`, `e.3`: it is not strictly ascending by name. -/
theorem create_config_sequence_not_ascending :
    ((create_configs exampleHeader
        ["a.1".toList, "c.2".toList, "e.3".toList, "b.4".toList, "ab.5".toList]
        exampleStore exampleGadget).bind fun r => config_names r.2)
      = some ["a.1".toList, "b.4".toList, "ab.5".toList, "e.3".toList] ∧
    ¬ Ascending ["a.1".toList, "b.4".toList, "ab.5".toList, "e.3".toList] := by
  decide!

/-- C2 (the code departs from the claim).  On a gadget whose functions are
`acm.a`, `acm.c`, `acm.e`, the call `usbg_create_function(g, F_ACM, "b")`
comes back with a function, and afterwards the sequence is `acm.a`, `acm.b`,
`acm.e`: `acm.c`, which `usbg_get_function` found before the call, is no
longer found. -/
theorem create_function_drops_sibling :
    ((create_functions exampleHeader [(1, "a".toList), (1, "c".toList), (1, "e".toList)]
        exampleStore exampleGadget).bind fun r => function_names_of r.2)
      = some ["acm.a".toList, "acm.c".toList, "acm.e".toList] ∧
    ((create_functions exampleHeader [(1, "a".toList), (1, "c".toList), (1, "e".toList)]
        exampleStore exampleGadget).bind fun r => usbg_get_function r.2 "acm.c".toList)
      = some (some 1) ∧
    ((create_functions exampleHeader
        [(1, "a".toList), (1, "c".toList), (1, "e".toList), (1, "b".toList)]
        exampleStore exampleGadget).bind fun r => function_names_of r.2)
      = some ["acm.a".toList, "acm.b".toList, "acm.e".toList] ∧
    ((create_functions exampleHeader
        [(1, "a".toList), (1, "c".toList), (1, "e".toList), (1, "b".toList)]
        exampleStore exampleGadget).bind fun r => usbg_get_function r.2 "acm.c".toList)
      = some none := by
  decide!


/-! ## Creators on a held sequence -/

theorem Holds.init_holds [Inhabited α] : Holds (TAILQ_INIT : TailQ α) [] :=
  ⟨rfl, List.nodup_nil, fun _ h => absurd h (List.not_mem_nil _),
    fun _ h => absurd h (List.not_mem_nil _), rfl,
    fun l' L h => absurd h (by simp)⟩

/-- After the "Insert in string order" block the new element is in the
sequence, and it is the only element of the sequence that passes a test which
it passes and no old element passed. -/
theorem Holds.insert_new {q q' : TailQ α} {l : List Nat} (h : Holds q l) (nameOf : α → Str)
    (x : α) (P : α → Bool) (hx : P x = true) (hl : ∀ p ∈ l, P (q.elm p) = false)
    (hrun : insert_in_string_order nameOf (nameOf x) q.brk (q.alloc x) = some q') :
    ∃ l', Holds q' l' ∧ l'.find? (fun p => P (q'.elm p)) = some q.brk ∧
      l'.countP (fun p => P (q'.elm p)) = 1 ∧ (∀ p ∈ l', p = q.brk ∨ p ∈ l) := by
  obtain ⟨pre, post, hpre, hpost, -, hh, he, -⟩ := h.insert nameOf x hrun
  have hnew : P (q'.elm q.brk) = true := by rw [he, alloc_elm_new]; exact hx
  have hold : ∀ p ∈ l, P (q'.elm p) = false := by
    intro p hp
    rw [he, alloc_elm_old q x (Nat.ne_of_lt (h.lt_brk p hp))]
    exact hl p hp
  have hpre' : ∀ p ∈ pre, P (q'.elm p) = false := fun p hp => hold p (hpre.subset hp)
  have hpost' : ∀ p ∈ post, P (q'.elm p) = false := fun p hp => hold p (hpost.subset hp)
  refine ⟨_, hh, ?_, ?_, ?_⟩
  · rw [List.find?_append]
    have : pre.find? (fun p => P (q'.elm p)) = none := by
      rw [List.find?_eq_none]; intro p hp; simp [hpre' p hp]
    rw [this]
    simp [List.find?_cons, hnew]
  · rw [List.countP_append, List.countP_cons]
    have h1 : pre.countP (fun p => P (q'.elm p)) = 0 := by
      rw [List.countP_eq_zero]; intro p hp; simp [hpre' p hp]
    have h2 : post.countP (fun p => P (q'.elm p)) = 0 := by
      rw [List.countP_eq_zero]; intro p hp; simp [hpost' p hp]
    simp [h1, h2, hnew]
  · intro p hp
    rcases List.mem_append.1 hp with hp | hp
    · exact Or.inr (hpre.subset hp)
    · rcases List.mem_cons.1 hp with hp | hp
      · exact Or.inl hp
      · exact Or.inr (hpost.subset hp)

/-- The "Insert in string order" block keeps the names of the sequence
pairwise different when the new name is not among them. -/
theorem Holds.insert_names {q q' : TailQ α} {l : List Nat} (h : Holds q l) (nameOf : α → Str)
    (x : α) (hnd : (namesOf nameOf q l).Nodup) (hnew : nameOf x ∉ namesOf nameOf q l)
    (hrun : insert_in_string_order nameOf (nameOf x) q.brk (q.alloc x) = some q') :
    ∃ l', Holds q' l' ∧ (namesOf nameOf q' l').Nodup := by
  obtain ⟨pre, post, hpre, hpost, hsub, hh, he, -⟩ := h.insert nameOf x hrun
  refine ⟨_, hh, ?_⟩
  have hold : ∀ p ∈ l, nameOf (q'.elm p) = nameOf (q.elm p) := by
    intro p hp
    rw [he, alloc_elm_old q x (Nat.ne_of_lt (h.lt_brk p hp))]
  have hmap : ∀ m : List Nat, (∀ p ∈ m, p ∈ l) → namesOf nameOf q' m = namesOf nameOf q m := by
    intro m hm
    unfold namesOf
    exact List.map_congr_left fun p hp => hold p (hm p hp)
  unfold namesOf
  rw [List.map_append, List.map_cons]
  rw [List.nodup_middle]
  have e1 : List.map (fun p => nameOf (q'.elm p)) pre ++ List.map (fun p => nameOf (q'.elm p)) post
      = namesOf nameOf q (pre ++ post) := by
    rw [← List.map_append]
    exact hmap (pre ++ post) fun p hp => hsub.subset hp
  rw [e1, he, alloc_elm_new]
  refine List.nodup_cons.2 ⟨?_, ?_⟩
  · intro hin
    apply hnew
    exact (hsub.map _).subset hin
  · exact (hsub.map _).nodup hnd

theorem usbg_parse_function_attrs_name (hdr : Header) (st : Store) (f : Function) :
    (usbg_parse_function_attrs hdr st f).name = f.name := by
  unfold usbg_parse_function_attrs
  split
  · rfl
  · split
    · rfl
    · split <;> rfl

theorem usbg_get_function_eq {g : Gadget} {l : List Nat} (h : Holds g.functions l) (name : Str) :
    usbg_get_function g name =
      some (l.find? fun f => decide (strcmp (g.functions.elm f).name name = 0)) :=
  h.find _

/-- What a successful `usbg_create_function` leaves: the queue holds a
sequence in which the function returned is the first, and only, one with
the composite name. -/
theorem usbg_create_function_spec {hdr : Header} {st st' : Store} {g g' : Gadget}
    {type : Nat} {inst : Str} {ok : Bool} {f : Nat} {l : List Nat}
    (hq : Holds g.functions l)
    (hc : usbg_create_function hdr st (some g) type inst ok = some (st', some g', some f)) :
    ∃ kind l', hdr.function_names[type]? = some kind ∧ Holds g'.functions l' ∧
      f = g.functions.brk ∧
      l'.find? (fun p => decide (strcmp (g'.functions.elm p).name (kind ++ '.' :: inst) = 0))
        = some f ∧
      l'.countP (fun p => decide (strcmp (g'.functions.elm p).name (kind ++ '.' :: inst) = 0))
        = 1 ∧ (∀ p ∈ l', p = f ∨ p ∈ l) := by
  unfold usbg_create_function at hc
  dsimp only at hc
  cases hk : hdr.function_names[type]? with
  | none => simp [hk] at hc
  | some kind =>
    rw [hk] at hc
    simp only [usbg_get_function_eq hq] at hc
    cases hfind : l.find? (fun f => decide (strcmp (g.functions.elm f).name
        (kind ++ '.' :: inst) = 0)) with
    | some p => rw [hfind] at hc; simp at hc
    | none =>
      rw [hfind] at hc
      dsimp only at hc
      cases ok with
      | false => simp at hc
      | true =>
        simp only [Bool.not_true, Bool.false_eq_true, if_false] at hc
        cases hm : mkdir st (join4 g.path g.name FUNCTIONS_DIR (kind ++ '.' :: inst)) with
        | none => rw [hm] at hc; simp at hc
        | some st1 =>
          rw [hm] at hc
          dsimp only at hc
          rw [Option.map_eq_some'] at hc
          obtain ⟨q', hrun, hres⟩ := hc
          simp only [Prod.mk.injEq, Option.some.injEq] at hres
          obtain ⟨-, hg', hf⟩ := hres
          subst hg' hf
          have hnone : ∀ p ∈ l, decide (strcmp (g.functions.elm p).name
              (kind ++ '.' :: inst) = 0) = false := by
            intro p hp
            have := List.find?_eq_none.1 hfind p hp
            simpa using this
          have hx : decide (strcmp (usbg_parse_function_attrs hdr st1
              { name := kind ++ '.' :: inst, path := join3 g.path g.name FUNCTIONS_DIR,
                type := type, attr := FunctionAttrs.unset }).name
              (kind ++ '.' :: inst) = 0) = true := by
            rw [usbg_parse_function_attrs_name]; simp [strcmp_self]
          have hrun' : insert_in_string_order Function.name
              (Function.name (usbg_parse_function_attrs hdr st1
                { name := kind ++ '.' :: inst, path := join3 g.path g.name FUNCTIONS_DIR,
                  type := type, attr := FunctionAttrs.unset }))
              g.functions.brk (g.functions.alloc (usbg_parse_function_attrs hdr st1
                { name := kind ++ '.' :: inst, path := join3 g.path g.name FUNCTIONS_DIR,
                  type := type, attr := FunctionAttrs.unset })) = some q' := by
            rw [usbg_parse_function_attrs_name]; exact hrun
          obtain ⟨l', hh, hf1, hf2, hf3⟩ := hq.insert_new Function.name _
            (fun x => decide (strcmp x.name (kind ++ '.' :: inst) = 0)) hx hnone hrun'
          exact ⟨kind, l', rfl, hh, rfl, hf1, hf2, hf3⟩

/-- C3.  When `usbg_create_function(g, type, instance)` comes back with a
function, on a gadget whose function queue holds a sequence (any siblings, in
any order), `usbg_get_function` on the composite name
`function_names[type].instance` comes back with that very function. -/
theorem create_function_then_get (hdr : Header) (st st' : Store) (g g' : Gadget) (type : Nat)
    (inst : Str) (ok : Bool) (f : Nat) (l : List Nat) (hq : Holds g.functions l)
    (hc : usbg_create_function hdr st (some g) type inst ok = some (st', some g', some f)) :
    ∃ kind, hdr.function_names[type]? = some kind ∧
      usbg_get_function g' (kind ++ '.' :: inst) = some (some f) := by
  obtain ⟨kind, l', hk, hh, -, hfind, -, -⟩ := usbg_create_function_spec hq hc
  exact ⟨kind, hk, by rw [usbg_get_function_eq hh, hfind]⟩


/-! ## C4: duplicate names -/

theorem find_name_of_mem {nameOf : α → Str} {q : TailQ α} {l : List Nat} {name : Str}
    (h : name ∈ namesOf nameOf q l) :
    ∃ p, l.find? (fun p => decide (strcmp (nameOf (q.elm p)) name = 0)) = some p := by
  obtain ⟨p, hp, hname⟩ := List.mem_map.1 h
  have : (l.find? (fun p => decide (strcmp (nameOf (q.elm p)) name = 0))).isSome := by
    rw [List.find?_isSome]
    exact ⟨p, hp, by simp [hname, strcmp_self]⟩
  exact Option.isSome_iff_exists.1 this

theorem find_name_none_of_not_mem {nameOf : α → Str} {q : TailQ α} {l : List Nat} {name : Str}
    (h : name ∉ namesOf nameOf q l) :
    l.find? (fun p => decide (strcmp (nameOf (q.elm p)) name = 0)) = none := by
  rw [List.find?_eq_none]
  intro p hp hz
  apply h
  have : strcmp (nameOf (q.elm p)) name = 0 := by simpa using hz
  exact List.mem_map.2 ⟨p, hp, strcmp_eq_zero.1 this⟩

theorem countP_name_eq_one {names : List Str} {name : Str} (hnd : names.Nodup)
    (hm : name ∈ names) : names.countP (fun n => decide (strcmp n name = 0)) = 1 := by
  induction names with
  | nil => simp at hm
  | cons a l ih =>
    obtain ⟨ha, hl⟩ := List.nodup_cons.1 hnd
    rw [List.countP_cons]
    rcases List.mem_cons.1 hm with rfl | hm'
    · have : l.countP (fun n => decide (strcmp n name = 0)) = 0 := by
        rw [List.countP_eq_zero]
        intro n hn hz
        have : strcmp n name = 0 := by simpa using hz
        exact ha (strcmp_eq_zero.1 this ▸ hn)
      simp [this, strcmp_self]
    · have hne : ¬ strcmp a name = 0 := fun e => ha (strcmp_eq_zero.1 e ▸ hm')
      simp [ih hl hm', hne]

theorem usbg_get_gadget_eq {s : State} {l : List Nat} (h : Holds s.gadgets l) (name : Str) :
    usbg_get_gadget s name =
      some (l.find? fun p => decide (strcmp (s.gadgets.elm p).name name = 0)) :=
  h.find _

theorem usbg_get_config_eq {g : Gadget} {l : List Nat} (h : Holds g.configs l) (name : Str) :
    usbg_get_config g name =
      some (l.find? fun p => decide (strcmp (g.configs.elm p).name name = 0)) :=
  h.find _

theorem usbg_get_binding_eq {c : Config} {l : List Nat} (h : Holds c.bindings l) (name : Str) :
    usbg_get_binding c name =
      some (l.find? fun p => decide (strcmp (c.bindings.elm p).name name = 0)) :=
  h.find _

theorem usbg_get_link_binding_eq {c : Config} {l : List Nat} (h : Holds c.bindings l) (f : Nat) :
    usbg_get_link_binding c f =
      some (l.find? fun p => decide ((c.bindings.elm p).target = f)) :=
  h.find _

theorem usbg_create_gadget_dup {hdr : Header} {st : Store} {s : State} {l : List Nat} {name : Str}
    (hq : Holds s.gadgets l) (hm : name ∈ namesOf Gadget.name s.gadgets l) (vendor product : Int)
    (ok : Bool) :
    usbg_create_gadget hdr st (some s) name vendor product ok = some (st, some s, none) := by
  obtain ⟨p, hp⟩ := find_name_of_mem hm
  simp only [usbg_create_gadget, usbg_get_gadget_eq hq, hp]

theorem usbg_create_function_dup {hdr : Header} {st : Store} {g : Gadget} {l : List Nat}
    {type : Nat} {kind inst : Str} (hq : Holds g.functions l)
    (hk : hdr.function_names[type]? = some kind)
    (hm : kind ++ '.' :: inst ∈ namesOf Function.name g.functions l) (ok : Bool) :
    usbg_create_function hdr st (some g) type inst ok = some (st, some g, none) := by
  obtain ⟨p, hp⟩ := find_name_of_mem hm
  simp only [usbg_create_function, hk, usbg_get_function_eq hq, hp]

theorem usbg_create_config_dup {hdr : Header} {st : Store} {g : Gadget} {l : List Nat}
    {name : Str} (hq : Holds g.configs l) (hm : name ∈ namesOf Config.name g.configs l)
    (ok : Bool) :
    usbg_create_config hdr st (some g) name ok = some (st, some g, none) := by
  obtain ⟨p, hp⟩ := find_name_of_mem hm
  simp only [usbg_create_config, usbg_get_config_eq hq, hp]

/-- C4.  When the parent, whose queue holds a sequence of siblings with
pairwise different names, already has a sibling of the name (for a function,
the composite name), then `usbg_create_gadget`, `usbg_create_function` and
`usbg_create_config` return `NULL` and give back the store and the parent as
they were: the sequence is the same, with exactly one sibling of that name. -/
theorem create_duplicate_rejected (hdr : Header) (st : Store) (ok : Bool)
    (s : State) (ls : List Nat) (gname : Str) (vendor product : Int)
    (g : Gadget) (lf lc : List Nat) (type : Nat) (kind inst cname : Str) :
    (Holds s.gadgets ls → (namesOf Gadget.name s.gadgets ls).Nodup →
      gname ∈ namesOf Gadget.name s.gadgets ls →
      usbg_create_gadget hdr st (some s) gname vendor product ok = some (st, some s, none) ∧
      gadget_names s = some (namesOf Gadget.name s.gadgets ls) ∧
      (namesOf Gadget.name s.gadgets ls).countP (fun n => decide (strcmp n gname = 0)) = 1) ∧
    (Holds g.functions lf → (namesOf Function.name g.functions lf).Nodup →
      hdr.function_names[type]? = some kind →
      kind ++ '.' :: inst ∈ namesOf Function.name g.functions lf →
      usbg_create_function hdr st (some g) type inst ok = some (st, some g, none) ∧
      function_names_of g = some (namesOf Function.name g.functions lf) ∧
      (namesOf Function.name g.functions lf).countP
        (fun n => decide (strcmp n (kind ++ '.' :: inst) = 0)) = 1) ∧
    (Holds g.configs lc → (namesOf Config.name g.configs lc).Nodup →
      cname ∈ namesOf Config.name g.configs lc →
      usbg_create_config hdr st (some g) cname ok = some (st, some g, none) ∧
      config_names g = some (namesOf Config.name g.configs lc) ∧
      (namesOf Config.name g.configs lc).countP (fun n => decide (strcmp n cname = 0)) = 1) := by
  refine ⟨?_, ?_, ?_⟩
  · intro hq hnd hm
    exact ⟨usbg_create_gadget_dup hq hm vendor product ok,
      by simp [gadget_names, hq.toList_eq], countP_name_eq_one hnd hm⟩
  · intro hq hnd hk hm
    exact ⟨usbg_create_function_dup hq hk hm ok,
      by simp [function_names_of, hq.toList_eq], countP_name_eq_one hnd hm⟩
  · intro hq hnd hm
    exact ⟨usbg_create_config_dup hq hm ok,
      by simp [config_names, hq.toList_eq], countP_name_eq_one hnd hm⟩


/-! ## C5: duplicate bindings -/

theorem Holds.unique {q : TailQ α} {l1 l2 : List Nat} (h1 : Holds q l1) (h2 : Holds q l2) :
    l1 = l2 := by
  have := h1.toList_eq
  rw [h2.toList_eq] at this
  exact (Option.some.inj this).symm

/-- What a successful `usbg_add_config_function` leaves: the queue holds a
sequence in which the new binding is the first, and only, one with the name
and the first, and only, one with the target. -/
theorem usbg_add_config_function_spec {st st1 : Store} {fs : TailQ Function} {c c1 : Config}
    {name : Str} {f : Nat} {ok : Bool} {l : List Nat} (hq : Holds c.bindings l)
    (hc : usbg_add_config_function st fs (some c) name (some f) ok = some (st1, some c1, 0)) :
    ∃ l1, Holds c1.bindings l1 ∧
      l1.find? (fun p => decide ((c1.bindings.elm p).target = f)) = some c.bindings.brk ∧
      l1.countP (fun p => decide ((c1.bindings.elm p).target = f)) = 1 ∧
      l1.find? (fun p => decide (strcmp (c1.bindings.elm p).name name = 0))
        = some c.bindings.brk ∧
      l1.countP (fun p => decide (strcmp (c1.bindings.elm p).name name = 0)) = 1 ∧
      (∀ p ∈ l1, p = c.bindings.brk ∨ p ∈ l) := by
  unfold usbg_add_config_function at hc
  simp only [usbg_get_binding_eq hq, usbg_get_link_binding_eq hq] at hc
  cases hfn : l.find? (fun p => decide (strcmp (c.bindings.elm p).name name = 0)) with
  | some p => rw [hfn] at hc; simp at hc
  | none =>
    rw [hfn] at hc
    dsimp only at hc
    cases hft : l.find? (fun p => decide ((c.bindings.elm p).target = f)) with
    | some p => rw [hft] at hc; simp at hc
    | none =>
      rw [hft] at hc
      dsimp only at hc
      cases ok with
      | false => simp at hc
      | true =>
        simp only [Bool.not_true, Bool.false_eq_true, if_false] at hc
        cases hs : symlink st (join2 (fs.elm f).path (fs.elm f).name)
            (join3 c.path c.name name) with
        | none => rw [hs] at hc; simp at hc
        | some st2 =>
          rw [hs] at hc
          dsimp only at hc
          rw [Option.map_eq_some'] at hc
          obtain ⟨q', hrun, hres⟩ := hc
          simp only [Prod.mk.injEq, Option.some.injEq, and_true] at hres
          obtain ⟨-, hc1⟩ := hres
          subst hc1
          have hnn : ∀ p ∈ l, decide (strcmp (c.bindings.elm p).name name = 0) = false := by
            intro p hp
            have := List.find?_eq_none.1 hfn p hp
            simpa using this
          have hnt : ∀ p ∈ l, decide ((c.bindings.elm p).target = f) = false := by
            intro p hp
            have := List.find?_eq_none.1 hft p hp
            simpa using this
          obtain ⟨l1, hh1, ha, hb, hsub⟩ := hq.insert_new Binding.name
            { name := name, path := join3 c.path c.name name, target := f }
            (fun x => decide (x.target = f)) (by simp) hnt hrun
          obtain ⟨l2, hh2, ha2, hb2, -⟩ := hq.insert_new Binding.name
            { name := name, path := join3 c.path c.name name, target := f }
            (fun x => decide (strcmp x.name name = 0)) (by simp [strcmp_self]) hnn hrun
          have := hh1.unique hh2
          subst this
          exact ⟨l1, hh1, ha, hb, ha2, hb2, hsub⟩

/-- C5.  On a config whose binding queue holds a sequence:
`usbg_add_config_function(c, name, f)` returns -1 and gives back the store
(no link is made) and the config as they were whenever `c` has a binding named
`name` or a binding whose target is the pointer `f`; and after a call that
returned 0, every further call with the same `f`, under any name, returns -1
and changes nothing, exactly one binding of the sequence having the target
`f`. -/
theorem add_config_function_duplicate (st : Store) (fs : TailQ Function) (c : Config)
    (l : List Nat) (name : Str) (f : Nat) (ok : Bool) (hq : Holds c.bindings l) :
    ((name ∈ namesOf Binding.name c.bindings l ∨ ∃ b ∈ l, (c.bindings.elm b).target = f) →
      usbg_add_config_function st fs (some c) name (some f) ok = some (st, some c, -1)) ∧
    (∀ st1 c1, usbg_add_config_function st fs (some c) name (some f) ok = some (st1, some c1, 0) →
      (∀ st2 name2 ok2,
        usbg_add_config_function st2 fs (some c1) name2 (some f) ok2 = some (st2, some c1, -1)) ∧
      ∃ l1, c1.bindings.toList = some l1 ∧
        l1.countP (fun b => decide ((c1.bindings.elm b).target = f)) = 1) := by
  constructor
  · intro hdup
    unfold usbg_add_config_function
    simp only [usbg_get_binding_eq hq, usbg_get_link_binding_eq hq]
    cases hfn : l.find? (fun p => decide (strcmp (c.bindings.elm p).name name = 0)) with
    | some p => rfl
    | none =>
      dsimp only
      rcases hdup with hname | ⟨b, hb, htarget⟩
      · obtain ⟨p, hp⟩ := find_name_of_mem hname
        rw [hp] at hfn; cases hfn
      · have : (l.find? (fun p => decide ((c.bindings.elm p).target = f))).isSome := by
          rw [List.find?_isSome]; exact ⟨b, hb, by simp [htarget]⟩
        obtain ⟨p, hp⟩ := Option.isSome_iff_exists.1 this
        rw [hp]
  · intro st1 c1 hc
    obtain ⟨l1, hh, hfind, hcount, -, -, -⟩ := usbg_add_config_function_spec hq hc
    refine ⟨?_, l1, hh.toList_eq, hcount⟩
    intro st2 name2 ok2
    unfold usbg_add_config_function
    simp only [usbg_get_binding_eq hh, usbg_get_link_binding_eq hh, hfind]
    cases l1.find? (fun p => decide (strcmp (c1.bindings.elm p).name name2 = 0)) <;> rfl

/-! ## C6: failure of the store -/

theorem find_congr {l : List Nat} {P Q : Nat → Bool} (h : ∀ p ∈ l, P p = Q p) :
    l.find? P = l.find? Q := by
  induction l with
  | nil => rfl
  | cons a l ih =>
    simp only [List.find?_cons, h a (List.mem_cons_self _ _)]
    rw [ih fun p hp => h p (List.mem_cons_of_mem _ hp)]

/-- C6.  When `mkdir` of the directory of the entity fails, each of
`usbg_create_gadget`, `usbg_create_function` and `usbg_create_config` returns
`NULL` and gives back the store and the parent as they were.  When `symlink`
fails, `usbg_add_config_function` returns -1 and gives back the store as it
was and a config with the same binding sequence, in which every lookup by
name and by target finds what it found before. -/
theorem create_store_failure (hdr : Header) (st : Store) (ok : Bool)
    (s : State) (ls : List Nat) (gname : Str) (vendor product : Int)
    (g : Gadget) (lf lc : List Nat) (type : Nat) (kind inst cname : Str)
    (fs : TailQ Function) (c : Config) (lb : List Nat) (bname : Str) (f : Nat) :
    (Holds s.gadgets ls → mkdir st (join2 s.path gname) = none →
      usbg_create_gadget hdr st (some s) gname vendor product ok = some (st, some s, none)) ∧
    (Holds g.functions lf → hdr.function_names[type]? = some kind →
      mkdir st (join4 g.path g.name FUNCTIONS_DIR (kind ++ '.' :: inst)) = none →
      usbg_create_function hdr st (some g) type inst ok = some (st, some g, none)) ∧
    (Holds g.configs lc → mkdir st (join4 g.path g.name CONFIGS_DIR cname) = none →
      usbg_create_config hdr st (some g) cname ok = some (st, some g, none)) ∧
    (Holds c.bindings lb →
      symlink st (join2 (fs.elm f).path (fs.elm f).name) (join3 c.path c.name bname) = none →
      ∃ c1, usbg_add_config_function st fs (some c) bname (some f) ok = some (st, some c1, -1) ∧
        c1.bindings.toList = c.bindings.toList ∧
        (∀ n, usbg_get_binding c1 n = usbg_get_binding c n) ∧
        (∀ t, usbg_get_link_binding c1 t = usbg_get_link_binding c t)) := by
  refine ⟨?_, ?_, ?_, ?_⟩
  · intro hq hm
    simp only [usbg_create_gadget, usbg_get_gadget_eq hq, hm]
    cases ls.find? (fun p => decide (strcmp (s.gadgets.elm p).name gname = 0)) with
    | some p => rfl
    | none => cases ok <;> rfl
  · intro hq hk hm
    simp only [usbg_create_function, hk, usbg_get_function_eq hq, hm]
    cases lf.find? (fun p => decide (strcmp (g.functions.elm p).name
        (kind ++ '.' :: inst) = 0)) with
    | some p => rfl
    | none => cases ok <;> rfl
  · intro hq hm
    simp only [usbg_create_config, usbg_get_config_eq hq, hm]
    cases lc.find? (fun p => decide (strcmp (g.configs.elm p).name cname = 0)) with
    | some p => rfl
    | none => cases ok <;> rfl
  · intro hq hm
    have hsame : ∃ c1, (c1 = c ∨ c1 = { c with bindings := c.bindings.alloc default }) ∧
        usbg_add_config_function st fs (some c) bname (some f) ok = some (st, some c1, -1) := by
      simp only [usbg_add_config_function, usbg_get_binding_eq hq,
        usbg_get_link_binding_eq hq, hm]
      cases lb.find? (fun p => decide (strcmp (c.bindings.elm p).name bname = 0)) with
      | some p => exact ⟨c, Or.inl rfl, rfl⟩
      | none =>
        cases lb.find? (fun p => decide ((c.bindings.elm p).target = f)) with
        | some p => exact ⟨c, Or.inl rfl, rfl⟩
        | none =>
          cases ok with
          | false => exact ⟨c, Or.inl rfl, rfl⟩
          | true => exact ⟨_, Or.inr rfl, rfl⟩
    obtain ⟨c1, hc1, hres⟩ := hsame
    refine ⟨c1, hres, ?_⟩
    rcases hc1 with rfl | rfl
    · exact ⟨rfl, fun _ => rfl, fun _ => rfl⟩
    · have hq' : Holds (c.bindings.alloc (default : Binding)) lb := hq.alloc_holds _
      have helm : ∀ p ∈ lb, (c.bindings.alloc (default : Binding)).elm p = c.bindings.elm p :=
        fun p hp => alloc_elm_old _ _ (Nat.ne_of_lt (hq.lt_brk p hp))
      refine ⟨?_, ?_, ?_⟩
      · rw [hq.toList_eq]; exact hq'.toList_eq
      · intro n
        have e := @usbg_get_binding_eq { c with bindings := c.bindings.alloc default } lb hq' n
        rw [usbg_get_binding_eq hq, e]
        congr 1
        exact find_congr fun p hp => by simp only [helm p hp]
      · intro t
        have e := @usbg_get_link_binding_eq { c with bindings := c.bindings.alloc default } lb
          hq' t
        rw [usbg_get_link_binding_eq hq, e]
        congr 1
        exact find_congr fun p hp => by simp only [helm p hp]


/-! ## The creators keep what the theorems assume

A queue that holds a sequence of siblings with pairwise different names is
what `TAILQ_INIT` and the loader build, and what every creator that comes back
leaves. -/

theorem not_mem_names_of_find_none {nameOf : α → Str} {q : TailQ α} {l : List Nat} {name : Str}
    (h : l.find? (fun p => decide (strcmp (nameOf (q.elm p)) name = 0)) = none) :
    name ∉ namesOf nameOf q l := by
  intro hm
  obtain ⟨p, hp⟩ := find_name_of_mem hm
  rw [hp] at h
  cases h

theorem namesOf_alloc {nameOf : α → Str} {q : TailQ α} {l : List Nat} (h : Holds q l) (x : α) :
    namesOf nameOf (q.alloc x) l = namesOf nameOf q l := by
  unfold namesOf
  exact List.map_congr_left fun p hp => by
    rw [alloc_elm_old q x (Nat.ne_of_lt (h.lt_brk p hp))]

theorem usbg_create_gadget_keeps {hdr : Header} {st st' : Store} {s s' : State} {name : Str}
    {vendor product : Int} {ok : Bool} {r : Option Nat} {l : List Nat}
    (hq : Holds s.gadgets l) (hnd : (namesOf Gadget.name s.gadgets l).Nodup)
    (hc : usbg_create_gadget hdr st (some s) name vendor product ok = some (st', some s', r)) :
    ∃ l', Holds s'.gadgets l' ∧ (namesOf Gadget.name s'.gadgets l').Nodup := by
  unfold usbg_create_gadget at hc
  simp only [usbg_get_gadget_eq hq] at hc
  cases hfind : l.find? (fun p => decide (strcmp (s.gadgets.elm p).name name = 0)) with
  | some p =>
    rw [hfind] at hc
    simp only [Option.some.injEq, Prod.mk.injEq] at hc
    obtain ⟨-, rfl, -⟩ := hc
    exact ⟨l, hq, hnd⟩
  | none =>
    rw [hfind] at hc
    dsimp only at hc
    cases ok with
    | false =>
      simp only [Bool.not_false, if_true, Option.some.injEq, Prod.mk.injEq] at hc
      obtain ⟨-, rfl, -⟩ := hc
      exact ⟨l, hq, hnd⟩
    | true =>
      simp only [Bool.not_true, Bool.false_eq_true, if_false] at hc
      cases hm : mkdir st (join2 s.path name) with
      | none =>
        rw [hm] at hc
        simp only [Option.some.injEq, Prod.mk.injEq] at hc
        obtain ⟨-, rfl, -⟩ := hc
        exact ⟨l, hq, hnd⟩
      | some st1 =>
        rw [hm] at hc
        dsimp only at hc
        rw [Option.map_eq_some'] at hc
        obtain ⟨q', hrun, hres⟩ := hc
        simp only [Prod.mk.injEq, Option.some.injEq] at hres
        obtain ⟨-, rfl, -⟩ := hres
        exact hq.insert_names Gadget.name _ hnd (not_mem_names_of_find_none hfind) hrun

theorem usbg_create_function_keeps {hdr : Header} {st st' : Store} {g g' : Gadget} {type : Nat}
    {inst : Str} {ok : Bool} {r : Option Nat} {l : List Nat}
    (hq : Holds g.functions l) (hnd : (namesOf Function.name g.functions l).Nodup)
    (hc : usbg_create_function hdr st (some g) type inst ok = some (st', some g', r)) :
    (∃ l', Holds g'.functions l' ∧ (namesOf Function.name g'.functions l').Nodup) ∧
      g'.configs = g.configs := by
  unfold usbg_create_function at hc
  dsimp only at hc
  cases hk : hdr.function_names[type]? with
  | none => simp [hk] at hc
  | some kind =>
    rw [hk] at hc
    simp only [usbg_get_function_eq hq] at hc
    cases hfind : l.find? (fun f => decide (strcmp (g.functions.elm f).name
        (kind ++ '.' :: inst) = 0)) with
    | some p =>
      rw [hfind] at hc
      simp only [Option.some.injEq, Prod.mk.injEq] at hc
      obtain ⟨-, rfl, -⟩ := hc
      exact ⟨⟨l, hq, hnd⟩, rfl⟩
    | none =>
      rw [hfind] at hc
      dsimp only at hc
      cases ok with
      | false =>
        simp only [Bool.not_false, if_true, Option.some.injEq, Prod.mk.injEq] at hc
        obtain ⟨-, rfl, -⟩ := hc
        exact ⟨⟨l, hq, hnd⟩, rfl⟩
      | true =>
        simp only [Bool.not_true, Bool.false_eq_true, if_false] at hc
        cases hm : mkdir st (join4 g.path g.name FUNCTIONS_DIR (kind ++ '.' :: inst)) with
        | none =>
          rw [hm] at hc
          simp only [Option.some.injEq, Prod.mk.injEq] at hc
          obtain ⟨-, rfl, -⟩ := hc
          exact ⟨⟨l, hq, hnd⟩, rfl⟩
        | some st1 =>
          rw [hm] at hc
          dsimp only at hc
          rw [Option.map_eq_some'] at hc
          obtain ⟨q', hrun, hres⟩ := hc
          simp only [Prod.mk.injEq, Option.some.injEq] at hres
          obtain ⟨-, rfl, -⟩ := hres
          refine ⟨?_, rfl⟩
          have hn := usbg_parse_function_attrs_name hdr st1
            { name := kind ++ '.' :: inst, path := join3 g.path g.name FUNCTIONS_DIR,
              type := type, attr := FunctionAttrs.unset }
          refine hq.insert_names Function.name (usbg_parse_function_attrs hdr st1
            { name := kind ++ '.' :: inst, path := join3 g.path g.name FUNCTIONS_DIR,
              type := type, attr := FunctionAttrs.unset }) hnd ?_ ?_
          · rw [hn]; exact not_mem_names_of_find_none hfind
          · rw [hn]; exact hrun

theorem usbg_create_config_keeps {hdr : Header} {st st' : Store} {g g' : Gadget} {name : Str}
    {ok : Bool} {r : Option Nat} {l : List Nat}
    (hq : Holds g.configs l) (hnd : (namesOf Config.name g.configs l).Nodup)
    (hc : usbg_create_config hdr st (some g) name ok = some (st', some g', r)) :
    (∃ l', Holds g'.configs l' ∧ (namesOf Config.name g'.configs l').Nodup) ∧
      g'.functions = g.functions := by
  unfold usbg_create_config at hc
  simp only [usbg_get_config_eq hq] at hc
  cases hfind : l.find? (fun p => decide (strcmp (g.configs.elm p).name name = 0)) with
  | some p =>
    rw [hfind] at hc
    simp only [Option.some.injEq, Prod.mk.injEq] at hc
    obtain ⟨-, rfl, -⟩ := hc
    exact ⟨⟨l, hq, hnd⟩, rfl⟩
  | none =>
    rw [hfind] at hc
    dsimp only at hc
    cases ok with
    | false =>
      simp only [Bool.not_false, if_true, Option.some.injEq, Prod.mk.injEq] at hc
      obtain ⟨-, rfl, -⟩ := hc
      exact ⟨⟨l, hq, hnd⟩, rfl⟩
    | true =>
      simp only [Bool.not_true, Bool.false_eq_true, if_false] at hc
      cases hm : mkdir st (join4 g.path g.name CONFIGS_DIR name) with
      | none =>
        rw [hm] at hc
        simp only [Option.some.injEq, Prod.mk.injEq] at hc
        obtain ⟨-, rfl, -⟩ := hc
        exact ⟨⟨l, hq, hnd⟩, rfl⟩
      | some st1 =>
        rw [hm] at hc
        dsimp only at hc
        rw [Option.map_eq_some'] at hc
        obtain ⟨q', hrun, hres⟩ := hc
        simp only [Prod.mk.injEq, Option.some.injEq] at hres
        obtain ⟨-, rfl, -⟩ := hres
        exact ⟨hq.insert_names Config.name _ hnd (not_mem_names_of_find_none hfind) hrun, rfl⟩

theorem usbg_add_config_function_keeps {st st' : Store} {fs : TailQ Function} {c c' : Config}
    {name : Str} {f : Nat} {ok : Bool} {r : Int} {l : List Nat}
    (hq : Holds c.bindings l) (hnd : (namesOf Binding.name c.bindings l).Nodup)
    (hc : usbg_add_config_function st fs (some c) name (some f) ok = some (st', some c', r)) :
    ∃ l', Holds c'.bindings l' ∧ (namesOf Binding.name c'.bindings l').Nodup := by
  unfold usbg_add_config_function at hc
  simp only [usbg_get_binding_eq hq, usbg_get_link_binding_eq hq] at hc
  cases hfn : l.find? (fun p => decide (strcmp (c.bindings.elm p).name name = 0)) with
  | some p =>
    rw [hfn] at hc
    simp only [Option.some.injEq, Prod.mk.injEq] at hc
    obtain ⟨-, rfl, -⟩ := hc
    exact ⟨l, hq, hnd⟩
  | none =>
    rw [hfn] at hc
    dsimp only at hc
    cases hft : l.find? (fun p => decide ((c.bindings.elm p).target = f)) with
    | some p =>
      rw [hft] at hc
      simp only [Option.some.injEq, Prod.mk.injEq] at hc
      obtain ⟨-, rfl, -⟩ := hc
      exact ⟨l, hq, hnd⟩
    | none =>
      rw [hft] at hc
      dsimp only at hc
      cases ok with
      | false =>
        simp only [Bool.not_false, if_true, Option.some.injEq, Prod.mk.injEq] at hc
        obtain ⟨-, rfl, -⟩ := hc
        exact ⟨l, hq, hnd⟩
      | true =>
        simp only [Bool.not_true, Bool.false_eq_true, if_false] at hc
        cases hs : symlink st (join2 (fs.elm f).path (fs.elm f).name)
            (join3 c.path c.name name) with
        | none =>
          rw [hs] at hc
          simp only [Option.some.injEq, Prod.mk.injEq] at hc
          obtain ⟨-, rfl, -⟩ := hc
          exact ⟨l, hq.alloc_holds _, by rw [namesOf_alloc hq]; exact hnd⟩
        | some st2 =>
          rw [hs] at hc
          dsimp only at hc
          rw [Option.map_eq_some'] at hc
          obtain ⟨q', hrun, hres⟩ := hc
          simp only [Prod.mk.injEq, Option.some.injEq] at hres
          obtain ⟨-, rfl, -⟩ := hres
          exact hq.insert_names Binding.name _ hnd (not_mem_names_of_find_none hfn) hrun


/-! ## The hexadecimal round trip -/

theorem digitVal_hexDigit : ∀ d, d < 16 → digitVal (hexDigit d) = some d := by
  decide

theorem hexDigit_not_space : ∀ d, d < 16 → isspace (hexDigit d) = false := by
  decide

theorem hexDigit_zero : hexDigit 0 = '0' := by decide

/-- The four digits `%04x` writes for a value below `0x10000`. -/
theorem printf_x_four (v : Int) (h0 : 0 ≤ v) (h1 : v ≤ 0xFFFF) :
    printf_x 4 v = [hexDigit (v.toNat / 4096), hexDigit (v.toNat / 256 % 16),
      hexDigit (v.toNat / 16 % 16), hexDigit (v.toNat % 16)] := by
  obtain ⟨n, rfl⟩ := Int.eq_ofNat_of_zero_le h0
  have hn : n ≤ 65535 := by omega
  have hmod : ((n : Int) % 2 ^ 32).toNat = n := by
    have : (n : Int) % 2 ^ 32 = n := Int.emod_eq_of_lt (by omega) (by omega)
    rw [this]; rfl
  unfold printf_x
  simp only [hmod, Int.toNat_ofNat]
  by_cases c1 : n < 16
  · have e1 : n / 4096 = 0 := by omega
    have e2 : n / 256 % 16 = 0 := by omega
    have e3 : n / 16 % 16 = 0 := by omega
    have e4 : n % 16 = n := by omega
    simp [natDigits, c1, e1, e2, e3, e4, hexDigit_zero, List.replicate]
  · by_cases c2 : n < 256
    · have e1 : n / 4096 = 0 := by omega
      have e2 : n / 256 % 16 = 0 := by omega
      have e3 : n / 16 % 16 = n / 16 := by omega
      have c3 : n / 16 < 16 := by omega
      simp [natDigits, c1, c3, e1, e2, e3, hexDigit_zero, List.replicate]
    · by_cases c3 : n < 4096
      · have e1 : n / 4096 = 0 := by omega
        have e2 : n / 256 % 16 = n / 16 / 16 := by omega
        have c4 : ¬ n / 16 < 16 := by omega
        have c5 : n / 16 / 16 < 16 := by omega
        simp [natDigits, c1, c4, c5, e1, e2, hexDigit_zero, List.replicate]
      · have e1 : n / 4096 = n / 16 / 16 / 16 := by omega
        have e2 : n / 256 % 16 = n / 16 / 16 % 16 := by omega
        have c4 : ¬ n / 16 < 16 := by omega
        have c5 : ¬ n / 16 / 16 < 16 := by omega
        have c6 : n / 16 / 16 / 16 < 16 := by omega
        simp [natDigits, c1, c4, c5, c6, e1, e2]


theorem hexDigit_ne_newline : ∀ d, d < 16 → hexDigit d ≠ '\n' := by
  decide

theorem parseDigits_four (a b c d : Nat) (ha : a < 16) (hb : b < 16) (hc : c < 16) (hd : d < 16)
    (rest : Str) (hrest : rest = [] ∨ rest = ['\n']) :
    parseDigits 16 (hexDigit a :: hexDigit b :: hexDigit c :: hexDigit d :: rest) 0 =
      a * 4096 + b * 256 + c * 16 + d := by
  have hnl : digitVal '\n' = none := by decide
  rcases hrest with rfl | rfl <;>
    simp only [parseDigits, digitVal_hexDigit _ ha, digitVal_hexDigit _ hb,
      digitVal_hexDigit _ hc, digitVal_hexDigit _ hd, ha, hb, hc, hd, if_true, hnl] <;>
    omega

theorem strtol_hex_four (a b c d : Nat) (ha : a < 16) (hb : b < 16) (hc : c < 16) (hd : d < 16)
    (rest : Str) (hrest : rest = [] ∨ rest = ['\n']) :
    strtol ('0' :: 'x' :: hexDigit a :: hexDigit b :: hexDigit c :: hexDigit d :: rest) 16 =
      ((a * 4096 + b * 256 + c * 16 + d : Nat) : Int) := by
  have hsp : isspace '0' = false := by decide
  unfold strtol
  simp only [List.dropWhile, hsp, List.head?, List.tail, List.drop]
  simp [parseDigits_four a b c d ha hb hc hd rest hrest]
  omega

/-- The line `"0x%04x\n"` written for a 16-bit value reads back, through
`fgets` with room for at least six characters and `strtol` in base 16, as that
value. -/
theorem hex16_round_trip (v : Int) (h0 : 0 ≤ v) (h1 : v ≤ 0xFFFF) (k : Nat) (hk : 6 ≤ k) :
    toInt32 (strtol (takeLine k ('0' :: 'x' :: printf_x 4 v ++ ['\n'])) 16) = v := by
  rw [printf_x_four v h0 h1]
  obtain ⟨n, rfl⟩ := Int.eq_ofNat_of_zero_le h0
  have hn : n ≤ 65535 := by omega
  simp only [Int.toNat_ofNat]
  have ha : n / 4096 < 16 := by omega
  have hb : n / 256 % 16 < 16 := by omega
  have hc : n / 16 % 16 < 16 := by omega
  have hd : n % 16 < 16 := by omega
  have e0 : ('0' : Char) ≠ '\n' := by decide
  have ex : ('x' : Char) ≠ '\n' := by decide
  have hline : ∃ rest, (rest = [] ∨ rest = ['\n']) ∧
      takeLine k ('0' :: 'x' :: [hexDigit (n / 4096), hexDigit (n / 256 % 16),
        hexDigit (n / 16 % 16), hexDigit (n % 16)] ++ ['\n']) =
      '0' :: 'x' :: hexDigit (n / 4096) :: hexDigit (n / 256 % 16) ::
        hexDigit (n / 16 % 16) :: hexDigit (n % 16) :: rest := by
    obtain ⟨j, rfl⟩ : ∃ j, k = j + 6 := ⟨k - 6, by omega⟩
    cases j with
    | zero =>
      exact ⟨[], Or.inl rfl, by
        simp [takeLine, e0, ex, hexDigit_ne_newline _ ha, hexDigit_ne_newline _ hb,
          hexDigit_ne_newline _ hc, hexDigit_ne_newline _ hd]⟩
    | succ j =>
      exact ⟨['\n'], Or.inr rfl, by
        simp [takeLine, e0, ex, hexDigit_ne_newline _ ha, hexDigit_ne_newline _ hb,
          hexDigit_ne_newline _ hc, hexDigit_ne_newline _ hd]⟩
  obtain ⟨rest, hrest, hl⟩ := hline
  rw [hl, strtol_hex_four _ _ _ _ ha hb hc hd rest hrest]
  have : n / 4096 * 4096 + n / 256 % 16 * 256 + n / 16 % 16 * 16 + n % 16 = n := by omega
  rw [this]
  unfold toInt32
  omega


/-! ## Paths and the store -/

theorem resolveAux_append_slash (p rest : Str) :
    ∀ (acc : Path) (seg : Str),
      resolveAux (p ++ '/' :: rest) acc seg = resolveAux rest (resolveAux p acc seg) [] := by
  induction p with
  | nil => intro acc seg; simp [resolveAux]
  | cons c cs ih =>
    intro acc seg
    by_cases hc : c = '/'
    · rw [List.cons_append]
      simp only [resolveAux, if_pos hc]
      exact ih _ _
    · rw [List.cons_append]
      simp only [resolveAux, if_neg hc]
      exact ih _ _

theorem resolveAux_no_slash (n : Str) (hn : '/' ∉ n) :
    ∀ (acc : Path) (seg : Str), resolveAux n acc seg = pushSeg acc (seg ++ n) := by
  induction n with
  | nil => intro acc seg; simp [resolveAux]
  | cons c cs ih =>
    intro acc seg
    have hc : c ≠ '/' := fun e => hn (e ▸ List.mem_cons_self _ _)
    have hcs : '/' ∉ cs := fun h => hn (List.mem_cons_of_mem _ h)
    simp only [resolveAux, if_neg hc, ih hcs]
    simp

theorem pushSeg_plain (acc : Path) {n : Str} (hn : PlainName n) : pushSeg acc n = acc ++ [n] := by
  obtain ⟨h1, -, h3, h4⟩ := hn
  simp [pushSeg, h1, h3, h4]

theorem resolve_join2 (a : Str) {n : Str} (hn : PlainName n) :
    resolve (join2 a n) = resolve a ++ [n] := by
  unfold resolve join2
  rw [resolveAux_append_slash, resolveAux_no_slash n hn.2.1, List.nil_append, pushSeg_plain _ hn]

theorem resolve_join3 (a : Str) {n f : Str} (hn : PlainName n) (hf : PlainName f) :
    resolve (join3 a n f) = resolve a ++ [n, f] := by
  unfold resolve join3
  rw [resolveAux_append_slash, resolveAux_append_slash, resolveAux_no_slash n hn.2.1,
    resolveAux_no_slash f hf.2.1, List.nil_append, List.nil_append, pushSeg_plain _ hn,
    pushSeg_plain _ hf]
  simp

theorem get?_put_same (st : Store) {p : Path} (n : Node) (hp : p ≠ []) :
    (st.put p n).get? p = some n := by
  simp [Store.get?, Store.put, hp]

theorem get?_put_other (st : Store) {p q : Path} (n : Node) (hq : p ≠ q) :
    (st.put p n).get? q = st.get? q := by
  unfold Store.get? Store.put
  by_cases h : q = []
  · simp [h]
  · simp [h, List.find?_cons, hq]

theorem mkdir_some {st st1 : Store} {path : Str} (h : mkdir st path = some st1) :
    st1 = st.put (resolve path) Node.dir ∧ st.get? (resolve path) = none ∧
      st.get? (resolve path).dropLast = some Node.dir := by
  unfold mkdir at h
  dsimp only at h
  split at h
  · cases h
  · rename_i hex
    split at h
    · rename_i hd
      refine ⟨(Option.some.inj h).symm, by simpa using hex, ?_⟩
      simpa [Store.isDir] using hd
    · cases h

theorem fopen_w_fputs_some {st st1 : Store} {p buf : Str} (h : fopen_w_fputs st p buf = some st1) :
    st1 = st.put (resolve p) (Node.file buf) := by
  unfold fopen_w_fputs at h
  dsimp only at h
  split at h
  · exact (Option.some.inj h).symm
  · cases h
  · split at h
    · exact (Option.some.inj h).symm
    · cases h

theorem get?_nonempty_of_none {st : Store} {p : Path} (h : st.get? p = none) : p ≠ [] := by
  intro e
  simp [Store.get?, e] at h

theorem mem_children {st : Store} {d : Path} {n : Str} {node : Node}
    (h : (d ++ [n], node) ∈ st) : n ∈ st.children d := by
  unfold Store.children
  rw [List.mem_dedup, List.mem_filterMap]
  exact ⟨(d ++ [n], node), h, by simp⟩

theorem get?_isSome_of_mem {st : Store} {p : Path} {node : Node} (h : (p, node) ∈ st) :
    (st.get? p).isSome := by
  unfold Store.get?
  by_cases hp : p = []
  · simp [hp]
  · simp only [if_neg hp]
    have : (st.find? (fun e => decide (e.1 = p))).isSome := by
      rw [List.find?_isSome]; exact ⟨_, h, by simp⟩
    obtain ⟨e, he⟩ := Option.isSome_iff_exists.1 this
    simp [he]

theorem file_select_plain {n : Str} (hn : PlainName n) (t : DType) :
    file_select ⟨n, t⟩ = true := by
  obtain ⟨-, -, h3, h4⟩ := hn
  have e1 : ¬ strcmp n ['.'] = 0 := fun e => h3 (strcmp_eq_zero.1 e)
  have e2 : ¬ strcmp n ['.', '.'] = 0 := fun e => h4 (strcmp_eq_zero.1 e)
  simp [file_select, e1, e2]

/-- A plain name bound in a directory is among the names `scandir` with
`file_select` returns for it. -/
theorem mem_scandir_names {st : Store} {dir : Str} {n : Str} {node : Node}
    (hd : st.get? (resolve dir) = some Node.dir) (hn : PlainName n)
    (hmem : (resolve dir ++ [n], node) ∈ st) :
    ∃ ns, scandir_names st dir file_select = some ns ∧ n ∈ ns := by
  unfold scandir_names scandir
  have hdir : st.isDir (resolve dir) = true := by simp [Store.isDir, hd]
  simp only [hdir, if_true, Option.map_some']
  refine ⟨_, rfl, ?_⟩
  rw [List.mem_map]
  obtain ⟨node', hnode'⟩ := Option.isSome_iff_exists.1 (get?_isSome_of_mem hmem)
  refine ⟨⟨n, node'.dtype⟩, ?_, rfl⟩
  rw [(List.perm_insertionSort _ _).mem_iff, List.mem_filter]
  refine ⟨?_, file_select_plain hn _⟩
  rw [List.mem_append]
  right
  rw [List.mem_filterMap]
  exact ⟨n, mem_children hmem, by simp [hnode']⟩

/-- A node the store gives for a path below the root is an entry of the
store. -/
theorem mem_of_get? {st : Store} {p : Path} {n : Node} (hp : p ≠ [])
    (h : st.get? p = some n) : (p, n) ∈ st := by
  unfold Store.get? at h
  rw [if_neg hp] at h
  cases hf : st.find? (fun e => e.1 = p) with
  | none => rw [hf] at h; cases h
  | some e =>
    rw [hf] at h
    have h1 := List.find?_some hf
    have h2 := List.mem_of_find?_eq_some hf
    simp only [decide_eq_true_eq] at h1
    simp only [Option.some.injEq] at h
    have : e = (p, n) := by
      cases e
      simp only [Prod.mk.injEq]
      exact ⟨h1, h⟩
    rw [← this]
    exact h2


/-! ## The loader -/

theorem Holds.push_tail {q : TailQ α} {l : List Nat} (h : Holds q l) (x : α) :
    Holds (push_tail q x) (l ++ [q.brk]) :=
  (h.alloc_holds x).insert_tail h.brk_not_mem (Nat.lt_succ_self _)

theorem push_tail_brk (q : TailQ α) (x : α) : (push_tail q x).brk = q.brk + 1 := by
  unfold push_tail; rw [tail_brk]; rfl

theorem push_tail_elm (q : TailQ α) (x : α) : (push_tail q x).elm = (q.alloc x).elm := by
  unfold push_tail; rw [tail_elm]

theorem Loaded.init_loaded [Inhabited α] (load : Str → Option α) :
    Loaded load (TAILQ_INIT : TailQ α) [] :=
  ⟨Holds.init_holds, rfl, fun i h => absurd h (Nat.not_lt_zero i)⟩

theorem Loaded.step {load : Str → Option α} {q : TailQ α} {ns : List Str} (h : Loaded load q ns)
    {d : Str} {x : α} (hx : load d = some x) : Loaded load (push_tail q x) (ns ++ [d]) := by
  refine ⟨?_, ?_, ?_⟩
  · have := h.holds.push_tail x
    rw [h.brk_eq] at this
    simpa [List.range_succ] using this
  · rw [push_tail_brk, h.brk_eq]; simp
  · intro i hi
    rw [push_tail_elm]
    by_cases hlt : i < ns.length
    · rw [alloc_elm_old q x (by rw [h.brk_eq]; exact Nat.ne_of_lt hlt)]
      have := h.elm i hlt
      rw [← this]
      congr 1
      simp [List.getElem_append_left, hlt]
    · have hi' : i = ns.length := by
        simp at hi; omega
      subst hi'
      have e1 : (q.alloc x).elm ns.length = x := by rw [← h.brk_eq]; exact alloc_elm_new q x
      have e2 : (ns ++ [d]).get ⟨ns.length, hi⟩ = d := by simp
      rw [e1, e2, hx]

/-- A loader loop over entries that all load comes back, with the queue of
the loaded elements in the order of the entries. -/
theorem Loaded.foldl {load : Str → Option α} :
    ∀ (rest done : List Str) (q : TailQ α), Loaded load q done →
      (∀ d ∈ rest, (load d).isSome) →
      ∃ q', rest.foldl (load_step load) (some q) = some q' ∧ Loaded load q' (done ++ rest) := by
  intro rest
  induction rest with
  | nil => intro done q h _; exact ⟨q, rfl, by simpa using h⟩
  | cons d rest ih =>
    intro done q h hall
    obtain ⟨x, hx⟩ := Option.isSome_iff_exists.1 (hall d (List.mem_cons_self _ _))
    have hstep : load_step load (some q) d = some (push_tail q x) := by
      simp [load_step, hx]
    obtain ⟨q', hq', hl⟩ := ih (done ++ [d]) (push_tail q x) (h.step hx)
      (fun e he => hall e (List.mem_cons_of_mem _ he))
    refine ⟨q', ?_, by simpa using hl⟩
    rw [List.foldl_cons, hstep]
    exact hq'

theorem usbg_parse_functions_fields {hdr : Header} {st : Store} {path : Str} {g g1 : Gadget}
    (h : usbg_parse_functions hdr st path g = some g1) :
    g1.name = g.name ∧ g1.attrs = g.attrs := by
  unfold usbg_parse_functions at h
  dsimp only at h
  rw [Option.bind_eq_some] at h
  obtain ⟨names, -, h⟩ := h
  rw [Option.map_eq_some'] at h
  obtain ⟨q, -, rfl⟩ := h
  exact ⟨rfl, rfl⟩

theorem usbg_parse_configs_fields {hdr : Header} {st : Store} {unset : Unset} {path : Str}
    {g g1 : Gadget} (h : usbg_parse_configs hdr st unset path g = some g1) :
    g1.name = g.name ∧ g1.attrs = g.attrs := by
  unfold usbg_parse_configs at h
  dsimp only at h
  rw [Option.bind_eq_some] at h
  obtain ⟨names, -, h⟩ := h
  rw [Option.map_eq_some'] at h
  obtain ⟨q, -, rfl⟩ := h
  exact ⟨rfl, rfl⟩

/-- The gadget loaded for an entry has the name of the entry and the
attributes decoded from the files of the entry. -/
theorem load_gadget_fields {hdr : Header} {st : Store} {unset : Unset} {path spath d : Str}
    {g : Gadget} (h : load_gadget hdr st unset path spath d = some g) :
    g.name = d ∧ g.attrs = usbg_parse_gadget_attrs hdr st path d := by
  unfold load_gadget at h
  dsimp only at h
  rw [Option.bind_eq_some] at h
  obtain ⟨g1, h1, h2⟩ := h
  obtain ⟨a1, a2⟩ := usbg_parse_functions_fields h1
  obtain ⟨b1, b2⟩ := usbg_parse_configs_fields h2
  exact ⟨by rw [b1, a1]; rfl, by rw [b2, a2]; rfl⟩

/-- In a loaded gadget queue, `usbg_get_gadget` on the name of an entry comes
back with a gadget of that name, with the attributes decoded from the files
of that entry. -/
theorem Loaded.get_gadget {hdr : Header} {st : Store} {unset : Unset} {path spath : Str}
    {q : TailQ Gadget} {ns : List Str} (h : Loaded (load_gadget hdr st unset path spath) q ns)
    {name : Str}
    (hmem : name ∈ ns) (s : State) (hs : s.gadgets = q) :
    ∃ a, usbg_get_gadget s name = some (some a) ∧ (s.gadgets.elm a).name = name ∧
      (s.gadgets.elm a).attrs = usbg_parse_gadget_attrs hdr st path name := by
  subst hs
  rw [usbg_get_gadget_eq h.holds]
  obtain ⟨i, hget⟩ := List.mem_iff_get.1 hmem
  have hex : ((List.range ns.length).find?
      (fun p => decide (strcmp (s.gadgets.elm p).name name = 0))).isSome := by
    rw [List.find?_isSome]
    refine ⟨i, List.mem_range.2 i.2, ?_⟩
    have := (load_gadget_fields (h.elm i i.2)).1
    simp only [decide_eq_true_eq]
    rw [this, hget, strcmp_self]
  obtain ⟨a, ha⟩ := Option.isSome_iff_exists.1 hex
  refine ⟨a, by rw [ha], ?_⟩
  have hpa := List.find?_some ha
  have hamem := List.mem_of_find?_eq_some ha
  have halt : a < ns.length := List.mem_range.1 hamem
  have hname : (s.gadgets.elm a).name = name := by
    have : strcmp (s.gadgets.elm a).name name = 0 := by simpa using hpa
    exact strcmp_eq_zero.1 this
  obtain ⟨f1, f2⟩ := load_gadget_fields (h.elm a halt)
  refine ⟨hname, ?_⟩
  rw [f2, ← f1, hname]


/-! ### When the loader comes back -/

theorem usbg_lookup_function_type_isSome {hdr : Header} (h : hdr.function_names ≠ [])
    (name : Option Str) : (usbg_lookup_function_type hdr name).isSome := by
  unfold usbg_lookup_function_type
  cases name with
  | none => rfl
  | some n =>
    simp only [if_neg h]
    split <;> rfl

theorem load_function_name {hdr : Header} {st : Store} {fpath d : Str} {f : Function}
    (h : load_function hdr st fpath d = some f) : f.name = d := by
  unfold load_function at h
  rw [Option.map_eq_some'] at h
  obtain ⟨t, -, rfl⟩ := h
  exact usbg_parse_function_attrs_name _ _ _

theorem foreach_target_isSome {fs : TailQ Function} (contents : Str → Option Str)
    (hnul : ∀ n, (contents n).isSome) :
    ∀ (l : List Nat) (v : Option Nat) (fuel : Nat), Linked fs v l → l.length ≤ fuel →
      (∀ p ∈ l, (strtok (fs.elm p).name '.').isSome) →
      (foreach_target fs contents fuel v).isSome := by
  intro l
  induction l with
  | nil => intro v fuel h _ _; cases h; cases fuel <;> rfl
  | cons p l ih =>
    intro v fuel h hf htok
    obtain ⟨rfl, h2⟩ := h
    cases fuel with
    | zero => simp at hf
    | succ n =>
      obtain ⟨tok, htok'⟩ := Option.isSome_iff_exists.1 (htok p (List.mem_cons_self _ _))
      obtain ⟨text, htext⟩ := Option.isSome_iff_exists.1 (hnul (fs.elm p).name)
      simp only [foreach_target, htok', htext]
      split
      · rfl
      · exact ih _ n h2 (by simpa using hf) fun r hr => htok r (List.mem_cons_of_mem _ hr)

theorem link_contents_isSome {hdr : Header} {st : Store} {unset : Unset}
    (hnul : ∀ p f, (unset p f).isSome) (cpath fname : Str) :
    (link_contents hdr st unset cpath fname).isSome := by
  unfold link_contents
  rw [Option.isSome_map']
  exact hnul _ _

/-- The loop of `usbg_parse_config_bindings` comes back when the config is a
directory, every function of the gadget has a kind token and the array
`contents` holds a NUL in every round. -/
theorem usbg_parse_config_bindings_isSome {hdr : Header} {st : Store} {unset : Unset}
    {g : Gadget} {l : List Nat}
    (hq : Holds g.functions l) (htok : ∀ p ∈ l, (strtok (g.functions.elm p).name '.').isSome)
    (hnul : ∀ p f, (unset p f).isSome) (c : Config)
    (hdir : (scandir_names st (join2 c.path c.name) bindings_select).isSome) :
    (usbg_parse_config_bindings hdr st unset g c).isSome := by
  unfold usbg_parse_config_bindings
  dsimp only
  obtain ⟨links, hlinks⟩ := Option.isSome_iff_exists.1 hdir
  rw [hlinks, Option.some_bind, Option.isSome_map']
  clear hlinks hdir
  generalize (TAILQ_INIT : TailQ Binding) = q0
  induction links generalizing q0 with
  | nil => rfl
  | cons d rest ih =>
    have hsome := foreach_target_isSome
      (link_contents hdr st unset (join2 (join2 c.path c.name) d))
      (link_contents_isSome hnul _)
      l g.functions.tqh_first g.functions.brk hq.linked hq.length_le htok
    obtain ⟨r, hr⟩ := Option.isSome_iff_exists.1 hsome
    rw [List.foldl_cons]
    cases r with
    | none =>
      have : bindings_step hdr st unset g (join2 c.path c.name) (some q0) d = some q0 := by
        simp only [bindings_step, hr]
      rw [this]
      exact ih q0
    | some f =>
      have : bindings_step hdr st unset g (join2 c.path c.name) (some q0) d
          = some (push_tail q0 { name := d, path := join2 c.path c.name, target := f }) := by
        simp only [bindings_step, hr]
      rw [this]
      exact ih _

/-- The loader builds the gadget of an entry when the table of kind names is
not empty, the entry has the directories `functions` and `configs`, every
entry of `functions` has a kind token, every entry of `configs` is a
directory, and the array `contents` holds a NUL in every round. -/
theorem load_gadget_isSome {hdr : Header} {st : Store} {unset : Unset} {path spath d : Str}
    (htable : hdr.function_names ≠ [])
    (hfun : ∃ fs, scandir_names st (join3 path d FUNCTIONS_DIR) file_select = some fs ∧
      ∀ f ∈ fs, (strtok f '.').isSome)
    (hcfg : ∃ cs, scandir_names st (join3 path d CONFIGS_DIR) file_select = some cs ∧
      ∀ c ∈ cs, (scandir_names st (join2 (join3 path d CONFIGS_DIR) c) bindings_select).isSome)
    (hnul : ∀ p f, (unset p f).isSome) :
    (load_gadget hdr st unset path spath d).isSome := by
  obtain ⟨fs, hfs, htok⟩ := hfun
  obtain ⟨cs, hcs, hdirs⟩ := hcfg
  unfold load_gadget
  dsimp only
  -- the functions
  obtain ⟨qf, hfold, hloaded⟩ := Loaded.foldl fs [] TAILQ_INIT
    (Loaded.init_loaded (load_function hdr st (join3 path d FUNCTIONS_DIR)))
    (fun e _ => by
      unfold load_function
      rw [Option.isSome_map']
      exact usbg_lookup_function_type_isSome htable _)
  rw [List.nil_append] at hloaded
  have hpf : ∀ g : Gadget, g.name = d →
      usbg_parse_functions hdr st path g = some { g with functions := qf } := by
    intro g hg
    unfold usbg_parse_functions
    dsimp only
    rw [hg, hfs, Option.some_bind, hfold]
    rfl
  rw [hpf _ rfl]
  simp only [Option.some_bind]
  -- the configs
  have htok' : ∀ p ∈ List.range fs.length, (strtok (qf.elm p).name '.').isSome := by
    intro p hp
    have hlt := List.mem_range.1 hp
    rw [load_function_name (hloaded.elm p hlt)]
    exact htok _ (List.get_mem _ _ _)
  have hpc : ∀ g : Gadget, g.name = d → g.functions = qf →
      (usbg_parse_configs hdr st unset path g).isSome := by
    intro g hg hgf
    unfold usbg_parse_configs
    dsimp only
    rw [hg, hcs, Option.some_bind, Option.isSome_map']
    obtain ⟨qc, hfoldc, -⟩ := Loaded.foldl cs [] TAILQ_INIT
      (Loaded.init_loaded (load_config hdr st unset g (join3 path d CONFIGS_DIR)))
      (fun e he => by
        unfold load_config
        exact @usbg_parse_config_bindings_isSome hdr st unset g _
          (by rw [hgf]; exact hloaded.holds) (by rw [hgf]; exact htok') hnul _ (hdirs e he))
    exact Option.isSome_iff_exists.2 ⟨qc, hfoldc⟩
  exact hpc _ rfl rfl

/-- What `populated` says of the store, entry by entry. -/
theorem populated_spec {st : Store} {path : Str} (h : populated st path = true) :
    ∃ ds, scandir_names st path file_select = some ds ∧ ∀ d ∈ ds,
      (∃ fs, scandir_names st (join3 path d FUNCTIONS_DIR) file_select = some fs ∧
        ∀ f ∈ fs, (strtok f '.').isSome) ∧
      (∃ cs, scandir_names st (join3 path d CONFIGS_DIR) file_select = some cs ∧
        ∀ c ∈ cs,
          (scandir_names st (join2 (join3 path d CONFIGS_DIR) c) bindings_select).isSome) := by
  unfold populated at h
  cases hds : scandir_names st path file_select with
  | none => rw [hds] at h; cases h
  | some ds =>
    rw [hds] at h
    refine ⟨ds, rfl, ?_⟩
    intro d hd
    simp only [List.all_eq_true, Bool.and_eq_true] at h
    obtain ⟨h1, h2⟩ := h d hd
    constructor
    · cases hfs : scandir_names st (join3 path d FUNCTIONS_DIR) file_select with
      | none => rw [hfs] at h1; cases h1
      | some fs =>
        rw [hfs] at h1
        exact ⟨fs, rfl, fun f hf => List.all_eq_true.1 h1 f hf⟩
    · cases hcs : scandir_names st (join3 path d CONFIGS_DIR) file_select with
      | none => rw [hcs] at h2; cases h2
      | some cs =>
        rw [hcs] at h2
        exact ⟨cs, rfl, fun c hc => List.all_eq_true.1 h2 c hc⟩


/-! ## C7: vendor and product through the store -/

theorem plain_idVendor : PlainName "idVendor".toList := by decide
theorem plain_idProduct : PlainName "idProduct".toList := by decide

/-- Reading back, in base 16, an attribute file that holds the line
`"0x%04x\n"` of a 16-bit value gives the value. -/
theorem usbg_read_hex_of_file {hdr : Header} {st : Store} {path name file : Str} {v : Int}
    (hlen : 7 ≤ hdr.USBG_MAX_STR_LENGTH) (h0 : 0 ≤ v) (h1 : v ≤ 0xFFFF)
    (hget : st.get? (resolve (join3 path name file))
      = some (Node.file ('0' :: 'x' :: printf_x 4 v ++ ['\n']))) :
    usbg_read_hex hdr st path name file = v := by
  unfold usbg_read_hex usbg_read_int usbg_read_buf fopen_r_fgets
  rw [hget]
  simp only [fgets, List.cons_ne_nil, if_false, reduceCtorEq]
  exact hex16_round_trip v h0 h1 _ (by omega)

/-- C7, amended.  Let `name` be one path component (not empty, without `/`,
neither `.` nor `..`), let vendor and product be 16-bit values, and let the
line buffer have room for the line (`USBG_MAX_STR_LENGTH` at least 7).  Let
`usbg_create_gadget(s, name, vendor, product)` on a state of the root
`cpath/usb_gadget` come back with a gadget, its `mkdir` and its two writes
having succeeded, and let `stL` be a store that holds everything the call
left and has the layout the loader relies on (`populated`: every entry of the
root, the new gadget among them, has the directories `functions` and
`configs`, every function entry has a kind token, every config entry is a
directory).  Then `usbg_init(cpath)` on `stL` comes back with a state in which
`usbg_get_gadget` finds a gadget of that name whose decoded vendor and product
are the values written.  (The table `function_names` is not empty, and the
array `contents` of `usbg_parse_config_bindings` holds a NUL in every round.) -/
theorem create_gadget_round_trip (hdr : Header) (st st1 st2 st3 st' stL : Store)
    (unset : Unset) (cpath : Str)
    (s s' : State) (name : Str) (vendor product : Int) (ok : Bool) (g : Nat)
    (hname : PlainName name)
    (hv : 0 ≤ vendor ∧ vendor ≤ 0xFFFF) (hp : 0 ≤ product ∧ product ≤ 0xFFFF)
    (hlen : 7 ≤ hdr.USBG_MAX_STR_LENGTH)
    (hpath : s.path = cpath ++ "/usb_gadget".toList)
    (hc : usbg_create_gadget hdr st (some s) name vendor product ok = some (st', some s', some g))
    (hm : mkdir st (join2 s.path name) = some st1)
    (hw1 : fopen_w_fputs st1 (join3 s.path name "idVendor".toList)
      ('0' :: 'x' :: printf_x 4 vendor ++ ['\n']) = some st2)
    (hw2 : fopen_w_fputs st2 (join3 s.path name "idProduct".toList)
      ('0' :: 'x' :: printf_x 4 product ++ ['\n']) = some st3)
    (hext : ∀ p n, st'.get? p = some n → stL.get? p = some n)
    (hpop : populated stL s.path = true)
    (htable : hdr.function_names ≠ [])
    (hnul : ∀ p f, (unset p f).isSome) :
    ∃ s2 a, usbg_init hdr stL unset cpath true = some (some s2) ∧
      usbg_get_gadget s2 name = some (some a) ∧
      (s2.gadgets.elm a).name = name ∧
      (s2.gadgets.elm a).attrs.vendor = vendor ∧
      (s2.gadgets.elm a).attrs.product = product := by
  obtain ⟨ds, hds, hall⟩ := populated_spec hpop
  have hload : ∀ d ∈ ds, (load_gadget hdr stL unset s.path s.path d).isSome :=
    fun d hd => load_gadget_isSome htable (hall d hd).1 (hall d hd).2 hnul
  -- the store the call leaves
  have hst : st' = st3 := by
    unfold usbg_create_gadget at hc
    dsimp only at hc
    split at hc
    · cases hc
    · simp at hc
    · cases ok with
      | false => simp at hc
      | true =>
        simp only [Bool.not_true, Bool.false_eq_true, if_false, hm] at hc
        rw [Option.map_eq_some'] at hc
        obtain ⟨q, -, hq⟩ := hc
        simp only [Prod.mk.injEq] at hq
        rw [← hq.1]
        simp only [usbg_write_hex16, usbg_write_buf, hw1, hw2]
  subst hst
  -- its shape
  obtain ⟨e1, hnone, hparent⟩ := mkdir_some hm
  have e2 := fopen_w_fputs_some hw1
  have e3 := fopen_w_fputs_some hw2
  rw [resolve_join2 _ hname] at e1 hnone hparent
  rw [resolve_join3 _ hname plain_idVendor] at e2
  rw [resolve_join3 _ hname plain_idProduct] at e3
  have hdrop : (resolve s.path ++ [name]).dropLast = resolve s.path := by simp
  rw [hdrop] at hparent
  have hne1 : resolve s.path ++ [name] ≠ resolve s.path := by
    intro e; have := congrArg List.length e; simp at this
  have hne2 : resolve s.path ++ [name, "idVendor".toList] ≠ resolve s.path := by
    intro e; have := congrArg List.length e; simp at this
  have hne3 : resolve s.path ++ [name, "idProduct".toList] ≠ resolve s.path := by
    intro e; have := congrArg List.length e; simp at this
  have hne4 : resolve s.path ++ [name, "idProduct".toList] ≠
      resolve s.path ++ [name, "idVendor".toList] := by
    intro e
    have := List.append_cancel_left e
    simp at this
  have hne5 : resolve s.path ++ [name, "idVendor".toList] ≠ resolve s.path ++ [name] := by
    intro e; have := congrArg List.length e; simp at this
  have hne6 : resolve s.path ++ [name, "idProduct".toList] ≠ resolve s.path ++ [name] := by
    intro e; have := congrArg List.length e; simp at this
  have hroot : stL.get? (resolve s.path) = some Node.dir := by
    apply hext
    rw [e3, get?_put_other _ _ hne3, e2, get?_put_other _ _ hne2, e1, get?_put_other _ _ hne1]
    exact hparent
  have hgdir : stL.get? (resolve s.path ++ [name]) = some Node.dir := by
    apply hext
    rw [e3, get?_put_other _ _ hne6, e2, get?_put_other _ _ hne5, e1]
    exact get?_put_same _ _ (by simp)
  have hmem : (resolve s.path ++ [name], Node.dir) ∈ stL := mem_of_get? (by simp) hgdir
  have hin : name ∈ ds := by
    obtain ⟨ns, hns, hn⟩ := mem_scandir_names hroot hname hmem
    rw [hds] at hns
    cases hns
    exact hn
  -- the files
  have hfileV : stL.get? (resolve (join3 s.path name "idVendor".toList))
      = some (Node.file ('0' :: 'x' :: printf_x 4 vendor ++ ['\n'])) := by
    apply hext
    rw [resolve_join3 _ hname plain_idVendor, e3, get?_put_other _ _ hne4, e2]
    exact get?_put_same _ _ (by simp)
  have hfileP : stL.get? (resolve (join3 s.path name "idProduct".toList))
      = some (Node.file ('0' :: 'x' :: printf_x 4 product ++ ['\n'])) := by
    apply hext
    rw [resolve_join3 _ hname plain_idProduct, e3]
    exact get?_put_same _ _ (by simp)
  -- the load
  obtain ⟨q, hfold, hloaded⟩ := Loaded.foldl ds [] TAILQ_INIT
    (Loaded.init_loaded (load_gadget hdr stL unset s.path s.path)) hload
  rw [List.nil_append] at hloaded
  obtain ⟨a, ha1, ha2, ha3⟩ := hloaded.get_gadget hin { path := s.path, gadgets := q } rfl
  refine ⟨{ path := s.path, gadgets := q }, a, ?_, ha1, ha2, ?_, ?_⟩
  · unfold usbg_init usbg_init_state usbg_parse_gadgets
    simp only [← hpath, hroot, ne_eq, not_true_eq_false, if_false, Bool.not_true,
      Bool.false_eq_true, hds, Option.some_bind, hfold, Option.map_some']
  · rw [ha3]
    exact usbg_read_hex_of_file hlen hv.1 hv.2 hfileV
  · rw [ha3]
    exact usbg_read_hex_of_file hlen hp.1 hp.2 hfileP


/-! ## C7 as stated, C9: evaluations -/

theorem get?_put_extends {st : Store} {q : Path} (m : Node) (h : st.get? q = none) :
    ∀ p n, st.get? p = some n → (st.put q m).get? p = some n := by
  intro p n hp
  by_cases e : q = p
  · subst e; rw [h] at hp; cases hp
  · rw [get?_put_other _ _ e]; exact hp

/-- The loader does not come back on a store in which a gadget directory has
no directory `functions`, whatever the array `contents` holds. -/
theorem usbg_init_g1Store3 (unset : Unset) :
    usbg_init exampleHeader g1Store3 unset "/cfg".toList true = none := by
  have h1 : g1Store3.get? (resolve ("/cfg".toList ++ "/usb_gadget".toList)) = some Node.dir := by
    decide!
  have h2 : scandir_names g1Store3 ("/cfg".toList ++ "/usb_gadget".toList) file_select
      = some ["g1".toList] := by decide!
  have h3 : scandir_names g1Store3
      (join3 ("/cfg".toList ++ "/usb_gadget".toList) "g1".toList FUNCTIONS_DIR) file_select
      = none := by decide!
  unfold usbg_init usbg_init_state usbg_parse_gadgets
  simp only [h1, ne_eq, not_true_eq_false, if_false, Bool.not_true, Bool.false_eq_true, h2,
    Option.some_bind, List.foldl_cons, List.foldl_nil, load_step, load_gadget,
    usbg_parse_functions, usbg_parse_strings, h3, Option.none_bind, Option.map_none']

/-- C7 as stated fails twice.  On the store the call leaves the reload does
not come back: after `usbg_create_gadget(s, "g1", 0x1d6b, 0x0104)` on the
empty root the gadget directory holds `idVendor` and `idProduct` and no
directory `functions`, `scandir` fails in `usbg_parse_functions`, and `free`
is called with the pointer `scandir` left unset.  And for a name that is not
one path component the reload finds another name: `usbg_create_gadget(s, "x/",
0x1d6b, 0x0104)` comes back with a gadget, both writes succeed (the store then
has the files `x/idVendor` and `x/idProduct` with the two lines), and on that
store with the directories `functions` and `configs` made in the gadget
directory the tree `usbg_init("/cfg")` loads has one gadget, named `x`, and
`usbg_get_gadget` on `x/` comes back with `NULL`. -/
theorem create_gadget_round_trip_counterexample :
    ((usbg_create_gadget exampleHeader emptyStore (some emptyState) "g1".toList 0x1d6b 0x0104
        true).map fun r => (r.1, r.2.2)) = some (g1Store3, some 0) ∧
    (∀ unset, usbg_init exampleHeader g1Store3 unset "/cfg".toList true = none) ∧
    (exampleSlash.map fun r => r.2.2) = some (some 0) ∧
    (exampleSlash.map fun r =>
        r.1.get? ["cfg".toList, "usb_gadget".toList, "x".toList, "idVendor".toList])
      = some (some (Node.file "0x1d6b\n".toList)) ∧
    (exampleSlash.map fun r =>
        r.1.get? ["cfg".toList, "usb_gadget".toList, "x".toList, "idProduct".toList])
      = some (some (Node.file "0x0104\n".toList)) ∧
    (exampleSlash.bind fun r =>
        (with_gadget_dirs r.1 "/cfg/usb_gadget".toList "x/".toList).map fun st =>
          populated st "/cfg/usb_gadget".toList) = some true ∧
    (exampleSlash.bind fun r =>
        (with_gadget_dirs r.1 "/cfg/usb_gadget".toList "x/".toList).bind fun st =>
          load_and_list exampleHeader st zeroed "/cfg".toList)
      = some ["x".toList] ∧
    (exampleSlash.bind fun r =>
        (with_gadget_dirs r.1 "/cfg/usb_gadget".toList "x/".toList).bind fun st =>
          load_and_lookup exampleHeader st zeroed "/cfg".toList "x/".toList)
      = some none := by
  refine ⟨by decide!, usbg_init_g1Store3, by decide!, by decide!, by decide!, by decide!,
    by decide!, by decide!⟩

/-- C9 (the code departs from the claim).  On the loaded gadget `g1` of a
store whose file `g1/bDeviceClass` holds `0x00`,
`usbg_set_gadget_device_class(g, 0xef)` sets the field in memory and writes
the line `0xef` to the file `bDeviceClass` of the root `/cfg/usb_gadget`, not
of `/cfg/usb_gadget/g1`: the file of the gadget still holds `0x00`, and
`usbg_parse_gadget_attrs` on the gadget decodes the class 0. -/
theorem set_device_class_writes_beside_gadget :
    (exampleSetClass.map fun r => r.2.attrs.dclass) = some 0xef ∧
    (exampleSetClass.map fun r =>
        r.1.get? ["cfg".toList, "usb_gadget".toList, "bDeviceClass".toList])
      = some (some (Node.file "0xef\n".toList)) ∧
    (exampleSetClass.map fun r =>
        r.1.get? ["cfg".toList, "usb_gadget".toList, "g1".toList, "bDeviceClass".toList])
      = some (some (Node.file "0x00\n".toList)) ∧
    (exampleSetClass.map fun r =>
        (usbg_parse_gadget_attrs exampleHeader r.1 r.2.path r.2.name).dclass) = some 0 := by
  decide!


/-! ## The order of `strcmp` -/

theorem char_eq_iff_toNat {a b : Char} : a = b ↔ a.toNat = b.toNat := by
  constructor
  · rintro rfl; rfl
  · intro h
    apply Char.ext
    apply UInt32.ext
    exact h

theorem strcmp_cons_le (a b : Char) (as bs : Str) :
    strcmp (a :: as) (b :: bs) ≤ 0 ↔ a.toNat < b.toNat ∨ (a = b ∧ strcmp as bs ≤ 0) := by
  by_cases h : a = b
  · subst h; simp [strcmp]
  · have hne : a.toNat ≠ b.toNat := fun e => h (char_eq_iff_toNat.2 e)
    have e : strcmp (a :: as) (b :: bs) = (a.toNat : Int) - (b.toNat : Int) := by
      simp [strcmp, h]
    rw [e]
    constructor
    · intro hle; left; omega
    · rintro (hlt | ⟨hab, _⟩)
      · omega
      · exact absurd hab h

theorem strcmp_trans : ∀ {a b c : Str}, strcmp a b ≤ 0 → strcmp b c ≤ 0 → strcmp a c ≤ 0 := by
  intro a
  induction a with
  | nil =>
    intro b c _ _
    cases c <;> simp [strcmp]
  | cons x xs ih =>
    intro b c h1 h2
    cases b with
    | nil => simp [strcmp] at h1
    | cons y ys =>
      cases c with
      | nil => simp [strcmp] at h2
      | cons z zs =>
        rw [strcmp_cons_le] at h1 h2 ⊢
        rcases h1 with h1 | ⟨rfl, h1⟩
        · rcases h2 with h2 | ⟨rfl, _⟩
          · left; omega
          · left; exact h1
        · rcases h2 with h2 | ⟨rfl, h2⟩
          · left; exact h2
          · right; exact ⟨rfl, ih h1 h2⟩

theorem strcmp_total : ∀ (a b : Str), strcmp a b ≤ 0 ∨ strcmp b a ≤ 0 := by
  intro a
  induction a with
  | nil => intro b; left; cases b <;> simp [strcmp]
  | cons x xs ih =>
    intro b
    cases b with
    | nil => right; simp [strcmp]
    | cons y ys =>
      rw [strcmp_cons_le, strcmp_cons_le]
      by_cases h : x = y
      · subst h
        rcases ih ys with h | h
        · left; right; exact ⟨rfl, h⟩
        · right; right; exact ⟨rfl, h⟩
      · have hne : x.toNat ≠ y.toNat := fun e => h (char_eq_iff_toNat.2 e)
        rcases Nat.lt_or_gt_of_ne hne with h | h
        · left; left; exact h
        · right; left; exact h

/-- The first entry `scandir` returns is, by `strcmp`, not above any other. -/
theorem scandir_first_le {st : Store} {dir : Str} {select : Dirent → Bool} {first : Dirent}
    {rest : List Dirent} (h : scandir st dir select = some (first :: rest)) :
    ∀ d ∈ rest, strcmp first.d_name d.d_name ≤ 0 := by
  haveI : IsTotal Dirent (fun a b => strcmp a.d_name b.d_name ≤ 0) :=
    ⟨fun a b => strcmp_total a.d_name b.d_name⟩
  haveI : IsTrans Dirent (fun a b => strcmp a.d_name b.d_name ≤ 0) :=
    ⟨fun _ _ _ h1 h2 => strcmp_trans h1 h2⟩
  unfold scandir at h
  dsimp only at h
  split at h
  · have hs := List.sorted_insertionSort (fun a b : Dirent => strcmp a.d_name b.d_name ≤ 0)
      (List.filter select
        ([⟨".".toList, DType.DT_DIR⟩, ⟨"..".toList, DType.DT_DIR⟩] ++
          List.filterMap (fun n => Option.map (fun node => (⟨n, node.dtype⟩ : Dirent))
            (st.get? (resolve dir ++ [n]))) (st.children (resolve dir))))
    rw [Option.some.inj h] at hs
    exact fun d hd => List.rel_of_sorted_cons hs d hd
  · cases h

theorem resolve_join3_last (a n f : Str) (hf : PlainName f) :
    ∃ acc, resolve (join3 a n f) = acc ++ [f] := by
  unfold resolve join3
  rw [resolveAux_append_slash, resolveAux_append_slash, resolveAux_no_slash f hf.2.1,
    List.nil_append, pushSeg_plain _ hf]
  exact ⟨_, rfl⟩

/-! ## C10: enabling without a controller name -/

/-- The call `usbg_enable_gadget(g, NULL)` where the enumeration of controllers
succeeds.  When it returns no entry, the call gives back the store and the
gadget as they were; when it returns entries, the `udc` field becomes the name
of the first one, which by `strcmp` is not above any other, and that name is
what `usbg_write_string` is called with for the file `UDC` of the gadget, so
that, when the file can be opened, the store afterwards holds the name
there. -/
theorem enable_gadget_default_udc (st : Store) (g : Gadget) :
    (usbg_get_udcs st = some [] → usbg_enable_gadget st g none = some (st, g)) ∧
    (∀ first rest, usbg_get_udcs st = some (first :: rest) →
      usbg_enable_gadget st g none =
        some (usbg_write_string st g.path g.name "UDC".toList first.d_name,
          { g with udc := first.d_name }) ∧
      (∀ d ∈ rest, strcmp first.d_name d.d_name ≤ 0) ∧
      (∀ st1, fopen_w_fputs st (join3 g.path g.name "UDC".toList) first.d_name = some st1 →
        usbg_write_string st g.path g.name "UDC".toList first.d_name = st1 ∧
        st1.get? (resolve (join3 g.path g.name "UDC".toList))
          = some (Node.file first.d_name))) := by
  constructor
  · intro h
    simp only [usbg_enable_gadget, h]
  · intro first rest h
    refine ⟨by simp only [usbg_enable_gadget, h], scandir_first_le h, ?_⟩
    intro st1 hw
    refine ⟨by simp only [usbg_write_string, usbg_write_buf, hw], ?_⟩
    rw [fopen_w_fputs_some hw]
    obtain ⟨acc, hacc⟩ := resolve_join3_last g.path g.name "UDC".toList (by decide)
    exact get?_put_same _ _ (by rw [hacc]; simp)

/-- C10 (the code departs from the claim).  On a store without the directory
`/sys/class/udc`, where no controller is available, `scandir` fails and
`usbg_get_udcs` gives -1; `usbg_enable_gadget(g, NULL)` tests `if (!n)`, which
-1 passes, and reads `udc_list[0]` through the pointer `scandir` left unset:
the call does not come back.  On a store whose directory `/sys/class/udc` is
there and empty the same call gives back the store and the gadget as they
were. -/
theorem enable_gadget_without_udc_directory :
    exampleStore.get? (resolve "/sys/class/udc".toList) = none ∧
    usbg_get_udcs exampleStore = none ∧
    usbg_enable_gadget exampleStore exampleGadget none = none ∧
    usbg_get_udcs noUdcStore = some [] ∧
    usbg_enable_gadget noUdcStore exampleGadget none = some (noUdcStore, exampleGadget) := by
  have h1 : usbg_get_udcs exampleStore = none := by decide!
  have h2 : usbg_get_udcs noUdcStore = some [] := by decide!
  refine ⟨by decide!, h1, ?_, h2, ?_⟩
  · simp only [usbg_enable_gadget, h1]
  · simp only [usbg_enable_gadget, h2]


/-! ## The theorems at concrete inputs -/

/-- A call whose evaluation shows the store, a parent and the return value
came back with that store, some parent and that return value. -/
theorem eval_triple {σ β : Type} (x : Option (Store × Option σ × β)) (st : Store) (b : β)
    (h : (x.map fun r => (r.1, r.2.1.isSome, r.2.2)) = some (st, true, b)) :
    ∃ a, x = some (st, some a, b) := by
  cases x with
  | none => simp at h
  | some r =>
    obtain ⟨s, a, b'⟩ := r
    simp only [Option.map_some', Option.some.injEq, Prod.mk.injEq] at h
    obtain ⟨rfl, ha, rfl⟩ := h
    cases a with
    | none => simp at ha
    | some a => exact ⟨a, rfl⟩

/-- C3 at a concrete input: `usbg_create_function(g1, F_ACM, "GS0")` on the
gadget without functions, then `usbg_get_function(g1, "acm.GS0")`. -/
theorem create_function_then_get_witness :
    ∃ g', usbg_create_function exampleHeader exampleStore (some exampleGadget) 1 "GS0".toList true
        = some (functionStore, some g', some 0) ∧
      usbg_get_function g' "acm.GS0".toList = some (some 0) := by
  obtain ⟨g', hc⟩ := eval_triple
    (usbg_create_function exampleHeader exampleStore (some exampleGadget) 1 "GS0".toList true)
    functionStore (some 0) (by decide!)
  obtain ⟨kind, hk, hget⟩ := create_function_then_get exampleHeader exampleStore functionStore
    exampleGadget g' 1 "GS0".toList true 0 [] Holds.init_holds hc
  have hkind : kind = "acm".toList := by
    have : exampleHeader.function_names[1]? = some "acm".toList := by decide
    rw [this] at hk
    exact (Option.some.inj hk).symm
  subst hkind
  exact ⟨g', hc, hget⟩

/-- C4 at concrete inputs: a second gadget `g1`, a second function `acm.usb0`
and a second config `c.1`. -/
theorem create_duplicate_rejected_witness :
    usbg_create_gadget exampleHeader exampleStore (some oneState) "g1".toList 0x1d6b 0x0104 true
      = some (exampleStore, some oneState, none) ∧
    usbg_create_function exampleHeader exampleStore (some oneGadget) 1 "usb0".toList true
      = some (exampleStore, some oneGadget, none) ∧
    usbg_create_config exampleHeader exampleStore (some oneGadget) "c.1".toList true
      = some (exampleStore, some oneGadget, none) ∧
    config_names oneGadget = some ["c.1".toList] := by
  have h := create_duplicate_rejected exampleHeader exampleStore true oneState [0] "g1".toList
    0x1d6b 0x0104 oneGadget [0] [0] 1 "acm".toList "usb0".toList "c.1".toList
  have hg := h.1 (Holds.init_holds.push_tail exampleGadget) (by decide!) (by decide!)
  have hf := h.2.1 (Holds.init_holds.push_tail acmFunction) (by decide!) (by decide!) (by decide!)
  have hc := h.2.2 (Holds.init_holds.push_tail exampleConfig) (by decide!) (by decide!)
  exact ⟨hg.1, hf.1, hc.1, by decide!⟩

/-- C5 at a concrete input: the binding `l1` to the function `acm.usb0`, then
the binding `l2` to the same function. -/
theorem add_config_function_duplicate_witness :
    ∃ c1, usbg_add_config_function configStore oneGadget.functions (some exampleConfig)
        "l1".toList (some 0) true = some (linkedStore, some c1, 0) ∧
      usbg_add_config_function linkedStore oneGadget.functions (some c1) "l2".toList (some 0) true
        = some (linkedStore, some c1, -1) ∧
      ∃ l1, c1.bindings.toList = some l1 ∧
        l1.countP (fun b => decide ((c1.bindings.elm b).target = 0)) = 1 := by
  obtain ⟨c1, hc⟩ := eval_triple
    (usbg_add_config_function configStore oneGadget.functions (some exampleConfig)
      "l1".toList (some 0) true) linkedStore 0 (by decide!)
  have h := (add_config_function_duplicate configStore oneGadget.functions exampleConfig []
    "l1".toList 0 true Holds.init_holds).2 linkedStore c1 hc
  exact ⟨c1, hc, h.1 linkedStore "l2".toList true, h.2⟩

/-- C6 at concrete inputs: stores in which the directory the new entity would
lie in is missing, so that `mkdir` and `symlink` fail. -/
theorem create_store_failure_witness :
    usbg_create_gadget exampleHeader [] (some emptyState) "g1".toList 0x1d6b 0x0104 true
      = some ([], some emptyState, none) ∧
    usbg_create_function exampleHeader emptyStore (some exampleGadget) 1 "usb0".toList true
      = some (emptyStore, some exampleGadget, none) ∧
    usbg_create_config exampleHeader emptyStore (some exampleGadget) "c.1".toList true
      = some (emptyStore, some exampleGadget, none) ∧
    ∃ c1, usbg_add_config_function emptyStore oneGadget.functions (some exampleConfig)
        "l1".toList (some 0) true = some (emptyStore, some c1, -1) ∧
      c1.bindings.toList = some [] := by
  have h1 := (create_store_failure exampleHeader [] true emptyState [] "g1".toList 0x1d6b 0x0104
    exampleGadget [] [] 1 "acm".toList "usb0".toList "c.1".toList oneGadget.functions
    exampleConfig [] "l1".toList 0).1 Holds.init_holds (by decide!)
  have h := create_store_failure exampleHeader emptyStore true emptyState [] "g1".toList 0x1d6b
    0x0104 exampleGadget [] [] 1 "acm".toList "usb0".toList "c.1".toList oneGadget.functions
    exampleConfig [] "l1".toList 0
  have h2 := h.2.1 Holds.init_holds (by decide!) (by decide!)
  have h3 := h.2.2.1 Holds.init_holds (by decide!)
  obtain ⟨c1, h4, h5, -, -⟩ := h.2.2.2 Holds.init_holds (by decide!)
  exact ⟨h1, h2, h3, c1, h4, by rw [h5]; decide!⟩

/-- C7, amended, at the input of the claim: the name `g1`, the vendor 0x1d6b
and the product 0x0104, on the store with the empty root `/cfg/usb_gadget`;
the reload is from the store the call leaves with the directories `functions`
and `configs` made in the gadget directory. -/
theorem create_gadget_round_trip_witness :
    PlainName "g1".toList ∧
    (∃ s', usbg_create_gadget exampleHeader emptyStore (some emptyState) "g1".toList 0x1d6b 0x0104
        true = some (g1Store3, some s', some 0)) ∧
    with_gadget_dirs g1Store3 "/cfg/usb_gadget".toList "g1".toList = some g1Store5 ∧
    populated g1Store5 "/cfg/usb_gadget".toList = true ∧
    ∃ s2 a, usbg_init exampleHeader g1Store5 zeroed "/cfg".toList true = some (some s2) ∧
      usbg_get_gadget s2 "g1".toList = some (some a) ∧
      (s2.gadgets.elm a).name = "g1".toList ∧
      (s2.gadgets.elm a).attrs.vendor = 0x1d6b ∧
      (s2.gadgets.elm a).attrs.product = 0x0104 := by
  obtain ⟨s', hc⟩ := eval_triple
    (usbg_create_gadget exampleHeader emptyStore (some emptyState) "g1".toList 0x1d6b 0x0104 true)
    g1Store3 (some 0) (by decide!)
  have hext : ∀ p n, g1Store3.get? p = some n → g1Store5.get? p = some n := by
    intro p n h
    exact get?_put_extends Node.dir (by decide!) p n (get?_put_extends Node.dir (by decide!) p n h)
  exact ⟨by decide, ⟨s', hc⟩, by decide!, by decide!,
    create_gadget_round_trip exampleHeader emptyStore g1Store1 g1Store2 g1Store3 g1Store3 g1Store5
      zeroed "/cfg".toList emptyState s' "g1".toList 0x1d6b 0x0104 true 0 (by decide)
      (by decide) (by decide) (by decide) (by decide!) hc (by decide!) (by decide!) (by decide!)
      hext (by decide!) (by decide) (fun _ _ => rfl)⟩

/-- The call `usbg_enable_gadget(g, NULL)` at concrete inputs: a store whose
directory `/sys/class/udc` is empty, and a store with the controllers
`musb-hdrc.0` and `dummy_udc.0`. -/
theorem enable_gadget_default_udc_witness :
    usbg_enable_gadget noUdcStore exampleGadget none = some (noUdcStore, exampleGadget) ∧
    (usbg_enable_gadget udcStore exampleGadget none).map (fun r => r.2.udc)
      = some "dummy_udc.0".toList ∧
    (usbg_enable_gadget udcStore exampleGadget none).map
        (fun r => r.1.get? ["cfg".toList, "usb_gadget".toList, "g1".toList, "UDC".toList])
      = some (some (Node.file "dummy_udc.0".toList)) := by
  have h1 := (enable_gadget_default_udc noUdcStore exampleGadget).1 (by decide!)
  have h2 := (enable_gadget_default_udc udcStore exampleGadget).2
    ⟨"dummy_udc.0".toList, DType.DT_DIR⟩ [⟨"musb-hdrc.0".toList, DType.DT_DIR⟩] (by decide!)
  refine ⟨h1, ?_, ?_⟩
  · rw [h2.1]; rfl
  · rw [h2.1]; decide!


/-! ## C13: the kind of a function through its directory name -/

theorem takeWhile_ne_append (c : Char) (a b : Str) (h : c ∉ a) :
    (a ++ c :: b).takeWhile (· ≠ c) = a := by
  induction a with
  | nil => simp [List.takeWhile]
  | cons x xs ih =>
    have hx : x ≠ c := fun e => h (e ▸ List.mem_cons_self _ _)
    have hxs : c ∉ xs := fun m => h (List.mem_cons_of_mem _ m)
    have := ih hxs
    simp only [List.cons_append, List.takeWhile_cons, ne_eq, hx, not_false_eq_true,
      decide_True, if_true, List.cons.injEq, true_and]
    exact this

/-- The first token of `kind.inst` is `kind`, for a kind name that is not empty
and holds no `.`. -/
theorem strtok_composite {kind : Str} (inst : Str) (hne : kind ≠ []) (hdot : '.' ∉ kind) :
    strtok (kind ++ '.' :: inst) '.' = some kind := by
  cases kind with
  | nil => exact absurd rfl hne
  | cons x xs =>
    have hx : x ≠ '.' := fun e => hdot (e ▸ List.mem_cons_self _ _)
    have hd : ((x :: xs) ++ '.' :: inst).dropWhile (· = '.') = (x :: xs) ++ '.' :: inst := by
      simp [List.dropWhile, hx]
    unfold strtok
    simp only [hd]
    rw [if_neg (by simp), takeWhile_ne_append '.' _ _ hdot]

/-- The loop of `usbg_lookup_function_type` stops at the index of the name, in
a table without repetition. -/
theorem lookup_loop_get (name : Str) : ∀ (names : List Str) (k i : Nat), names.Nodup →
    names[k]? = some name → lookup_loop name names i = i + k
  | [], k, i, _, h => by simp at h
  | n :: rest, 0, i, _, h => by
    simp only [List.getElem?_cons_zero, Option.some.injEq] at h
    subst h
    simp [lookup_loop, strcmp_self]
  | n :: rest, k + 1, i, hnd, h => by
    simp only [List.getElem?_cons_succ] at h
    have hmem : name ∈ rest := List.mem_iff_getElem?.2 ⟨k, h⟩
    have hne : name ≠ n := by
      intro e
      subst e
      exact (List.nodup_cons.1 hnd).1 hmem
    have hc : ¬ strcmp name n = 0 := fun e => hne (strcmp_eq_zero.1 e)
    simp only [lookup_loop, if_neg hc]
    rw [lookup_loop_get name rest k (i + 1) (List.nodup_cons.1 hnd).2 h]
    omega

/-- The loop of `usbg_lookup_function_type` runs to the end of the table for a
name that is no entry. -/
theorem lookup_loop_not_mem (name : Str) : ∀ (names : List Str) (i : Nat), name ∉ names →
    lookup_loop name names i = i + names.length
  | [], i, _ => by simp [lookup_loop]
  | n :: rest, i, h => by
    have hne : name ≠ n := fun e => h (e ▸ List.mem_cons_self _ _)
    have hc : ¬ strcmp name n = 0 := fun e => hne (strcmp_eq_zero.1 e)
    simp only [lookup_loop, if_neg hc, List.length_cons]
    rw [lookup_loop_not_mem name rest (i + 1) fun m => h (List.mem_cons_of_mem _ m)]
    omega

theorem usbg_parse_function_attrs_type (hdr : Header) (st : Store) (f : Function) :
    (usbg_parse_function_attrs hdr st f).type = f.type := by
  unfold usbg_parse_function_attrs
  split
  · rfl
  · split
    · rfl
    · split <;> rfl

/-- The function `usbg_lookup_function_type` gives the index of a table entry. -/
theorem usbg_lookup_function_type_get {hdr : Header} (hnd : hdr.function_names.Nodup)
    {k : Nat} {kind : Str} (hk : hdr.function_names[k]? = some kind) :
    usbg_lookup_function_type hdr (some kind) = some (k : Int) := by
  have hlt : k < hdr.function_names.length := by
    rcases Nat.lt_or_ge k hdr.function_names.length with h | h
    · exact h
    · rw [List.getElem?_eq_none h] at hk; simp at hk
  have hne : hdr.function_names ≠ [] := by
    intro e; rw [e] at hlt; simp at hlt
  unfold usbg_lookup_function_type
  simp only [if_neg hne, lookup_loop_get kind _ k 0 hnd hk, Nat.zero_add]
  rw [if_neg (Nat.ne_of_lt hlt)]

/-- The function `usbg_lookup_function_type` gives -1 for `NULL` and for a name that is no
entry of the table. -/
theorem usbg_lookup_function_type_unknown {hdr : Header} (hne : hdr.function_names ≠ [])
    {tok : Option Str} (h : ∀ t, tok = some t → t ∉ hdr.function_names) :
    usbg_lookup_function_type hdr tok = some (-1) := by
  unfold usbg_lookup_function_type
  cases tok with
  | none => rfl
  | some t =>
    simp only [if_neg hne, lookup_loop_not_mem t _ 0 (h t rfl), Nat.zero_add, if_true]

/-- C13.  Let the table `function_names` hold pairwise distinct names, none
empty and none with a `.` (and at least one).  For every index `k` of the
table, with `kind` its name, and every instance string `inst`: the first token
`strtok` cuts from the directory name `kind.inst`, which is the name
`usbg_create_function` builds, is `kind`; `usbg_lookup_function_type` gives `k` for it;
and the function `usbg_parse_functions` builds for that entry has the type `k` and
the whole name.  For every directory name whose token is no entry of the table
(or that has no token), `usbg_lookup_function_type` gives -1, and `usbg_parse_functions`
still builds a function, of type -1 and with that name, and puts it at the
tail of the queue. -/
theorem function_kind_survives_encoding (hdr : Header) (st : Store) (fpath : Str)
    (hnd : hdr.function_names.Nodup)
    (hne : ∀ n ∈ hdr.function_names, n ≠ [])
    (hdot : ∀ n ∈ hdr.function_names, '.' ∉ n)
    (htable : hdr.function_names ≠ []) :
    (∀ (k : Nat) (kind inst : Str), hdr.function_names[k]? = some kind →
      strtok (kind ++ '.' :: inst) '.' = some kind ∧
      usbg_lookup_function_type hdr (strtok (kind ++ '.' :: inst) '.') = some (k : Int) ∧
      ∃ f, load_function hdr st fpath (kind ++ '.' :: inst) = some f ∧
        f.type = (k : Int) ∧ f.name = kind ++ '.' :: inst ∧
        ∀ q, load_step (load_function hdr st fpath) (some q) (kind ++ '.' :: inst)
          = some (push_tail q f)) ∧
    (∀ d_name : Str, (∀ t, strtok d_name '.' = some t → t ∉ hdr.function_names) →
      usbg_lookup_function_type hdr (strtok d_name '.') = some (-1) ∧
      ∃ f, load_function hdr st fpath d_name = some f ∧ f.type = -1 ∧ f.name = d_name ∧
        ∀ q, load_step (load_function hdr st fpath) (some q) d_name = some (push_tail q f)) := by
  constructor
  · intro k kind inst hk
    have hmem : kind ∈ hdr.function_names := List.mem_iff_getElem?.2 ⟨k, hk⟩
    have htok := strtok_composite inst (hne kind hmem) (hdot kind hmem)
    have hlook := usbg_lookup_function_type_get hnd hk
    refine ⟨htok, by rw [htok, hlook], usbg_parse_function_attrs hdr st
      { name := kind ++ '.' :: inst, path := fpath, type := (k : Int),
        attr := FunctionAttrs.unset }, ?_, ?_, ?_, ?_⟩
    · unfold load_function
      rw [htok, hlook]
      rfl
    · rw [usbg_parse_function_attrs_type]
    · rw [usbg_parse_function_attrs_name]
    · intro q
      simp only [load_step, load_function, htok, hlook, Option.map_some']
  · intro d_name h
    have hlook := usbg_lookup_function_type_unknown htable h
    refine ⟨hlook, usbg_parse_function_attrs hdr st
      { name := d_name, path := fpath, type := -1, attr := FunctionAttrs.unset }, ?_, ?_, ?_, ?_⟩
    · unfold load_function
      rw [hlook]
      rfl
    · rw [usbg_parse_function_attrs_type]
    · rw [usbg_parse_function_attrs_name]
    · intro q
      simp only [load_step, load_function, hlook, Option.map_some']

/-- C13 at concrete inputs, with the table of `exampleHeader`: the directory
name `acm.GS0` decodes to the index 1 of `acm`; the directory name `foo.1`
decodes to -1, and `usbg_parse_functions` on a store that holds the function
directory `foo.1` loads it, with the type -1. -/
theorem function_kind_survives_encoding_witness :
    exampleHeader.function_names.Nodup ∧
    (∀ n ∈ exampleHeader.function_names, n ≠ []) ∧
    (∀ n ∈ exampleHeader.function_names, '.' ∉ n) ∧
    exampleHeader.function_names ≠ [] ∧
    usbg_lookup_function_type exampleHeader (strtok ("acm".toList ++ '.' :: "GS0".toList) '.')
      = some 1 ∧
    usbg_lookup_function_type exampleHeader (strtok "foo.1".toList '.') = some (-1) ∧
    (∃ f, load_function exampleHeader unknownKindStore "/cfg/usb_gadget/g1/functions".toList
        "foo.1".toList = some f ∧ f.type = -1 ∧ f.name = "foo.1".toList) ∧
    load_functions_types exampleHeader unknownKindStore "/cfg/usb_gadget".toList exampleGadget
      = some [("foo.1".toList, -1)] := by
  have h1 : exampleHeader.function_names.Nodup := by decide!
  have h2 : ∀ n ∈ exampleHeader.function_names, n ≠ [] := by decide!
  have h3 : ∀ n ∈ exampleHeader.function_names, '.' ∉ n := by decide!
  have h4 : exampleHeader.function_names ≠ [] := by decide!
  have h := function_kind_survives_encoding exampleHeader unknownKindStore
    "/cfg/usb_gadget/g1/functions".toList h1 h2 h3 h4
  have hfoo : ∀ t, strtok "foo.1".toList '.' = some t → t ∉ exampleHeader.function_names := by
    intro t ht
    have e : strtok "foo.1".toList '.' = some "foo".toList := by decide!
    rw [e] at ht
    cases ht
    decide!
  obtain ⟨f, hf, ht, hn, -⟩ := (h.2 "foo.1".toList hfoo).2
  exact ⟨h1, h2, h3, h4, (h.1 1 "acm".toList "GS0".toList (by decide!)).2.1,
    (h.2 "foo.1".toList hfoo).1, ⟨f, hf, ht, hn⟩, by decide!⟩


/-! ## C12: the width of the hexadecimal lines -/

theorem hexDigit_lower : ∀ d, d < 16 → hexDigit d ∈ "0123456789abcdef".toList := by
  decide

/-- The two digits `%02x` writes for a value below `0x100`. -/
theorem printf_x_two (v : Int) (h0 : 0 ≤ v) (h1 : v ≤ 0xFF) :
    printf_x 2 v = [hexDigit (v.toNat / 16), hexDigit (v.toNat % 16)] := by
  obtain ⟨n, rfl⟩ := Int.eq_ofNat_of_zero_le h0
  have hn : n ≤ 255 := by omega
  have hmod : ((n : Int) % 2 ^ 32).toNat = n := by
    have : (n : Int) % 2 ^ 32 = n := Int.emod_eq_of_lt (by omega) (by omega)
    rw [this]; rfl
  unfold printf_x
  simp only [hmod, Int.toNat_ofNat]
  by_cases c1 : n < 16
  · have e1 : n / 16 = 0 := by omega
    have e2 : n % 16 = n := by omega
    simp [natDigits, c1, e1, e2, hexDigit_zero, List.replicate]
  · have c2 : n / 16 < 16 := by omega
    simp [natDigits, c1, c2]

/-- The digits of `natDigits` are at least `k + 1` for a number that is at
least the `k`-th power of the base. -/
theorem natDigits_length_ge (base : Nat) (hb : 2 ≤ base) : ∀ (k fuel n : Nat), k < fuel →
    base ^ k ≤ n → k + 1 ≤ (natDigits base fuel n).length
  | 0, fuel + 1, n, _, _ => by
    unfold natDigits
    split <;> simp
  | k + 1, fuel + 1, n, hk, hn => by
    have hge : base ≤ n := by
      calc base = base ^ 1 := (pow_one base).symm
        _ ≤ base ^ (k + 1) := Nat.pow_le_pow_right (by omega) (by omega)
        _ ≤ n := hn
    have hdiv : base ^ k ≤ n / base := by
      rw [Nat.le_div_iff_mul_le (by omega)]
      rw [← pow_succ]; exact hn
    unfold natDigits
    rw [if_neg (by omega)]
    have := natDigits_length_ge base hb k fuel (n / base) (by omega) hdiv
    simp only [List.length_append, List.length_singleton]
    omega

theorem natDigits_length_le (base : Nat) : ∀ (fuel n : Nat),
    (natDigits base fuel n).length ≤ fuel
  | 0, _ => by simp [natDigits]
  | fuel + 1, n => by
    unfold natDigits
    split
    · simp
    · have := natDigits_length_le base fuel (n / base)
      simp only [List.length_append, List.length_singleton]
      omega

/-- The digits of `natDigits` are at most `k` for a number below the `k`-th
power of the base. -/
theorem natDigits_length_of_lt (base : Nat) (hb : 2 ≤ base) : ∀ (fuel k n : Nat), 1 ≤ k →
    n < base ^ k → (natDigits base fuel n).length ≤ k
  | 0, k, _, _, _ => by simp [natDigits]
  | fuel + 1, k, n, hk, hn => by
    unfold natDigits
    split
    · simpa using hk
    · rename_i hge
      obtain ⟨j, rfl⟩ : ∃ j, k = j + 1 := ⟨k - 1, by omega⟩
      have hj : 1 ≤ j := by
        rcases Nat.eq_zero_or_pos j with rfl | h
        · simp at hn; omega
        · exact h
      have hdiv : n / base < base ^ j := by
        rw [Nat.div_lt_iff_lt_mul (by omega)]
        rw [← pow_succ]; exact hn
      have := natDigits_length_of_lt base hb fuel j (n / base) hj hdiv
      simp only [List.length_append, List.length_singleton]
      omega

/-- Every character `natDigits` writes is the digit character of a number below
the base. -/
theorem natDigits_mem (base : Nat) (hb : 0 < base) : ∀ (fuel n : Nat) (c : Char),
    c ∈ natDigits base fuel n → ∃ d, d < base ∧ c = hexDigit d
  | 0, _, c, h => by simp [natDigits] at h
  | fuel + 1, n, c, h => by
    unfold natDigits at h
    split at h
    · rename_i hlt
      simp only [List.mem_singleton] at h
      exact ⟨n, hlt, h⟩
    · rw [List.mem_append, List.mem_singleton] at h
      rcases h with h | h
      · exact natDigits_mem base hb fuel (n / base) c h
      · exact ⟨n % base, Nat.mod_lt _ hb, h⟩

/-- Every character of a `%0<width>x` conversion is a lowercase hexadecimal digit. -/
theorem printf_x_lower (width : Nat) (v : Int) :
    ∀ c ∈ printf_x width v, c ∈ "0123456789abcdef".toList := by
  intro c hc
  unfold printf_x at hc
  simp only [List.mem_append, List.mem_replicate] at hc
  rcases hc with ⟨-, rfl⟩ | hc
  · decide
  · obtain ⟨d, hd, rfl⟩ := natDigits_mem 16 (by omega) _ _ _ hc
    exact hexDigit_lower d hd

/-- The length of a `%0<width>x` conversion: the width, or the number of digits
of the value when that is larger. -/
theorem printf_x_length (width : Nat) (v : Int) :
    (printf_x width v).length = max width (natDigits 16 8 (v % 2 ^ 32).toNat).length := by
  unfold printf_x
  simp only [List.length_append, List.length_replicate]
  omega

theorem FixedWidthHex.length_eq {k : Nat} {text : Str} (h : FixedWidthHex k text) :
    text.length = k + 3 := by
  obtain ⟨ds, hlen, -, rfl⟩ := h
  simp [hlen]

theorem fixedWidthHex_sprintf_hex (k width : Nat) (v : Int) :
    FixedWidthHex k (sprintf_hex width v) ↔ (printf_x width v).length = k := by
  constructor
  · intro h
    have := h.length_eq
    simp only [sprintf_hex, List.length_cons, List.length_append, List.length_singleton,
      List.length_nil] at this
    omega
  · intro h
    exact ⟨printf_x width v, h, printf_x_lower width v, rfl⟩

/-- The text of `sprintf_hex` has exactly `width` digits just when the value, read
as `unsigned int`, is below `16 ^ width` (for a width from 1 to 8). -/
theorem fixedWidthHex_iff (width : Nat) (hw : 1 ≤ width) (hw8 : width ≤ 8) (v : Int) :
    FixedWidthHex width (sprintf_hex width v) ↔ (v % 2 ^ 32).toNat < 16 ^ width := by
  rw [fixedWidthHex_sprintf_hex, printf_x_length]
  constructor
  · intro h
    rcases Nat.lt_or_ge width 8 with h8 | h8
    · by_contra hge
      have := natDigits_length_ge 16 (by omega) width 8 (v % 2 ^ 32).toNat h8
        (Nat.le_of_not_lt hge)
      omega
    · obtain rfl : width = 8 := by omega
      have h1 : v % 2 ^ 32 < 2 ^ 32 := Int.emod_lt_of_pos v (by norm_num)
      have h2 : 0 ≤ v % 2 ^ 32 := Int.emod_nonneg v (by norm_num)
      have e : (16 : Nat) ^ 8 = 4294967296 := by norm_num
      rw [e]
      omega
  · intro h
    have := natDigits_length_of_lt 16 (by omega) 8 width (v % 2 ^ 32).toNat hw h
    omega

/-- The digit run of `strtol` reads the digits `natDigits` writes back as the
number. -/
theorem parseDigits_natDigits (base : Nat) (hb : 2 ≤ base) (hb16 : base ≤ 16) :
    ∀ (fuel n : Nat) (rest : Str), n < base ^ fuel →
      parseDigits base (natDigits base fuel n ++ rest) 0 = parseDigits base rest n
  | 0, n, rest, h => by
    have : n = 0 := by simpa using h
    subst this
    simp [natDigits]
  | fuel + 1, n, rest, h => by
    unfold natDigits
    split
    · rename_i hlt
      simp [parseDigits, digitVal_hexDigit n (by omega), hlt]
    · rename_i hge
      have hdiv : n / base < base ^ fuel := by
        rw [Nat.div_lt_iff_lt_mul (by omega), ← pow_succ]; exact h
      have hm : n % base < base := Nat.mod_lt _ (by omega)
      rw [List.append_assoc, parseDigits_natDigits base hb hb16 fuel (n / base) _ hdiv]
      show parseDigits base (hexDigit (n % base) :: rest) (n / base) = parseDigits base rest n
      rw [parseDigits, digitVal_hexDigit (n % base) (by omega)]
      simp only [if_pos hm]
      rw [Nat.div_add_mod']

/-- Zeros in front of a digit run do not change its value. -/
theorem parseDigits_zeros (base : Nat) (hb : 0 < base) : ∀ (k : Nat) (s : Str),
    parseDigits base (List.replicate k '0' ++ s) 0 = parseDigits base s 0
  | 0, s => by simp
  | k + 1, s => by
    have h0 : digitVal '0' = some 0 := by decide
    simp only [List.replicate_succ, List.cons_append, parseDigits, h0, if_pos hb, Nat.zero_mul,
      Nat.add_zero]
    exact parseDigits_zeros base hb k s

theorem parseDigits_newline (base : Nat) (rest : Str) (acc : Nat) :
    parseDigits base ('\n' :: rest) acc = acc := by
  have h : digitVal '\n' = none := by decide
  simp [parseDigits, h]

/-- After `fopen(p, "w")` and `fputs(buf)` have succeeded the file holds `buf`. -/
theorem fopen_w_fputs_get {st st1 : Store} {p buf : Str}
    (h : fopen_w_fputs st p buf = some st1) :
    st1.get? (resolve p) = some (Node.file buf) := by
  have hput := fopen_w_fputs_some h
  have hne : resolve p ≠ [] := by
    intro e
    unfold fopen_w_fputs at h
    simp [e, Store.get?] at h
  rw [hput, get?_put_same st _ hne]

/-- The store `usbg_write_buf` leaves holds the buffer in the file, when the file
could be opened. -/
theorem usbg_write_buf_get {st st1 : Store} {p n f buf : Str}
    (h : fopen_w_fputs st (join3 p n f) buf = some st1) :
    (usbg_write_buf st p n f buf).get? (resolve (join3 p n f)) = some (Node.file buf) := by
  unfold usbg_write_buf
  rw [h]
  exact fopen_w_fputs_get h

/-- C12, amended.  Let `v` be an `int` value.  The 8-bit writer `usbg_write_hex8`
(behind the setters of device class, subclass, protocol, max packet size and of
the config `bmAttributes`) and the 16-bit writer `usbg_write_hex16` (behind
`idVendor`, `idProduct`, `bcdDevice`, `bcdUSB`) hand to `usbg_write_buf` the text
`sprintf` makes of `"0x%02x\n"` and `"0x%04x\n"`, and the file holds that text
when it could be opened.  That text is `0x`, exactly 2 lowercase hexadecimal
digits and a newline if and only if `0 <= v <= 0xFF`, and it is `0x`, exactly
4 lowercase hexadecimal digits and a newline if and only if
`0 <= v <= 0xFFFF`; the digits are then those of `v`.  For every `v` and either
width the text is `0x`, at least that many and at most 8 lowercase
hexadecimal digits, and a newline: the conversion pads and never cuts, and
the digits are those of `v` read as `unsigned int`. -/
theorem write_hex_fixed_width (st : Store) (p n f : Str) (v : Int)
    (hint : -(2 ^ 31) ≤ v ∧ v < 2 ^ 31) :
    usbg_write_hex8 st p n f v = usbg_write_buf st p n f (sprintf_hex 2 v) ∧
    usbg_write_hex16 st p n f v = usbg_write_buf st p n f (sprintf_hex 4 v) ∧
    (∀ st1, fopen_w_fputs st (join3 p n f) (sprintf_hex 2 v) = some st1 →
      (usbg_write_hex8 st p n f v).get? (resolve (join3 p n f))
        = some (Node.file (sprintf_hex 2 v))) ∧
    (∀ st1, fopen_w_fputs st (join3 p n f) (sprintf_hex 4 v) = some st1 →
      (usbg_write_hex16 st p n f v).get? (resolve (join3 p n f))
        = some (Node.file (sprintf_hex 4 v))) ∧
    (FixedWidthHex 2 (sprintf_hex 2 v) ↔ 0 ≤ v ∧ v ≤ 0xFF) ∧
    (FixedWidthHex 4 (sprintf_hex 4 v) ↔ 0 ≤ v ∧ v ≤ 0xFFFF) ∧
    (0 ≤ v → v ≤ 0xFF →
      sprintf_hex 2 v = ['0', 'x', hexDigit (v.toNat / 16), hexDigit (v.toNat % 16), '\n']) ∧
    (0 ≤ v → v ≤ 0xFFFF →
      sprintf_hex 4 v = ['0', 'x', hexDigit (v.toNat / 4096), hexDigit (v.toNat / 256 % 16),
        hexDigit (v.toNat / 16 % 16), hexDigit (v.toNat % 16), '\n']) ∧
    (∀ width, ∃ ds : Str, width ≤ ds.length ∧ ds.length ≤ max width 8 ∧
      (∀ c ∈ ds, c ∈ "0123456789abcdef".toList) ∧
      sprintf_hex width v = '0' :: 'x' :: ds ++ ['\n']) ∧
    (∀ (g : Gadget) (c : Config),
      (usbg_set_gadget_device_class st g v).1
        = usbg_write_buf st g.path [] "bDeviceClass".toList (sprintf_hex 2 v) ∧
      (usbg_set_gadget_device_subclass st g v).1
        = usbg_write_buf st g.path [] "bDeviceSubClass".toList (sprintf_hex 2 v) ∧
      (usbg_set_gadget_device_protocol st g v).1
        = usbg_write_buf st g.path [] "bDeviceProtocol".toList (sprintf_hex 2 v) ∧
      (usbg_set_gadget_device_max_packet st g v).1
        = usbg_write_buf st g.path [] "bMaxPacketSize0".toList (sprintf_hex 2 v) ∧
      (usbg_set_config_bm_attrs st c v).1
        = usbg_write_buf st c.path c.name "bmAttributes".toList (sprintf_hex 2 v) ∧
      (usbg_set_gadget_device_bcd_device st g v).1
        = usbg_write_buf st g.path [] "bcdDevice".toList (sprintf_hex 4 v) ∧
      (usbg_set_gadget_device_bcd_usb st g v).1
        = usbg_write_buf st g.path [] "bcdUSB".toList (sprintf_hex 4 v)) ∧
    (∀ width, sprintf_hex width v = '0' :: 'x' :: printf_x width v ++ ['\n'] ∧
      parseDigits 16 (printf_x width v ++ ['\n']) 0 = (v % 2 ^ 32).toNat) := by
  have h1 : v % 2 ^ 32 < 2 ^ 32 := Int.emod_lt_of_pos v (by norm_num)
  have h2 : 0 ≤ v % 2 ^ 32 := Int.emod_nonneg v (by norm_num)
  refine ⟨rfl, rfl, fun st1 h => usbg_write_buf_get h, fun st1 h => usbg_write_buf_get h,
    ?_, ?_, ?_, ?_, ?_, fun g c => ⟨rfl, rfl, rfl, rfl, rfl, rfl, rfl⟩, ?_⟩
  · rw [fixedWidthHex_iff 2 (by omega) (by omega)]
    have e : (16 : Nat) ^ 2 = 256 := by norm_num
    rw [e]
    omega
  · rw [fixedWidthHex_iff 4 (by omega) (by omega)]
    have e : (16 : Nat) ^ 4 = 65536 := by norm_num
    rw [e]
    omega
  · intro h0 h8
    simp [sprintf_hex, printf_x_two v h0 h8]
  · intro h0 h16
    simp [sprintf_hex, printf_x_four v h0 h16]
  · intro width
    refine ⟨printf_x width v, ?_, ?_, printf_x_lower width v, rfl⟩
    · rw [printf_x_length]; omega
    · rw [printf_x_length]
      have := natDigits_length_le 16 8 (v % 2 ^ 32).toNat
      omega
  · intro width
    refine ⟨rfl, ?_⟩
    unfold printf_x
    simp only []
    rw [List.append_assoc, parseDigits_zeros 16 (by omega),
      parseDigits_natDigits 16 (by omega) (by omega) 8 _ _ (by
        have e : (16 : Nat) ^ 8 = 4294967296 := by norm_num
        rw [e]; omega), parseDigits_newline]

/-- C12, the claim as it stands fails: for the `int` value `0x100` handed to
the 8-bit setter `usbg_set_config_bm_attrs` the text is `0x100` and a newline, three
digits, and the file `bmAttributes` of the config holds it; for -1 the text is
`0xffffffff` and a newline; for `0x10000` handed to the 16-bit writer it is
`0x10000` and a newline. -/
theorem write_hex_fixed_width_counterexample :
    sprintf_hex 2 0x100 = "0x100\n".toList ∧
    ¬ FixedWidthHex 2 (sprintf_hex 2 0x100) ∧
    (usbg_set_config_bm_attrs configStore exampleConfig 0x100).1.get?
        (resolve "/cfg/usb_gadget/g1/configs/c.1/bmAttributes".toList)
      = some (Node.file "0x100\n".toList) ∧
    sprintf_hex 2 (-1) = "0xffffffff\n".toList ∧
    ¬ FixedWidthHex 2 (sprintf_hex 2 (-1)) ∧
    sprintf_hex 4 0x10000 = "0x10000\n".toList ∧
    ¬ FixedWidthHex 4 (sprintf_hex 4 0x10000) := by
  have e1 : sprintf_hex 2 0x100 = "0x100\n".toList := by decide!
  have e2 : sprintf_hex 2 (-1) = "0xffffffff\n".toList := by decide!
  have e3 : sprintf_hex 4 0x10000 = "0x10000\n".toList := by decide!
  refine ⟨e1, ?_, by decide!, e2, ?_, e3, ?_⟩
  · intro h
    have := h.length_eq
    rw [e1] at this
    revert this
    decide
  · intro h
    have := h.length_eq
    rw [e2] at this
    revert this
    decide
  · intro h
    have := h.length_eq
    rw [e3] at this
    revert this
    decide

/-- C12 at concrete inputs: `0xef` handed to the 8-bit setter of `bmAttributes`
gives the line `0xef`, held by the file of the config, and `0x1d6b` handed to
the 16-bit writer gives the line `0x1d6b`. -/
theorem write_hex_fixed_width_witness :
    (-(2 ^ 31) ≤ (0xef : Int) ∧ (0xef : Int) < 2 ^ 31) ∧
    FixedWidthHex 2 (sprintf_hex 2 0xef) ∧
    sprintf_hex 2 0xef = "0xef\n".toList ∧
    (usbg_set_config_bm_attrs configStore exampleConfig 0xef).1.get?
        (resolve "/cfg/usb_gadget/g1/configs/c.1/bmAttributes".toList)
      = some (Node.file "0xef\n".toList) ∧
    ((-(2 ^ 31) ≤ (0x1d6b : Int) ∧ (0x1d6b : Int) < 2 ^ 31)) ∧
    FixedWidthHex 4 (sprintf_hex 4 0x1d6b) ∧
    ¬ FixedWidthHex 2 (sprintf_hex 2 0x1d6b) := by
  have h8 := write_hex_fixed_width configStore exampleConfig.path exampleConfig.name
    "bmAttributes".toList 0xef (by decide)
  have h16 := write_hex_fixed_width configStore exampleConfig.path exampleConfig.name
    "bmAttributes".toList 0x1d6b (by decide)
  refine ⟨by decide, h8.2.2.2.2.1.2 (by decide), by decide!, by decide!, by decide,
    h16.2.2.2.2.2.1.2 (by decide), fun h => ?_⟩
  have := h16.2.2.2.2.1.1 h
  revert this
  decide


/-! ## C11: integer attributes read back -/

theorem hexDigit_not_sign : ∀ d, d < 16 → hexDigit d ≠ '-' ∧ hexDigit d ≠ '+' := by
  decide

/-- The function `fgets` reads a line that fits its buffer whole, newline
included. -/
theorem takeLine_line : ∀ (k : Nat) (s rest : Str), '\n' ∉ s → s.length < k →
    takeLine k (s ++ '\n' :: rest) = s ++ ['\n']
  | 0, _, _, _, h => by simp at h
  | k + 1, [], rest, _, _ => by simp [takeLine]
  | k + 1, c :: cs, rest, hn, hl => by
    have hc : c ≠ '\n' := fun e => hn (e ▸ List.mem_cons_self _ _)
    have hcs : '\n' ∉ cs := fun m => hn (List.mem_cons_of_mem _ m)
    show takeLine (k + 1) (c :: (cs ++ '\n' :: rest)) = c :: (cs ++ ['\n'])
    rw [takeLine, if_neg hc, takeLine_line k cs rest hcs (by simpa using hl)]

/-- The function `strtol` on a text that starts with a digit and, in base 16, has
no prefix `0x`. -/
theorem strtol_plain (base : Nat) (c : Char) (cs : Str) (hsp : isspace c = false)
    (hsign : c ≠ '-' ∧ c ≠ '+') (hpre : base = 16 → c ≠ '0') :
    strtol (c :: cs) base = min ((parseDigits base (c :: cs) 0 : Nat) : Int) (2 ^ 63 - 1) := by
  unfold strtol
  have h3 : ¬ (base = 16 ∧ c = '0' ∧
      ((c :: cs).tail.head? = some 'x' ∨ (c :: cs).tail.head? = some 'X')) := by
    rintro ⟨hb, h0, -⟩
    exact hpre hb h0
  simp only [List.dropWhile, hsp, List.head?_cons, Option.some.injEq, hsign.1, hsign.2,
    or_self, if_false, decide_False, Bool.false_eq_true]
  rw [if_neg h3]

/-- The function `strtol` in base 16 on a text with the prefix `0x`. -/
theorem strtol_0x (s : Str) :
    strtol ('0' :: 'x' :: s) 16 = min ((parseDigits 16 s 0 : Nat) : Int) (2 ^ 63 - 1) := by
  have hsp : isspace '0' = false := by decide
  unfold strtol
  simp [List.dropWhile, hsp]

/-- The function `strtol` in base 10 on a text with a minus sign. -/
theorem strtol_minus (s : Str) :
    strtol ('-' :: s) 10 = max (-((parseDigits 10 s 0 : Nat) : Int)) (-(2 ^ 63)) := by
  have hsp : isspace '-' = false := by decide
  unfold strtol
  simp [List.dropWhile, hsp]

theorem toInt32_of_int {v : Int} (h1 : -(2 ^ 31) ≤ v) (h2 : v < 2 ^ 31) : toInt32 v = v := by
  unfold toInt32
  omega

theorem natDigits_no_newline (base : Nat) (hb : 0 < base) (hb16 : base ≤ 16) (fuel n : Nat) :
    '\n' ∉ natDigits base fuel n := by
  intro h
  obtain ⟨d, hd, e⟩ := natDigits_mem base hb fuel n _ h
  exact hexDigit_ne_newline d (by omega) e.symm

theorem natDigits_ne_nil (base fuel n : Nat) : natDigits base (fuel + 1) n ≠ [] := by
  unfold natDigits
  split <;> simp

/-- The function `strtol` in base 10 reads the digits `%d` writes for a number that
is not negative back as the number. -/
theorem strtol_dec_digits (n : Nat) (hn : n < 10 ^ 10) :
    strtol (natDigits 10 10 n ++ ['\n']) 10 = min (n : Int) (2 ^ 63 - 1) := by
  cases hd : natDigits 10 10 n with
  | nil => exact absurd hd (natDigits_ne_nil 10 9 n)
  | cons c cs =>
    obtain ⟨d, hd10, rfl⟩ := natDigits_mem 10 (by omega) 10 n c
      (by rw [hd]; exact List.mem_cons_self _ _)
    rw [List.cons_append, strtol_plain 10 _ _ (hexDigit_not_space d (by omega))
      (hexDigit_not_sign d (by omega)) (fun h => absurd h (by decide))]
    rw [← List.cons_append, ← hd, parseDigits_natDigits 10 (by omega) (by omega) 10 n _ hn,
      parseDigits_newline]

/-- The line `"%d\n"` written for an `int` value reads back, through `fgets` with
room for at least twelve characters and `strtol` in base 10, as that value. -/
theorem dec_round_trip (v : Int) (h1 : -(2 ^ 31) ≤ v) (h2 : v < 2 ^ 31) (k : Nat)
    (hk : 12 ≤ k) (rest : Str) :
    toInt32 (strtol (takeLine k (printf_d v ++ '\n' :: rest)) 10) = v := by
  have hnl : ∀ n, '\n' ∉ natDigits 10 10 n :=
    natDigits_no_newline 10 (by omega) (by omega) 10
  have hlen : ∀ n, (natDigits 10 10 n).length ≤ 10 := natDigits_length_le 10 10
  unfold printf_d
  simp only [toInt32_of_int h1 h2]
  by_cases hneg : v < 0
  · simp only [if_pos hneg]
    have hm : ('-' : Char) ≠ '\n' := by decide
    have hline : takeLine k (('-' :: natDigits 10 10 (-v).toNat) ++ '\n' :: rest)
        = ('-' :: natDigits 10 10 (-v).toNat) ++ ['\n'] := by
      apply takeLine_line
      · intro h
        rcases List.mem_cons.1 h with h | h
        · exact hm h.symm
        · exact hnl _ h
      · have := hlen (-v).toNat
        simp only [List.length_cons]
        omega
    rw [hline, List.cons_append, strtol_minus,
      parseDigits_natDigits 10 (by omega) (by omega) 10 _ _ (by omega), parseDigits_newline]
    have e : (((-v).toNat : Nat) : Int) = -v := Int.toNat_of_nonneg (by omega)
    rw [e]
    unfold toInt32
    omega
  · simp only [if_neg hneg]
    have hline : takeLine k (natDigits 10 10 v.toNat ++ '\n' :: rest)
        = natDigits 10 10 v.toNat ++ ['\n'] := by
      apply takeLine_line _ _ _ (hnl _)
      have := hlen v.toNat
      omega
    rw [hline, strtol_dec_digits _ (by omega)]
    have e : ((v.toNat : Nat) : Int) = v := Int.toNat_of_nonneg (by omega)
    rw [e]
    unfold toInt32
    omega

/-- The line `"0x%0<w>x\n"` written for an `int` value, with a width up to 8,
reads back, through `fgets` with room for at least eleven characters and
`strtol` in base 16, as that value. -/
theorem hex_round_trip (v : Int) (h1 : -(2 ^ 31) ≤ v) (h2 : v < 2 ^ 31) (w : Nat) (hw : w ≤ 8)
    (k : Nat) (hk : 11 ≤ k) (rest : Str) :
    toInt32 (strtol (takeLine k ('0' :: 'x' :: printf_x w v ++ '\n' :: rest)) 16) = v := by
  have hm1 : v % 2 ^ 32 < 2 ^ 32 := Int.emod_lt_of_pos v (by norm_num)
  have hm2 : 0 ≤ v % 2 ^ 32 := Int.emod_nonneg v (by norm_num)
  have hline : takeLine k (('0' :: 'x' :: printf_x w v) ++ '\n' :: rest)
      = ('0' :: 'x' :: printf_x w v) ++ ['\n'] := by
    apply takeLine_line
    · intro h
      have h0 : ('0' : Char) ≠ '\n' := by decide
      have hx : ('x' : Char) ≠ '\n' := by decide
      rcases List.mem_cons.1 h with h | h
      · exact h0 h.symm
      · rcases List.mem_cons.1 h with h | h
        · exact hx h.symm
        · have := printf_x_lower w v _ h
          revert this
          decide
    · have := printf_x_length w v
      have := natDigits_length_le 16 8 (v % 2 ^ 32).toNat
      simp only [List.length_cons]
      omega
  rw [hline, List.cons_append, List.cons_append, strtol_0x]
  unfold printf_x
  simp only []
  rw [List.append_assoc, parseDigits_zeros 16 (by omega),
    parseDigits_natDigits 16 (by omega) (by omega) 8 _ _ (by
      have e : (16 : Nat) ^ 8 = 4294967296 := by norm_num
      rw [e]; omega), parseDigits_newline]
  have e : (((v % 2 ^ 32).toNat : Nat) : Int) = v % 2 ^ 32 := Int.toNat_of_nonneg hm2
  rw [e]
  unfold toInt32
  omega

/-- The function `usbg_read_buf` gives `NULL` just when the path names no file (nothing,
a directory or a link: `fopen` fails) or an empty file (`fgets` is at the end
of the file). -/
theorem usbg_read_buf_eq_none (hdr : Header) (st : Store) (path name file : Str) :
    usbg_read_buf hdr st path name file = none ↔
      ∀ c, st.get? (resolve (join3 path name file)) = some (Node.file c) → c = [] := by
  unfold usbg_read_buf fopen_r_fgets
  cases hget : st.get? (resolve (join3 path name file)) with
  | none => simp
  | some node =>
    cases node with
    | dir => simp
    | link t => simp
    | file c =>
      by_cases hc : c = []
      · simp [fgets, hc]
      · simp [fgets, hc]

theorem usbg_read_buf_of_file {hdr : Header} {st : Store} {path name file c : Str}
    (hget : st.get? (resolve (join3 path name file)) = some (Node.file c)) (hc : c ≠ []) :
    usbg_read_buf hdr st path name file = some (takeLine (hdr.USBG_MAX_STR_LENGTH - 1) c) := by
  unfold usbg_read_buf fopen_r_fgets
  rw [hget]
  simp [fgets, hc]

/-- C11.  For every path, entry name, attribute file and base,
`usbg_read_int` comes back with a value (it is a total function), and:
`usbg_read_buf` reads no line exactly when the path names no file (it is missing, or
a directory or a link, so that `fopen` fails) or names an empty file; in that
case `usbg_read_int` gives 0; otherwise the file holds a text `c` that is not empty
and `usbg_read_int` gives the `int` that `strtol` makes, in the base, of the line
`fgets` takes from `c`.  That value is the number the line spells: the line
`"%d\n"` of an `int` value reads back in base 10 as that value, and a line
`"0x%0<w>x\n"` of an `int` value (width up to 8) reads back in base 16 as
that value, when the line buffer has room for them (`USBG_MAX_STR_LENGTH` at
least 13).  `usbg_read_dec` and `usbg_read_hex` are `usbg_read_int` in base 10 and 16.  The
callers get plain values: on an entity without readable attribute files
`usbg_parse_gadget_attrs` gives a record of zeros, and `usbg_parse_config_attrs` gives
`MaxPower` and `bmAttributes` as 0. -/
theorem usbg_read_int_default (hdr : Header) (st : Store) (path name file : Str) (base : Nat) :
    (usbg_read_buf hdr st path name file = none ↔
      ∀ c, st.get? (resolve (join3 path name file)) = some (Node.file c) → c = []) ∧
    (usbg_read_buf hdr st path name file = none →
      usbg_read_int hdr st path name file base = 0) ∧
    (∀ c, st.get? (resolve (join3 path name file)) = some (Node.file c) → c ≠ [] →
      usbg_read_buf hdr st path name file = some (takeLine (hdr.USBG_MAX_STR_LENGTH - 1) c) ∧
      usbg_read_int hdr st path name file base
        = toInt32 (strtol (takeLine (hdr.USBG_MAX_STR_LENGTH - 1) c) base)) ∧
    (∀ (v : Int) (rest : Str), 13 ≤ hdr.USBG_MAX_STR_LENGTH → -(2 ^ 31) ≤ v → v < 2 ^ 31 →
      st.get? (resolve (join3 path name file)) = some (Node.file (printf_d v ++ '\n' :: rest)) →
      usbg_read_dec hdr st path name file = v) ∧
    (∀ (v : Int) (w : Nat) (rest : Str), 13 ≤ hdr.USBG_MAX_STR_LENGTH → -(2 ^ 31) ≤ v →
      v < 2 ^ 31 → w ≤ 8 →
      st.get? (resolve (join3 path name file))
        = some (Node.file ('0' :: 'x' :: printf_x w v ++ '\n' :: rest)) →
      usbg_read_hex hdr st path name file = v) ∧
    usbg_read_dec hdr st path name file = usbg_read_int hdr st path name file 10 ∧
    usbg_read_hex hdr st path name file = usbg_read_int hdr st path name file 16 ∧
    ((∀ f, usbg_read_buf hdr st path name f = none) →
      usbg_parse_gadget_attrs hdr st path name
        = { bcdusb := 0, dclass := 0, dsubclass := 0, dproto := 0, maxpacket := 0, vendor := 0,
            product := 0, bcddevice := 0 } ∧
      ∀ c : Config, c.path = path → c.name = name →
        (usbg_parse_config_attrs hdr st c).maxpower = 0 ∧
        (usbg_parse_config_attrs hdr st c).bmattrs = 0) := by
  refine ⟨usbg_read_buf_eq_none hdr st path name file, ?_, ?_, ?_, ?_, rfl, rfl, ?_⟩
  · intro h
    unfold usbg_read_int
    rw [h]
  · intro c hget hc
    have hb := @usbg_read_buf_of_file hdr _ _ _ _ _ hget hc
    refine ⟨hb, ?_⟩
    unfold usbg_read_int
    rw [hb]
  · intro v rest hbuf h1 h2 hget
    have hb := @usbg_read_buf_of_file hdr _ _ _ _ _ hget (by
      cases h : printf_d v <;> simp)
    unfold usbg_read_dec usbg_read_int
    rw [hb]
    exact dec_round_trip v h1 h2 _ (by omega) rest
  · intro v w rest hbuf h1 h2 hw hget
    have hb := @usbg_read_buf_of_file hdr _ _ _ _ _ hget (by simp)
    unfold usbg_read_hex usbg_read_int
    rw [hb]
    exact hex_round_trip v h1 h2 w hw _ (by omega) rest
  · intro h
    constructor
    · unfold usbg_parse_gadget_attrs usbg_read_hex usbg_read_int
      simp only [h]
    · intro c hp hn
      unfold usbg_parse_config_attrs usbg_read_dec usbg_read_hex usbg_read_int
      simp only [hp, hn, h]
      exact ⟨trivial, trivial⟩

/-- C11 at concrete inputs: of the config `c.1` in `attrStore`, the file
`MaxPower` holding `250` reads as 250, the empty file `bmAttributes` and the
missing file `bcdUSB` read as 0; the file `idVendor` holding `0x1d6b` reads, in
base 16, as `0x1d6b`. -/
theorem usbg_read_int_default_witness :
    usbg_read_dec exampleHeader attrStore "/cfg/usb_gadget/g1/configs".toList "c.1".toList
      "MaxPower".toList = 250 ∧
    usbg_read_int exampleHeader attrStore "/cfg/usb_gadget/g1/configs".toList "c.1".toList
      "bmAttributes".toList 16 = 0 ∧
    usbg_read_int exampleHeader attrStore "/cfg/usb_gadget/g1/configs".toList "c.1".toList
      "bcdUSB".toList 16 = 0 ∧
    usbg_read_hex exampleHeader g1Store3 "/cfg/usb_gadget".toList "g1".toList
      "idVendor".toList = 0x1d6b := by
  refine ⟨?_, ?_, ?_, ?_⟩
  · exact (usbg_read_int_default exampleHeader attrStore "/cfg/usb_gadget/g1/configs".toList
      "c.1".toList "MaxPower".toList 10).2.2.2.1 250 [] (by decide) (by decide) (by decide)
      (by decide!)
  · have h := usbg_read_int_default exampleHeader attrStore "/cfg/usb_gadget/g1/configs".toList
      "c.1".toList "bmAttributes".toList 16
    exact h.2.1 (h.1.2 (by
      have e : attrStore.get? (resolve (join3 "/cfg/usb_gadget/g1/configs".toList "c.1".toList
        "bmAttributes".toList)) = some (Node.file []) := by decide!
      intro c hc
      rw [e] at hc
      cases hc
      rfl))
  · have h := usbg_read_int_default exampleHeader attrStore "/cfg/usb_gadget/g1/configs".toList
      "c.1".toList "bcdUSB".toList 16
    exact h.2.1 (h.1.2 (by
      have e : attrStore.get? (resolve (join3 "/cfg/usb_gadget/g1/configs".toList "c.1".toList
        "bcdUSB".toList)) = none := by decide!
      intro c hc
      rw [e] at hc
      cases hc))
  · exact (usbg_read_int_default exampleHeader g1Store3 "/cfg/usb_gadget".toList
      "g1".toList "idVendor".toList 16).2.2.2.2.1 0x1d6b 4 [] (by decide) (by decide)
      (by decide) (by decide) (by decide!)


/-! ## The reload of the bindings -/

theorem strstr_append {a n : Str} (b : Str) (h : strstr a n = true) :
    strstr (a ++ b) n = true := by
  induction a with
  | nil =>
    have hn : n = [] := by simpa [strstr] using h
    subst hn
    cases b with
    | nil => rfl
    | cons c cs => simp [strstr]
  | cons c cs ih =>
    simp only [strstr, Bool.or_eq_true] at h
    rcases h with h | h
    · have : n.isPrefixOf (c :: (cs ++ b)) = true := by
        rw [ List.isPrefixOf_iff_prefix] at h ⊢
        exact h.trans (List.prefix_append (c :: cs) b)
      simp [strstr, this]
    · have := ih h
      simp [strstr, this]

/-- The inner loop of `usbg_parse_config_bindings` finds the first function, in
the order of the queue, that passes the test. -/
theorem foreach_target_eq_find {fs : TailQ Function} (contents : Str → Option Str)
    (hnul : ∀ n, (contents n).isSome) :
    ∀ (l : List Nat) (v : Option Nat) (fuel : Nat), Linked fs v l → l.length ≤ fuel →
      (∀ p ∈ l, (strtok (fs.elm p).name '.').isSome) →
      foreach_target fs contents fuel v = some (l.find? (target_test fs contents)) := by
  intro l
  induction l with
  | nil => intro v fuel h _ _; cases h; cases fuel <;> rfl
  | cons p l ih =>
    intro v fuel h hf htok
    obtain ⟨rfl, h2⟩ := h
    cases fuel with
    | zero => simp at hf
    | succ n =>
      obtain ⟨tok, htok'⟩ := Option.isSome_iff_exists.1 (htok p (List.mem_cons_self _ _))
      obtain ⟨text, htext⟩ := Option.isSome_iff_exists.1 (hnul (fs.elm p).name)
      simp only [foreach_target, htok', htext, List.find?_cons, target_test]
      by_cases hs : strstr text tok = true
      · simp [hs]
      · simp only [hs, Bool.false_eq_true, if_false]
        exact ih _ n h2 (by simpa using hf) fun r hr => htok r (List.mem_cons_of_mem _ hr)

/-- The bindings `usbg_parse_config_bindings` loads: one for every link of the
config whose text passes the test for some function of the gadget, in the
order of the links, each with the first such function as its target. -/
theorem usbg_parse_config_bindings_spec {hdr : Header} {st : Store} {unset : Unset}
    {g : Gadget} {l : List Nat}
    (hq : Holds g.functions l) (htok : ∀ p ∈ l, (strtok (g.functions.elm p).name '.').isSome)
    (hnul : ∀ p f, (unset p f).isSome) (c : Config) {links : List Str}
    (hlinks : scandir_names st (join2 c.path c.name) bindings_select = some links) :
    ∃ q, usbg_parse_config_bindings hdr st unset g c = some { c with bindings := q } ∧
      Loaded (fun d => (l.find? (target_test g.functions
          (link_contents hdr st unset (join2 (join2 c.path c.name) d)))).map
          fun f => ({ name := d, path := join2 c.path c.name, target := f } : Binding)) q
        (links.filter fun d => (l.find? (target_test g.functions
          (link_contents hdr st unset (join2 (join2 c.path c.name) d)))).isSome) := by
  unfold usbg_parse_config_bindings
  dsimp only
  rw [hlinks, Option.some_bind]
  clear hlinks
  have key : ∀ (rest done : List Str) (q : TailQ Binding),
      Loaded (fun d => (l.find? (target_test g.functions
          (link_contents hdr st unset (join2 (join2 c.path c.name) d)))).map
          fun f => ({ name := d, path := join2 c.path c.name, target := f } : Binding)) q done →
      ∃ q', rest.foldl (bindings_step hdr st unset g (join2 c.path c.name)) (some q) = some q' ∧
        Loaded (fun d => (l.find? (target_test g.functions
          (link_contents hdr st unset (join2 (join2 c.path c.name) d)))).map
          fun f => ({ name := d, path := join2 c.path c.name, target := f } : Binding)) q'
          (done ++ rest.filter fun d => (l.find? (target_test g.functions
            (link_contents hdr st unset (join2 (join2 c.path c.name) d)))).isSome) := by
    intro rest
    induction rest with
    | nil => intro done q h; exact ⟨q, rfl, by simpa using h⟩
    | cons d rest ih =>
      intro done q h
      have hfind := foreach_target_eq_find
        (link_contents hdr st unset (join2 (join2 c.path c.name) d))
        (link_contents_isSome hnul _)
        l g.functions.tqh_first g.functions.brk hq.linked hq.length_le htok
      rw [List.foldl_cons]
      cases hf : l.find? (target_test g.functions
          (link_contents hdr st unset (join2 (join2 c.path c.name) d))) with
      | none =>
        rw [hf] at hfind
        have hs : bindings_step hdr st unset g (join2 c.path c.name) (some q) d = some q := by
          simp only [bindings_step, hfind]
        obtain ⟨q', h1, h2⟩ := ih done q h
        refine ⟨q', by rw [hs]; exact h1, ?_⟩
        rw [List.filter_cons, hf]
        simpa using h2
      | some f =>
        rw [hf] at hfind
        have hs : bindings_step hdr st unset g (join2 c.path c.name) (some q) d
            = some (push_tail q { name := d, path := join2 c.path c.name, target := f }) := by
          simp only [bindings_step, hfind]
        have hstep := @Loaded.step _ _ q done h d
          ({ name := d, path := join2 c.path c.name, target := f } : Binding)
          (by simp only [hf, Option.map_some'])
        obtain ⟨q', h1, h2⟩ := ih (done ++ [d]) _ hstep
        refine ⟨q', by rw [hs]; exact h1, ?_⟩
        rw [List.filter_cons, hf]
        simpa using h2
  obtain ⟨q', h1, h2⟩ := key links [] TAILQ_INIT (Loaded.init_loaded _)
  refine ⟨q', ?_, by simpa using h2⟩
  rw [h1]
  rfl

theorem load_config_congr (hdr : Header) (st : Store) (unset : Unset) {g1 g2 : Gadget}
    (h : g1.functions = g2.functions) (cpath : Str) :
    load_config hdr st unset g1 cpath = load_config hdr st unset g2 cpath := by
  have hs : bindings_step hdr st unset g1 = bindings_step hdr st unset g2 := by
    funext b acc d
    unfold bindings_step
    rw [h]
  funext d
  unfold load_config usbg_parse_config_bindings
  dsimp only
  rw [hs]

theorem load_config_fields {hdr : Header} {st : Store} {unset : Unset} {g : Gadget}
    {cpath d : Str} {c : Config} (h : load_config hdr st unset g cpath d = some c) :
    c.name = d ∧ c.path = cpath := by
  unfold load_config usbg_parse_config_bindings at h
  dsimp only at h
  rw [Option.bind_eq_some] at h
  obtain ⟨links, -, h⟩ := h
  rw [Option.map_eq_some'] at h
  obtain ⟨q, -, rfl⟩ := h
  exact ⟨rfl, rfl⟩

/-- The gadget the loader builds for an entry: its functions and its configs are
the ones loaded for the entries of the two directories, in their order. -/
theorem load_gadget_spec {hdr : Header} {st : Store} {unset : Unset} {path spath d : Str}
    (htable : hdr.function_names ≠ []) {fs cs : List Str}
    (hfs : scandir_names st (join3 path d FUNCTIONS_DIR) file_select = some fs)
    (htok : ∀ f ∈ fs, (strtok f '.').isSome)
    (hcs : scandir_names st (join3 path d CONFIGS_DIR) file_select = some cs)
    (hdirs : ∀ c ∈ cs,
      (scandir_names st (join2 (join3 path d CONFIGS_DIR) c) bindings_select).isSome)
    (hnul : ∀ p f, (unset p f).isSome) :
    ∃ g, load_gadget hdr st unset path spath d = some g ∧ g.name = d ∧
      Loaded (load_function hdr st (join3 path d FUNCTIONS_DIR)) g.functions fs ∧
      Loaded (load_config hdr st unset g (join3 path d CONFIGS_DIR)) g.configs cs := by
  obtain ⟨qf, hfold, hloaded⟩ := Loaded.foldl fs [] TAILQ_INIT
    (Loaded.init_loaded (load_function hdr st (join3 path d FUNCTIONS_DIR)))
    (fun e _ => by
      unfold load_function
      rw [Option.isSome_map']
      exact usbg_lookup_function_type_isSome htable _)
  rw [List.nil_append] at hloaded
  have hpf : ∀ g : Gadget, g.name = d →
      usbg_parse_functions hdr st path g = some { g with functions := qf } := by
    intro g hg
    unfold usbg_parse_functions
    dsimp only
    rw [hg, hfs, Option.some_bind, hfold]
    rfl
  have htok' : ∀ p ∈ List.range fs.length, (strtok (qf.elm p).name '.').isSome := by
    intro p hp
    have hlt := List.mem_range.1 hp
    rw [load_function_name (hloaded.elm p hlt)]
    exact htok _ (List.get_mem _ _ _)
  have hpc : ∀ g : Gadget, g.name = d → g.functions = qf →
      ∃ qc, usbg_parse_configs hdr st unset path g = some { g with configs := qc } ∧
        Loaded (load_config hdr st unset g (join3 path d CONFIGS_DIR)) qc cs := by
    intro g hg hgf
    unfold usbg_parse_configs
    dsimp only
    rw [hg, hcs, Option.some_bind]
    obtain ⟨qc, hfoldc, hl⟩ := Loaded.foldl cs [] TAILQ_INIT
      (Loaded.init_loaded (load_config hdr st unset g (join3 path d CONFIGS_DIR)))
      (fun e he => by
        unfold load_config
        exact @usbg_parse_config_bindings_isSome hdr st unset g _
          (by rw [hgf]; exact hloaded.holds) (by rw [hgf]; exact htok') hnul _ (hdirs e he))
    rw [List.nil_append] at hl
    exact ⟨qc, by rw [hfoldc]; rfl, hl⟩
  have hg0 : ∃ g0 : Gadget, g0.name = d ∧ load_gadget hdr st unset path spath d
      = (usbg_parse_functions hdr st path g0).bind (usbg_parse_configs hdr st unset path) :=
    ⟨_, rfl, rfl⟩
  obtain ⟨g0, hn0, hl⟩ := hg0
  obtain ⟨qc, hqc, hlc⟩ := hpc { g0 with functions := qf } hn0 rfl
  refine ⟨{ g0 with functions := qf, configs := qc }, ?_, hn0, hloaded, ?_⟩
  · rw [hl, hpf g0 hn0, Option.some_bind, hqc]
  · rw [load_config_congr hdr st unset
      (show ({ g0 with functions := qf, configs := qc } : Gadget).functions
        = ({ g0 with functions := qf } : Gadget).functions from rfl)]
    exact hlc

/-- The state the loader builds: its gadgets are the ones loaded for the
entries of the root, in their order. -/
theorem usbg_init_spec {hdr : Header} {st : Store} {unset : Unset} {cpath : Str}
    (hroot : st.get? (resolve (cpath ++ "/usb_gadget".toList)) = some Node.dir)
    {ds : List Str}
    (hds : scandir_names st (cpath ++ "/usb_gadget".toList) file_select = some ds)
    (hload : ∀ d ∈ ds, (load_gadget hdr st unset (cpath ++ "/usb_gadget".toList)
      (cpath ++ "/usb_gadget".toList) d).isSome) :
    ∃ s, usbg_init hdr st unset cpath true = some (some s) ∧
      Loaded (load_gadget hdr st unset (cpath ++ "/usb_gadget".toList)
        (cpath ++ "/usb_gadget".toList)) s.gadgets ds := by
  obtain ⟨q, hfold, hloaded⟩ := Loaded.foldl ds [] TAILQ_INIT
    (Loaded.init_loaded (load_gadget hdr st unset (cpath ++ "/usb_gadget".toList)
      (cpath ++ "/usb_gadget".toList))) hload
  rw [List.nil_append] at hloaded
  refine ⟨{ path := cpath ++ "/usb_gadget".toList, gadgets := q }, ?_, hloaded⟩
  unfold usbg_init usbg_init_state usbg_parse_gadgets
  simp only [hroot, ne_eq, not_true_eq_false, if_false, Bool.not_true,
    Bool.false_eq_true, hds, Option.some_bind, hfold, Option.map_some']


/-! ## C8: the reload of the example, whatever the array `contents` holds -/

/-- The test of the inner loop passes for a function whose kind token occurs in
the text of the link, whatever the array holds behind the text. -/
theorem target_test_of_text {hdr : Header} {st : Store} {unset : Unset} {fs : TailQ Function}
    {cpath : Str} {p : Nat} {tok text : Str} (hnul : ∀ p f, (unset p f).isSome)
    (htok : strtok (fs.elm p).name '.' = some tok)
    (hr : readlink st cpath hdr.USBG_MAX_PATH_LENGTH = some text)
    (hs : strstr text tok = true) :
    target_test fs (link_contents hdr st unset cpath) p = true := by
  obtain ⟨tail, ht⟩ := Option.isSome_iff_exists.1 (hnul cpath (fs.elm p).name)
  simp only [target_test, htok, link_contents, ht, Option.map_some', hr, Option.getD_some]
  exact strstr_append tail hs

/-- In the tree loaded afresh from the store of the example, the bindings
`acm.GS0` and `acm.GS1` of the config `c.1` both target the function
`acm.usb0`, whatever the array `contents` of `usbg_parse_config_bindings` holds
behind the text of a link (a NUL being there). -/
theorem reload_example (unset : Unset) (hnul : ∀ p f, (unset p f).isSome) :
    ∃ g rest, load_and_get exampleHeader boundStore unset "/cfg".toList "g1".toList = some g ∧
      binding_targets g "c.1".toList
        = some (("acm.GS0".toList, "acm.usb0".toList) ::
            ("acm.GS1".toList, "acm.usb0".toList) :: rest) := by
  have htable : exampleHeader.function_names ≠ [] := by decide
  have hroot : boundStore.get? (resolve ("/cfg".toList ++ "/usb_gadget".toList))
      = some Node.dir := by decide!
  have hds : scandir_names boundStore ("/cfg".toList ++ "/usb_gadget".toList) file_select
      = some ["g1".toList] := by decide!
  have hfs : scandir_names boundStore
      (join3 ("/cfg".toList ++ "/usb_gadget".toList) "g1".toList FUNCTIONS_DIR) file_select
      = some ["acm.usb0".toList, "acm.usb1".toList, "ecm.usb0".toList] := by decide!
  have hcs : scandir_names boundStore
      (join3 ("/cfg".toList ++ "/usb_gadget".toList) "g1".toList CONFIGS_DIR) file_select
      = some ["c.1".toList] := by decide!
  have hlinks : scandir_names boundStore
      (join2 (join3 ("/cfg".toList ++ "/usb_gadget".toList) "g1".toList CONFIGS_DIR)
        "c.1".toList) bindings_select
      = some ["acm.GS0".toList, "acm.GS1".toList, "ecm.usb0".toList] := by decide!
  -- the gadget
  obtain ⟨g, hg, hgn, hLf, hLc⟩ := @load_gadget_spec exampleHeader boundStore unset
    ("/cfg".toList ++ "/usb_gadget".toList) ("/cfg".toList ++ "/usb_gadget".toList)
    "g1".toList htable _ _ hfs (by decide!) hcs
    (by
      intro c hc
      simp only [List.mem_singleton] at hc
      subst hc
      rw [hlinks]; rfl)
    hnul
  obtain ⟨s, hs, hLg⟩ := @usbg_init_spec exampleHeader boundStore unset "/cfg".toList hroot _ hds
    (by
      intro d hd
      simp only [List.mem_singleton] at hd
      subst hd
      rw [hg]; rfl)
  have hg0 : s.gadgets.elm 0 = g := by
    have := hLg.elm 0 (by decide)
    rw [show (["g1".toList] : List Str).get ⟨0, by decide⟩ = "g1".toList from rfl, hg] at this
    exact (Option.some.inj this).symm
  have hget : usbg_get_gadget s "g1".toList = some (some 0) := by
    rw [usbg_get_gadget_eq hLg.holds]
    have : List.range ["g1".toList].length = [0] := by decide
    rw [this, List.find?_cons, hg0, hgn, strcmp_self]
    rfl
  refine ⟨g, ?_⟩
  have hload : load_and_get exampleHeader boundStore unset "/cfg".toList "g1".toList = some g := by
    unfold load_and_get
    rw [hs]
    simp only [hget, hg0]
  -- the config
  have hc := hLc.elm 0 (by decide)
  rw [show (["c.1".toList] : List Str).get ⟨0, by decide⟩ = "c.1".toList from rfl] at hc
  have hcn := (load_config_fields hc).1
  have hgetc : usbg_get_config g "c.1".toList = some (some 0) := by
    rw [usbg_get_config_eq hLc.holds]
    have : List.range ["c.1".toList].length = [0] := by decide
    rw [this, List.find?_cons, hcn, strcmp_self]
    rfl
  -- the functions
  have hr3 : List.range ["acm.usb0".toList, "acm.usb1".toList, "ecm.usb0".toList].length
      = [0, 1, 2] := by decide
  have hHf := hLf.holds
  rw [hr3] at hHf
  have hn0 : (g.functions.elm 0).name = "acm.usb0".toList :=
    load_function_name (hLf.elm 0 (by decide))
  have hn1 : (g.functions.elm 1).name = "acm.usb1".toList :=
    load_function_name (hLf.elm 1 (by decide))
  have hn2 : (g.functions.elm 2).name = "ecm.usb0".toList :=
    load_function_name (hLf.elm 2 (by decide))
  have htokf : ∀ p ∈ [0, 1, 2], (strtok (g.functions.elm p).name '.').isSome := by
    intro p hp
    simp only [List.mem_cons, List.mem_singleton, List.not_mem_nil, or_false] at hp
    rcases hp with rfl | rfl | rfl
    · rw [hn0]; decide
    · rw [hn1]; decide
    · rw [hn2]; decide
  -- the bindings
  unfold load_config at hc
  obtain ⟨q, hq, hLb⟩ := usbg_parse_config_bindings_spec hHf htokf hnul
    (usbg_parse_config_attrs exampleHeader boundStore
      { name := "c.1".toList
        path := join3 ("/cfg".toList ++ "/usb_gadget".toList) "g1".toList CONFIGS_DIR
        maxpower := 0, bmattrs := 0, str_cfg := [], bindings := TAILQ_INIT }) hlinks
  rw [hq] at hc
  have hcb : (g.configs.elm 0).bindings = q := by
    rw [← Option.some.inj hc]
  have hT1 := @target_test_of_text exampleHeader boundStore unset g.functions
    (join2 (join2 (join3 ("/cfg".toList ++ "/usb_gadget".toList) "g1".toList CONFIGS_DIR)
      "c.1".toList) "acm.GS0".toList) 0 "acm".toList
    "/cfg/usb_gadget/g1/functions/acm.usb0".toList hnul (by rw [hn0]; decide!) (by decide!)
    (by decide!)
  have hT2 := @target_test_of_text exampleHeader boundStore unset g.functions
    (join2 (join2 (join3 ("/cfg".toList ++ "/usb_gadget".toList) "g1".toList CONFIGS_DIR)
      "c.1".toList) "acm.GS1".toList) 0 "acm".toList
    "/cfg/usb_gadget/g1/functions/acm.usb1".toList hnul (by rw [hn0]; decide!) (by decide!)
    (by decide!)
  have hT3 := @target_test_of_text exampleHeader boundStore unset g.functions
    (join2 (join2 (join3 ("/cfg".toList ++ "/usb_gadget".toList) "g1".toList CONFIGS_DIR)
      "c.1".toList) "ecm.usb0".toList) 2 "ecm".toList
    "/cfg/usb_gadget/g1/functions/ecm.usb0".toList hnul (by rw [hn2]; decide!) (by decide!)
    (by decide!)
  have hf1 : [0, 1, 2].find? (target_test g.functions (link_contents exampleHeader boundStore
      unset (join2 (join2 (join3 ("/cfg".toList ++ "/usb_gadget".toList) "g1".toList
        CONFIGS_DIR) "c.1".toList) "acm.GS0".toList))) = some 0 := by
    rw [List.find?_cons, hT1]
  have hf2 : [0, 1, 2].find? (target_test g.functions (link_contents exampleHeader boundStore
      unset (join2 (join2 (join3 ("/cfg".toList ++ "/usb_gadget".toList) "g1".toList
        CONFIGS_DIR) "c.1".toList) "acm.GS1".toList))) = some 0 := by
    rw [List.find?_cons, hT2]
  obtain ⟨t, hf3⟩ : ∃ t, [0, 1, 2].find? (target_test g.functions (link_contents exampleHeader
      boundStore unset (join2 (join2 (join3 ("/cfg".toList ++ "/usb_gadget".toList) "g1".toList
        CONFIGS_DIR) "c.1".toList) "ecm.usb0".toList))) = some t := by
    apply Option.isSome_iff_exists.1
    rw [List.find?_isSome]
    exact ⟨2, by simp, hT3⟩
  have hfilter : (["acm.GS0".toList, "acm.GS1".toList, "ecm.usb0".toList].filter fun d =>
      ([0, 1, 2].find? (target_test g.functions (link_contents exampleHeader boundStore unset
        (join2 (join2 (join3 ("/cfg".toList ++ "/usb_gadget".toList) "g1".toList CONFIGS_DIR)
          "c.1".toList) d)))).isSome)
      = ["acm.GS0".toList, "acm.GS1".toList, "ecm.usb0".toList] := by
    simp only [List.filter, hf1, hf2, hf3, Option.isSome_some]
  have hLb' : Loaded (fun d => ([0, 1, 2].find? (target_test g.functions
      (link_contents exampleHeader boundStore unset
        (join2 (join2 (join3 ("/cfg".toList ++ "/usb_gadget".toList) "g1".toList CONFIGS_DIR)
          "c.1".toList) d)))).map
      fun f => ({ name := d
                  path := join2 (join3 ("/cfg".toList ++ "/usb_gadget".toList) "g1".toList
                    CONFIGS_DIR) "c.1".toList
                  target := f } : Binding)) q
      ["acm.GS0".toList, "acm.GS1".toList, "ecm.usb0".toList] := by
    have := hLb
    rw [show (usbg_parse_config_attrs exampleHeader boundStore
      { name := "c.1".toList
        path := join3 ("/cfg".toList ++ "/usb_gadget".toList) "g1".toList CONFIGS_DIR
        maxpower := 0, bmattrs := 0, str_cfg := [], bindings := TAILQ_INIT }).path
        = join3 ("/cfg".toList ++ "/usb_gadget".toList) "g1".toList CONFIGS_DIR from rfl,
      show (usbg_parse_config_attrs exampleHeader boundStore
      { name := "c.1".toList
        path := join3 ("/cfg".toList ++ "/usb_gadget".toList) "g1".toList CONFIGS_DIR
        maxpower := 0, bmattrs := 0, str_cfg := [], bindings := TAILQ_INIT }).name
        = "c.1".toList from rfl, hfilter] at this
    exact this
  have he0 := hLb'.elm 0 (by decide)
  have he1 := hLb'.elm 1 (by decide)
  have he2 := hLb'.elm 2 (by decide)
  simp only [List.get_eq_getElem, List.getElem_cons_zero, List.getElem_cons_succ, hf1, hf2, hf3,
    Option.map_some', Option.some.injEq] at he0 he1 he2
  have hlist : q.toList = some [0, 1, 2] := hLb'.holds.toList_eq
  refine ⟨[("ecm.usb0".toList, (g.functions.elm t).name)], hload, ?_⟩
  unfold binding_targets
  rw [hgetc]
  simp only [binding_list, hcb, hlist, Option.map_some', List.map_cons, List.map_nil,
    ← he0, ← he1, ← he2, hn0]


/-- C8 (the code departs from the claim).  After the calls of the example
(functions `acm.usb0`, `acm.usb1`, `ecm.usb0`; config `c.1`; bindings
`acm.GS0`, `acm.GS1`, `ecm.usb0`, every call successful) the binding `acm.GS1`
targets `acm.usb1` in memory and the link `c.1/acm.GS1` of the store holds the
path of `acm.usb1`; in the tree loaded afresh from that store the binding
`acm.GS1` targets `acm.usb0`.  This is so when the array `contents` holds a
NUL right behind the text of each link, and, for the bindings `acm.GS0` and
`acm.GS1`, whatever the array holds behind the text (a NUL being there). -/
theorem reload_binding_targets_first_of_kind :
    (exampleBound.bind fun r => binding_targets r.2 "c.1".toList)
      = some [("acm.GS0".toList, "acm.usb0".toList), ("acm.GS1".toList, "acm.usb1".toList),
          ("ecm.usb0".toList, "ecm.usb0".toList)] ∧
    (exampleBound.map fun r =>
        readlink r.1 "/cfg/usb_gadget/g1/configs/c.1/acm.GS1".toList 256)
      = some (some "/cfg/usb_gadget/g1/functions/acm.usb1".toList) ∧
    (exampleBound.bind fun r =>
        (load_and_get exampleHeader r.1 zeroed "/cfg".toList "g1".toList).bind fun g =>
          binding_targets g "c.1".toList)
      = some [("acm.GS0".toList, "acm.usb0".toList), ("acm.GS1".toList, "acm.usb0".toList),
          ("ecm.usb0".toList, "ecm.usb0".toList)] ∧
    (∀ unset : Unset, (∀ p f, (unset p f).isSome) →
      ∃ g rest, (exampleBound.bind fun r =>
          load_and_get exampleHeader r.1 unset "/cfg".toList "g1".toList) = some g ∧
        binding_targets g "c.1".toList
          = some (("acm.GS0".toList, "acm.usb0".toList) ::
              ("acm.GS1".toList, "acm.usb0".toList) :: rest)) := by
  refine ⟨by decide!, by decide!, by decide!, ?_⟩
  intro unset hnul
  obtain ⟨g, rest, hg, hb⟩ := reload_example unset hnul
  refine ⟨g, rest, ?_, hb⟩
  have hB : (exampleBound.map fun r => r.1) = some boundStore := by decide!
  cases hE : exampleBound with
  | none => rw [hE] at hB; cases hB
  | some r =>
    rw [hE] at hB
    simp only [Option.map_some', Option.some.injEq] at hB
    rw [Option.some_bind, hB]
    exact hg

end Usbg
